import Mathlib

/-!
# Value navigation and coercion (`util.go` of the validator package)

A shallow embedding of `extractTypeInternal`, `getStructFieldOKInternal`, the `asX`
parsers, `mutate` and `interNilType`, together with the parts of the Go standard library
(`reflect`, `strconv`, `strings`) that these functions call.

Conventions.
* A Go string is the list of its bytes; namespaces are ASCII text (spec §6), so one
  `Char` stands for one byte.
* The platform is 64-bit: `int` and `uint` are 64 bits wide.
* A `reflect.Value` is a `Handle`: `none` is the zero Value (kind `Invalid`), `some x`
  a valid one.
* A panic is an explicit outcome; it is never confused with a returned result.
-/

set_option autoImplicit false

namespace Validator

/-- Go string: the sequence of its bytes (ASCII). -/
abbrev GoString := List Char

/-! ## reflect: kinds and types -/

/-- Kinds of `reflect.Kind`. -/
inductive Kind
  | Invalid | Bool
  | Int | Int8 | Int16 | Int32 | Int64
  | Uint | Uint8 | Uint16 | Uint32 | Uint64 | Uintptr
  | Float32 | Float64 | Complex64 | Complex128
  | Array | Chan | Func | Interface | Map | Ptr | Slice | String | Struct | UnsafePointer
  deriving DecidableEq, Repr

/-- Predeclared (built-in) scalar types of Go: `bool`, `int`, ..., `string`. -/
inductive Basic
  | Bool
  | Int | Int8 | Int16 | Int32 | Int64
  | Uint | Uint8 | Uint16 | Uint32 | Uint64 | Uintptr
  | Float32 | Float64 | Complex64 | Complex128
  | String | UnsafePointer
  deriving DecidableEq, Repr

/-- Kind of a predeclared type. -/
def Basic.Kind : Basic → Kind
  | .Bool => .Bool
  | .Int => .Int | .Int8 => .Int8 | .Int16 => .Int16 | .Int32 => .Int32 | .Int64 => .Int64
  | .Uint => .Uint | .Uint8 => .Uint8 | .Uint16 => .Uint16 | .Uint32 => .Uint32
  | .Uint64 => .Uint64 | .Uintptr => .Uintptr
  | .Float32 => .Float32 | .Float64 => .Float64
  | .Complex64 => .Complex64 | .Complex128 => .Complex128
  | .String => .String | .UnsafePointer => .UnsafePointer

/-- Go types (`reflect.Type`), up to identity.  A struct or interface type is identified by
its name; `timeLike` records whether the struct type is convertible to `time.Time`, and
`methods` whether the interface type has a non-empty method set. -/
inductive GoType
  | basic (b : Basic)
  | named (name : GoString) (under : GoType)
  | ptr (elem : GoType)
  | slice (elem : GoType)
  | array (len : Nat) (elem : GoType)
  | map (key elem : GoType)
  | struct (name : GoString) (timeLike : Bool)
  | iface (name : GoString) (methods : Bool)
  | chan (elem : GoType)
  | func (sig : GoString)
  deriving DecidableEq, Repr

/-- Model of `Type.Kind()`. -/
def GoType.Kind : GoType → Kind
  | .basic b => b.Kind
  | .named _ u => u.Kind
  | .ptr _ => .Ptr
  | .slice _ => .Slice
  | .array _ _ => .Array
  | .map _ _ => .Map
  | .struct _ _ => .Struct
  | .iface _ _ => .Interface
  | .chan _ => .Chan
  | .func _ => .Func

/-- Underlying type: the definition of a defined type, the type itself otherwise. -/
def GoType.underlying : GoType → GoType
  | .named _ u => u.underlying
  | t => t

/-- Model of `typ.ConvertibleTo(timeType)` for a type of kind Struct: the struct type has the
underlying type of `time.Time`. -/
def GoType.ConvertibleToTime (t : GoType) : Bool :=
  match t.underlying with
  | .struct _ timeLike => timeLike
  | _ => false

/-- Optional name of a defined type: `none` for the predeclared or unnamed type. -/
abbrev TName := Option GoString

/-- The type `under`, or the defined type `name` over it. -/
def tname : TName → GoType → GoType
  | none, t => t
  | some n, t => .named n t

/-! ## reflect: values -/

/-- Payload of a scalar value.  Floats are kept as their bit pattern. -/
inductive Data
  | bool (b : Bool)
  | int (i : Int)
  | uint (u : Nat)
  | float (bits : Nat)
  | complex (re im : Nat)
  | str (s : GoString)
  | addr (a : Nat)
  deriving DecidableEq, Repr

/-- Key stored in a map: a scalar of the map's key type, a scalar boxed in an interface-typed
key slot together with its dynamic type, or a key of another comparable kind. -/
inductive MapKey
  | data (d : Data)
  | boxed (t : GoType) (d : Data)
  | other (id : Nat)
  deriving DecidableEq, Repr

/-- Values that a valid `reflect.Value` can hold.  Every constructor fixes the kind, and
carries what is needed to compute the value's type. -/
inductive Val
  | scalar (n : TName) (b : Basic) (d : Data)
  | nilPtr (n : TName) (elem : GoType)
  | ptr (n : TName) (elem : GoType) (target : Val)
  | nilIface (t : GoType)
  | iface (t : GoType) (dyn : Val)
  | struct (name : GoString) (timeLike : Bool) (fields : List (GoString × Val))
  | slice (n : TName) (elem : GoType) (elems : List Val)
  | array (n : TName) (elem : GoType) (elems : List Val)
  | map (n : TName) (key elem : GoType) (entries : List (MapKey × Val))
  | chan (n : TName) (elem : GoType)
  | func (n : TName) (sig : GoString)

/-- A `reflect.Value`: `none` is the zero Value. -/
abbrev Handle := Option Val

/-- Model of `Value.Kind()` of a valid value. -/
def Val.Kind : Val → Kind
  | .scalar _ b _ => b.Kind
  | .nilPtr _ _ => .Ptr
  | .ptr _ _ _ => .Ptr
  | .nilIface _ => .Interface
  | .iface _ _ => .Interface
  | .struct _ _ _ => .Struct
  | .slice _ _ _ => .Slice
  | .array _ _ _ => .Array
  | .map _ _ _ _ => .Map
  | .chan _ _ => .Chan
  | .func _ _ => .Func

/-- Model of `Value.Type()` of a valid value. -/
def Val.Type : Val → GoType
  | .scalar n b _ => tname n (.basic b)
  | .nilPtr n e => tname n (.ptr e)
  | .ptr n e _ => tname n (.ptr e)
  | .nilIface t => t
  | .iface t _ => t
  | .struct name tl _ => .struct name tl
  | .slice n e _ => tname n (.slice e)
  | .array n e xs => tname n (.array xs.length e)
  | .map n k e _ => tname n (.map k e)
  | .chan n e => tname n (.chan e)
  | .func n s => tname n (.func s)

/-- Model of `Value.Kind()`: the zero Value has kind Invalid. -/
def Handle.Kind : Handle → Kind
  | none => .Invalid
  | some x => x.Kind

/-- Number of non-nil pointer and interface layers on top of a value. -/
def Val.layers : Val → Nat
  | .ptr _ _ t => t.layers + 1
  | .iface _ d => d.layers + 1
  | _ => 0

/-! ## Panics -/

/-- Ways in which the code can panic. -/
inductive Panic
  | invalidNamespace
  | sliceBounds
  | indexOutOfRange
  | wrongKind
  | notAssignable
  | notSettable
  | conversion
  deriving DecidableEq, Repr

/-! ## strings -/

/-- Whether `s` starts with `sub`. -/
def beginsWith : GoString → GoString → Bool
  | _, [] => true
  | [], _ :: _ => false
  | c :: cs, d :: ds => c == d && beginsWith cs ds

/-- Search loop of `strings.Index`: `i` is the offset of the remaining text. -/
def strings.IndexFrom (sub : GoString) : GoString → Nat → Int
  | [], i => if sub = [] then (i : Int) else -1
  | c :: cs, i => if beginsWith (c :: cs) sub then (i : Int) else strings.IndexFrom sub cs (i + 1)

/-- Model of `strings.Index(s, substr)`: offset of the first occurrence of `substr` in `s`, or -1. -/
def strings.Index (s sub : GoString) : Int := strings.IndexFrom sub s 0

/-- Slice expression `s[lo:hi]`; panics unless `0 ≤ lo ≤ hi ≤ len(s)`. -/
def sliceStr (s : GoString) (lo hi : Int) : Except Panic GoString :=
  if 0 ≤ lo ∧ lo ≤ hi ∧ hi ≤ (s.length : Int) then
    .ok ((s.drop lo.toNat).take (hi.toNat - lo.toNat))
  else .error .sliceBounds

/-- Slice expression `s[lo:]`. -/
def sliceFrom (s : GoString) (lo : Int) : Except Panic GoString := sliceStr s lo s.length

/-- Slice expression `s[:hi]`. -/
def sliceTo (s : GoString) (hi : Int) : Except Panic GoString := sliceStr s 0 hi

/-! ## strconv -/

/-- Errors of `strconv` (`ErrSyntax`, `ErrRange`, invalid base, invalid bit size). -/
inductive NumError
  | malformed
  | outOfRange
  | badBase
  | badBitSize
  deriving DecidableEq, Repr

/-- Byte-wise `lower(c) = c | ('x' - 'X')` of strconv. -/
def strconv.lower (c : Char) : Nat := c.toNat ||| 32

/-- Digit value of a byte in the loop of `ParseUint`; `none` is a syntax error. -/
def strconv.digitVal (c : Char) : Option Nat :=
  if 48 ≤ c.toNat ∧ c.toNat ≤ 57 then some (c.toNat - 48)
  else if 97 ≤ strconv.lower c ∧ strconv.lower c ≤ 122 then some (strconv.lower c - 97 + 10)
  else none

/-- Digit loop of `ParseUint`.  Returns the accumulated value and whether an underscore was
seen, or the value and error of the early return. -/
def strconv.ParseUintLoop (base : Nat) (base0 : Bool) (cutoff maxVal : Nat) :
    GoString → Nat → Bool → Except (Nat × NumError) (Nat × Bool)
  | [], n, underscores => .ok (n, underscores)
  | c :: cs, n, underscores =>
    if c = '_' ∧ base0 = true then strconv.ParseUintLoop base base0 cutoff maxVal cs n true
    else
      match strconv.digitVal c with
      | none => .error (0, .malformed)
      | some d =>
        if d ≥ base then .error (0, .malformed)
        else if n ≥ cutoff then .error (maxVal, .outOfRange)
        else
          let n0 := (n * base) % 2 ^ 64
          let n1 := (n0 + d) % 2 ^ 64
          if n1 < n0 ∨ n1 > maxVal then .error (maxVal, .outOfRange)
          else strconv.ParseUintLoop base base0 cutoff maxVal cs n1 underscores

/-- State machine of `underscoreOK` after the optional sign and base marker: `saw` is
0 for the beginning, 1 for a digit, 2 for an underscore, 3 for anything else. -/
def strconv.underscoreScan (hex : Bool) : GoString → Nat → Bool
  | [], saw => saw != 2
  | c :: cs, saw =>
    if (48 ≤ c.toNat ∧ c.toNat ≤ 57) ∨
        (hex = true ∧ 97 ≤ strconv.lower c ∧ strconv.lower c ≤ 102) then
      strconv.underscoreScan hex cs 1
    else if c = '_' then
      if saw != 1 then false else strconv.underscoreScan hex cs 2
    else if saw = 2 then false
    else strconv.underscoreScan hex cs 3

/-- Model of `underscoreOK(s)`: underscores appear only between digits or after the base marker. -/
def strconv.underscoreOK (s : GoString) : Bool :=
  let s1 := match s with
    | c :: cs => if c = '-' ∨ c = '+' then cs else s
    | [] => s
  match s1 with
  | c0 :: c1 :: rest =>
    if c0 = '0' ∧ (strconv.lower c1 = 98 ∨ strconv.lower c1 = 111 ∨ strconv.lower c1 = 120) then
      strconv.underscoreScan (strconv.lower c1 == 120) rest 1
    else strconv.underscoreScan false s1 0
  | _ => strconv.underscoreScan false s1 0

/-- Base and remaining digits chosen by `ParseUint` when called with base 0. -/
def strconv.pickBase (s : GoString) : Nat × GoString :=
  match s with
  | '0' :: c1 :: c2 :: rest =>
    if strconv.lower c1 = 98 then (2, c2 :: rest)
    else if strconv.lower c1 = 111 then (8, c2 :: rest)
    else if strconv.lower c1 = 120 then (16, c2 :: rest)
    else (8, c1 :: c2 :: rest)
  | '0' :: rest => (8, rest)
  | _ => (10, s)

/-- Model of `strconv.ParseUint(s, base, bitSize)`: the returned value and error. -/
def strconv.ParseUint (s : GoString) (base bitSize : Nat) : Nat × Option NumError :=
  if s = [] then (0, some .malformed)
  else if ¬ (base = 0 ∨ (2 ≤ base ∧ base ≤ 36)) then (0, some .badBase)
  else
    let base0 : Bool := base == 0
    let bd : Nat × GoString := if base = 0 then strconv.pickBase s else (base, s)
    if bitSize > 64 then (0, some .badBitSize)
    else
      let bits := if bitSize = 0 then 64 else bitSize
      let cutoff := (2 ^ 64 - 1) / bd.1 + 1
      let maxVal := 2 ^ bits - 1
      match strconv.ParseUintLoop bd.1 base0 cutoff maxVal bd.2 0 false with
      | .error (n, e) => (n, some e)
      | .ok (n, underscores) =>
        if underscores = true ∧ strconv.underscoreOK s = false then (0, some .malformed)
        else (n, none)

/-- Model of `strconv.ParseInt(s, base, bitSize)`: the returned value and error. -/
def strconv.ParseInt (s : GoString) (base bitSize : Nat) : Int × Option NumError :=
  match s with
  | [] => (0, some .malformed)
  | c :: cs =>
    let neg : Bool := c == '-'
    let s1 := if c = '+' ∨ c = '-' then cs else s
    match strconv.ParseUint s1 base 64 with
    | (_, some .malformed) => (0, some .malformed)
    | (_, some .badBase) => (0, some .badBase)
    | (_, some .badBitSize) => (0, some .badBitSize)
    | (un, _) =>
      let bits := if bitSize = 0 then 64 else bitSize
      let cutoff : Nat := 2 ^ (bits - 1)
      if neg = false ∧ un ≥ cutoff then ((cutoff : Int) - 1, some .outOfRange)
      else if neg = true ∧ un > cutoff then (- (cutoff : Int), some .outOfRange)
      else if neg then (- (un : Int), none) else ((un : Int), none)

/-- Digit loop of the fast path of `Atoi`; `none` is a syntax error. -/
def strconv.AtoiFast : GoString → Int → Option Int
  | [], n => some n
  | ch :: rest, n =>
    if 48 ≤ ch.toNat ∧ ch.toNat ≤ 57 then strconv.AtoiFast rest (n * 10 + ((ch.toNat - 48 : Nat) : Int))
    else none

/-- Model of `strconv.Atoi(s)` on a 64-bit platform: the returned value and error. -/
def strconv.Atoi (s : GoString) : Int × Option NumError :=
  if 0 < s.length ∧ s.length < 19 then
    match s with
    | [] => (0, some .malformed)
    | c :: cs =>
      let digits := if c = '-' ∨ c = '+' then cs else s
      if digits = [] then (0, some .malformed)
      else
        match strconv.AtoiFast digits 0 with
        | none => (0, some .malformed)
        | some n => if c = '-' then (-n, none) else (n, none)
  else strconv.ParseInt s 10 0

/-- Model of `strconv.ParseBool(str)`: the returned value and error. -/
def strconv.ParseBool (s : GoString) : Bool × Option NumError :=
  if s = ['1'] ∨ s = ['t'] ∨ s = ['T'] ∨ s = ['T', 'R', 'U', 'E'] ∨ s = ['t', 'r', 'u', 'e'] ∨
      s = ['T', 'r', 'u', 'e'] then (true, none)
  else if s = ['0'] ∨ s = ['f'] ∨ s = ['F'] ∨ s = ['F', 'A', 'L', 'S', 'E'] ∨
      s = ['f', 'a', 'l', 's', 'e'] ∨ s = ['F', 'a', 'l', 's', 'e'] then (false, none)
  else (false, some .malformed)

/-- Standard-library functions that are taken as given: floating-point parsing, narrowing and
comparison (on bit patterns), and `time.ParseDuration` (nanoseconds, `none` on error). -/
structure Lib where
  ParseFloat : GoString → Nat → Nat × Option NumError
  float32 : Nat → Nat
  floatEq : Nat → Nat → Bool
  ParseDuration : GoString → Option Int

/-! ## reflect: operations on values -/

/-- Model of `Value.IsNil()`.  The code calls it on pointers, interfaces and unsafe pointers only; the
nil state of channels, functions, maps and slices is not tracked and reads as not nil. -/
def Val.IsNil : Val → Except Panic Bool
  | .nilPtr _ _ => .ok true
  | .ptr _ _ _ => .ok false
  | .nilIface _ => .ok true
  | .iface _ _ => .ok false
  | .scalar _ .UnsafePointer d => .ok (d == .addr 0)
  | .scalar _ _ _ => .error .wrongKind
  | .struct _ _ _ => .error .wrongKind
  | .array _ _ _ => .error .wrongKind
  | _ => .ok false

/-- Model of `Value.Elem()`: the value a pointer points to or an interface contains; the zero Value
for a nil pointer or interface; a panic for every other kind. -/
def Val.Elem : Val → Except Panic Handle
  | .ptr _ _ t => .ok (some t)
  | .nilPtr _ _ => .ok none
  | .iface _ d => .ok (some d)
  | .nilIface _ => .ok none
  | _ => .error .wrongKind

/-- First field with the given name. -/
def lookupField (name : GoString) : List (GoString × Val) → Handle
  | [] => none
  | (n, x) :: rest => if n = name then some x else lookupField name rest

/-- Model of `Value.FieldByName(name)` on a struct without embedded fields: the field, or the zero
Value when the struct has no field of that name (no Go field has the empty name); a panic
when the value is not a struct. -/
def Val.FieldByName : Val → GoString → Except Panic Handle
  | .struct _ _ fields, name => .ok (if name = [] then none else lookupField name fields)
  | _, _ => .error .wrongKind

/-- Model of `Value.Len()` of an array, slice, map or string. -/
def Val.Len : Val → Except Panic Int
  | .slice _ _ xs => .ok xs.length
  | .array _ _ xs => .ok xs.length
  | .map _ _ _ es => .ok es.length
  | .scalar _ .String (.str s) => .ok s.length
  | _ => .error .wrongKind

/-- Model of `Value.Index(i)` of an array or slice: panics when `i` is out of range. -/
def Val.Index : Val → Int → Except Panic Handle
  | .slice _ _ xs, i | .array _ _ xs, i =>
    if 0 ≤ i ∧ i < (xs.length : Int) then
      match xs.get? i.toNat with
      | some x => .ok (some x)
      | none => .error .indexOutOfRange
    else .error .indexOutOfRange
  | _, _ => .error .wrongKind

/-- Model of `Type.Key()`: key type of a map type. -/
def GoType.Key (t : GoType) : Except Panic GoType :=
  match t.underlying with
  | .map k _ => .ok k
  | _ => .error .wrongKind

/-- Equality of map keys: floats compare by the library's `==`, everything else by value. -/
def keyEq (L : Lib) : MapKey → MapKey → Bool
  | .data (.float a), .data (.float b) => L.floatEq a b
  | .boxed t (.float a), .boxed u (.float b) => t == u && L.floatEq a b
  | a, b => a == b

/-- Entry stored under a key. -/
def lookupKey (L : Lib) (k : MapKey) : List (MapKey × Val) → Handle
  | [] => none
  | (k1, x) :: rest => if keyEq L k1 k then some x else lookupKey L k rest

/-- Model of `Value.MapIndex(key)` for a key of a predeclared scalar type, as built by
`reflect.ValueOf` in the code.  Such a key is assignable to the map's key type exactly when
the two types are identical or the key type is an interface without methods; otherwise
MapIndex panics.  A missing key gives the zero Value. -/
def Val.MapIndex (L : Lib) : Val → Val → Except Panic Handle
  | .map _ kt _ entries, .scalar n b d =>
    if tname n (.basic b) = kt then .ok (lookupKey L (.data d) entries)
    else
      match kt.underlying with
      | .iface _ false => .ok (lookupKey L (.boxed (tname n (.basic b)) d) entries)
      | _ => .error .notAssignable
  | .map _ _ _ _, _ => .error .notAssignable
  | _, _ => .error .wrongKind

/-- Conversion `intN(i)` of an `int64`: wraparound into the signed range of `bits` bits. -/
def toIntN (bits : Nat) (i : Int) : Int :=
  (i + 2 ^ (bits - 1)) % 2 ^ bits - 2 ^ (bits - 1)

/-- Conversion `uintN(u)` of a `uint64`: truncation to `bits` bits. -/
def toUintN (bits : Nat) (u : Nat) : Nat := u % 2 ^ bits

/-! ## The validator -/

/-- The fields of `Validate` read by `util.go`: the custom unwrap registry. -/
structure validate where
  hasCustomFuncs : Bool
  customFuncs : GoType → Option (Val → Handle)

/-- Modelled from the spec: the constants `namespaceSeparator`, `leftBracket` and
`rightBracket` are declared outside `util.go`; §3 gives `.` as the segment separator. -/
def namespaceSeparator : GoString := ['.']

/-- Modelled from the spec: declared outside `util.go`; §3 gives `[` as the opening bracket
of an index or key. -/
def leftBracket : GoString := ['[']

/-- Modelled from the spec: declared outside `util.go`; §3 gives `]` as the closing bracket
of an index or key. -/
def rightBracket : GoString := [']']

/-- Modelled from the spec: `timeDurationType` is declared outside `util.go`; §4.3 calls it
the "elapsed-time duration" type, which is `time.Duration`, a defined type over `int64`. -/
def timeDurationType : GoType :=
  .named ['t', 'i', 'm', 'e', '.', 'D', 'u', 'r', 'a', 't', 'i', 'o', 'n'] (.basic .Int64)

/-- The pointer and interface cases of the switch of `extractTypeInternal` (lines 20-40):
every non-nil layer is entered with `nullable = true`, a nil layer stops the descent.  The
`goto BEGIN` of these cases is a recursion on the value. -/
def stripLayers : Val → Bool → Val × Bool
  | .ptr _ _ t, _ => stripLayers t true
  | .iface _ d, _ => stripLayers d true
  | .nilPtr n e, _ => (.nilPtr n e, true)
  | .nilIface t, _ => (.nilIface t, true)
  | x, nullable => (x, nullable)

/-- Model of `extractTypeInternal(current, nullable)` (lines 16-57).  The result is the returned
triple; `none` means the fuel ran out.  One unit of fuel is used by each `goto BEGIN` that
follows the application of a custom function (line 51), the only jump that does not move
to a smaller value. -/
def extractTypeInternal (v : validate) : Nat → Handle → Bool → Option (Handle × Kind × Bool)
  | _, none, nullable => some (none, .Invalid, nullable)
  | fuel, some x, nullable =>
    match (stripLayers x nullable).1.Kind with
    | .Ptr => some (some (stripLayers x nullable).1, .Ptr, (stripLayers x nullable).2)
    | .Interface => some (some (stripLayers x nullable).1, .Interface, (stripLayers x nullable).2)
    | k =>
      if v.hasCustomFuncs then
        match v.customFuncs (stripLayers x nullable).1.Type with
        | some fn =>
          match fuel with
          | 0 => none
          | f + 1 => extractTypeInternal v f (fn (stripLayers x nullable).1) (stripLayers x nullable).2
        | none => some (some (stripLayers x nullable).1, k, (stripLayers x nullable).2)
      else some (some (stripLayers x nullable).1, k, (stripLayers x nullable).2)

/-- Modelled from the spec: `ExtractType` is a method declared outside `util.go`; §4.2 has
the resolver "settle via 4.1" the current value, starting with no indirection traversed. -/
def validate.ExtractType (v : validate) (fuel : Nat) (field : Handle) :
    Option (Handle × Kind × Bool) :=
  extractTypeInternal v fuel field false

/-- What a call of `getStructFieldOKInternal` does: it returns its four results, it panics,
or the fuel of the embedding ran out. -/
inductive Outcome
  | ret (current : Handle) (kind : Kind) (nullable : Bool) (found : Bool)
  | panic (p : Panic)
  | outOfFuel

/-- The Struct case for a struct that is not convertible to the time type (lines 90-107):
the field value and the rest of the namespace for the next pass. -/
def structStep (current : Val) (nspace : GoString) : Except Panic (Handle × GoString) := do
  let idx := strings.Index nspace namespaceSeparator
  let (fld, ns) ←
    if idx ≠ -1 then do
      let f ← sliceTo nspace idx
      let n ← sliceFrom nspace (idx + 1)
      pure (f, n)
    else pure (nspace, ([] : GoString))
  let bracketIdx := strings.Index fld leftBracket
  let (fld, ns) ←
    if bracketIdx ≠ -1 then do
      let f ← sliceTo fld bracketIdx
      let n ← sliceFrom nspace bracketIdx
      pure (f, n)
    else pure (fld, ns)
  let val ← current.FieldByName fld
  pure (val, ns)

/-- The Array and Slice case (lines 112-130): `none` is the early return of line 118,
otherwise the element and the rest of the namespace for the next pass. -/
def seqStep (current : Val) (nspace : GoString) :
    Except Panic (Option (Handle × GoString)) := do
  let idx := strings.Index nspace leftBracket
  let idx2 := strings.Index nspace rightBracket
  let text ← sliceStr nspace (idx + 1) idx2
  let arrIdx := (strconv.Atoi text).1
  let len ← current.Len
  if arrIdx ≥ len then pure none
  else
    let startIdx := idx2 + 1
    let startIdx ←
      if startIdx < (nspace.length : Int) then do
        let c ← sliceStr nspace startIdx (startIdx + 1)
        pure (if c = namespaceSeparator then startIdx + 1 else startIdx)
      else pure startIdx
    let val ← current.Index arrIdx
    let ns ← sliceFrom nspace startIdx
    pure (some (val, ns))

/-- The key built from the text between the brackets, by the kind of the map's key type
(lines 147-217): a `reflect.ValueOf` of a value of the predeclared type of that kind.  Parse
errors are dropped, as in the code, and the returned value is used. -/
def decodeKey (L : Lib) (k : Kind) (key : GoString) : Val :=
  match k with
  | .Int => .scalar none .Int (.int (strconv.Atoi key).1)
  | .Int8 => .scalar none .Int8 (.int (toIntN 8 (strconv.ParseInt key 10 8).1))
  | .Int16 => .scalar none .Int16 (.int (toIntN 16 (strconv.ParseInt key 10 16).1))
  | .Int32 => .scalar none .Int32 (.int (toIntN 32 (strconv.ParseInt key 10 32).1))
  | .Int64 => .scalar none .Int64 (.int (strconv.ParseInt key 10 64).1)
  | .Uint => .scalar none .Uint (.uint (toUintN 64 (strconv.ParseUint key 10 0).1))
  | .Uint8 => .scalar none .Uint8 (.uint (toUintN 8 (strconv.ParseUint key 10 8).1))
  | .Uint16 => .scalar none .Uint16 (.uint (toUintN 16 (strconv.ParseUint key 10 16).1))
  | .Uint32 => .scalar none .Uint32 (.uint (toUintN 32 (strconv.ParseUint key 10 32).1))
  | .Uint64 => .scalar none .Uint64 (.uint (strconv.ParseUint key 10 64).1)
  | .Float32 => .scalar none .Float32 (.float (L.float32 (L.ParseFloat key 32).1))
  | .Float64 => .scalar none .Float64 (.float (L.ParseFloat key 64).1)
  | .Bool => .scalar none .Bool (.bool (strconv.ParseBool key).1)
  | _ => .scalar none .String (.str key)

/-- The Map case (lines 134-217): the entry (the zero Value when the key is missing) and the
rest of the namespace for the next pass. -/
def mapStep (L : Lib) (current : Val) (nspace : GoString) :
    Except Panic (Handle × GoString) := do
  let idx := strings.Index nspace leftBracket + 1
  let idx2 := strings.Index nspace rightBracket
  let endIdx := idx2
  let endIdx ←
    if endIdx + 1 < (nspace.length : Int) then do
      let c ← sliceStr nspace (endIdx + 1) (endIdx + 2)
      pure (if c = namespaceSeparator then endIdx + 1 else endIdx)
    else pure endIdx
  let key ← sliceStr nspace idx idx2
  let keyType ← current.Type.Key
  let val ← current.MapIndex L (decodeKey L keyType.Kind key)
  let ns ← sliceFrom nspace (endIdx + 1)
  pure (val, ns)

/-- Model of `getStructFieldOKInternal(val, namespace)` (lines 64-224).  One unit of fuel is used by
each pass through `BEGIN`; the same fuel bounds the custom functions applied by
`ExtractType`. -/
def getStructFieldOKInternal (L : Lib) (v : validate) : Nat → Handle → GoString → Outcome
  | 0, _, _ => .outOfFuel
  | fuel + 1, val, nspace =>
    match v.ExtractType fuel val with
    | none => .outOfFuel
    | some (current, kind, nullable) =>
      if kind = .Invalid then .ret current kind nullable false
      else if nspace = [] then .ret current kind nullable true
      else
        match kind, current with
        | .Ptr, _ => .ret current kind nullable false
        | .Interface, _ => .ret current kind nullable false
        | .Struct, some cur =>
          if cur.Type.ConvertibleToTime = false then
            match structStep cur nspace with
            | .error p => .panic p
            | .ok (val1, ns) => getStructFieldOKInternal L v fuel val1 ns
          else .panic .invalidNamespace
        | .Array, some cur | .Slice, some cur =>
          match seqStep cur nspace with
          | .error p => .panic p
          | .ok none => .ret current kind nullable false
          | .ok (some (val1, ns)) => getStructFieldOKInternal L v fuel val1 ns
        | .Map, some cur =>
          match mapStep L cur nspace with
          | .error p => .panic p
          | .ok (val1, ns) => getStructFieldOKInternal L v fuel val1 ns
        | _, _ => .panic .invalidNamespace

/-! ## Scalar coercion -/

/-- Model of `asInt(param)` (lines 228-233): base-aware `int64`, or the panic of `panicIf`. -/
def asInt (param : GoString) : Except Panic Int :=
  match strconv.ParseInt param 0 64 with
  | (i, none) => .ok i
  | (_, some _) => .error .conversion

/-- Model of `asIntFromTimeDuration(param)` (lines 237-244). -/
def asIntFromTimeDuration (L : Lib) (param : GoString) : Except Panic Int :=
  match L.ParseDuration param with
  | none => asInt param
  | some d => .ok d

/-- Model of `asIntFromType(t, param)` (lines 248-255). -/
def asIntFromType (L : Lib) (t : GoType) (param : GoString) : Except Panic Int :=
  if t = timeDurationType then asIntFromTimeDuration L param else asInt param

/-- Model of `asUint(param)` (lines 259-265). -/
def asUint (param : GoString) : Except Panic Nat :=
  match strconv.ParseUint param 0 64 with
  | (i, none) => .ok i
  | (_, some _) => .error .conversion

/-- Model of `asFloat64(param)` (lines 269-273), as a bit pattern. -/
def asFloat64 (L : Lib) (param : GoString) : Except Panic Nat :=
  match L.ParseFloat param 64 with
  | (f, none) => .ok f
  | (_, some _) => .error .conversion

/-- Model of `asFloat32(param)` (lines 277-281), as a bit pattern. -/
def asFloat32 (L : Lib) (param : GoString) : Except Panic Nat :=
  match L.ParseFloat param 32 with
  | (f, none) => .ok f
  | (_, some _) => .error .conversion

/-- Model of `asBool(param)` (lines 285-291). -/
def asBool (param : GoString) : Except Panic Bool :=
  match strconv.ParseBool param with
  | (b, none) => .ok b
  | (_, some _) => .error .conversion

/-! ## Mutation -/

/-- Errors returned by `mutate`. -/
inductive MutError
  | parse (e : NumError)
  | unsupported
  deriving DecidableEq, Repr

/-- What a call of `mutate` does: it returns an error value (`none` is nil) and leaves the
storage behind the handle holding `after`, or it panics. -/
inductive MutOutcome
  | ret (err : Option MutError) (after : Val)
  | panic (p : Panic)

/-- Model of `Value.Set(x)` on a handle with flags `addr` (addressable) and `ro` (reached through an
unexported field) holding `old`, for an `x` whose type is predeclared or a pointer to a
predeclared type, as at every call in the code: the handle must be settable, and the type of
`x` identical to the handle's type or the handle's type an interface without methods. -/
def Set (addr ro : Bool) (old x : Val) : Except Panic Val :=
  if addr = false ∨ ro = true then .error .notSettable
  else if x.Type = old.Type then .ok x
  else
    match old.Type.underlying with
    | .iface _ false => .ok (.iface old.Type x)
    | _ => .error .notAssignable

/-- The outcome of a `ref.Set(x)` followed by `return nil`. -/
def setAndReturn (addr ro : Bool) (old x : Val) : MutOutcome :=
  match Set addr ro old x with
  | .ok y => .ret none y
  | .error p => .panic p

/-- Model of `interNilType(ref, to)` (lines 403-476): the type switch on the exact pointer type of
the handle.  A type listed in no case falls through to `return nil` with nothing written. -/
def interNilType (L : Lib) (addr ro : Bool) (ref : Val) (text : GoString) : MutOutcome :=
  match ref.Type with
  | .ptr (.basic .String) =>
    setAndReturn addr ro ref (.ptr none (.basic .String) (.scalar none .String (.str text)))
  | .ptr (.basic .Int) =>
    match strconv.ParseInt text 10 64 with
    | (_, some e) => .ret (some (.parse e)) ref
    | (i, none) => setAndReturn addr ro ref (.ptr none (.basic .Int) (.scalar none .Int (.int i)))
  | .ptr (.basic .Int8) =>
    match strconv.ParseInt text 10 64 with
    | (_, some e) => .ret (some (.parse e)) ref
    | (i, none) =>
      setAndReturn addr ro ref (.ptr none (.basic .Int8) (.scalar none .Int8 (.int (toIntN 8 i))))
  | .ptr (.basic .Int16) =>
    match strconv.ParseInt text 10 64 with
    | (_, some e) => .ret (some (.parse e)) ref
    | (i, none) =>
      setAndReturn addr ro ref (.ptr none (.basic .Int16) (.scalar none .Int16 (.int (toIntN 16 i))))
  | .ptr (.basic .Int32) =>
    match strconv.ParseInt text 10 64 with
    | (_, some e) => .ret (some (.parse e)) ref
    | (i, none) =>
      setAndReturn addr ro ref (.ptr none (.basic .Int32) (.scalar none .Int32 (.int (toIntN 32 i))))
  | .ptr (.basic .Int64) =>
    match strconv.ParseInt text 10 64 with
    | (_, some e) => .ret (some (.parse e)) ref
    | (i, none) => setAndReturn addr ro ref (.ptr none (.basic .Int64) (.scalar none .Int64 (.int i)))
  | .ptr (.basic .Uint) =>
    match strconv.ParseUint text 10 64 with
    | (_, some e) => .ret (some (.parse e)) ref
    | (u, none) =>
      setAndReturn addr ro ref (.ptr none (.basic .Uint) (.scalar none .Uint (.uint (toUintN 64 u))))
  | .ptr (.basic .Uint8) =>
    match strconv.ParseUint text 10 64 with
    | (_, some e) => .ret (some (.parse e)) ref
    | (u, none) =>
      setAndReturn addr ro ref (.ptr none (.basic .Uint8) (.scalar none .Uint8 (.uint (toUintN 8 u))))
  | .ptr (.basic .Uint16) =>
    match strconv.ParseUint text 10 64 with
    | (_, some e) => .ret (some (.parse e)) ref
    | (u, none) =>
      setAndReturn addr ro ref (.ptr none (.basic .Uint16) (.scalar none .Uint16 (.uint (toUintN 16 u))))
  | .ptr (.basic .Uint32) =>
    match strconv.ParseUint text 10 64 with
    | (_, some e) => .ret (some (.parse e)) ref
    | (u, none) =>
      setAndReturn addr ro ref (.ptr none (.basic .Uint32) (.scalar none .Uint32 (.uint (toUintN 32 u))))
  | .ptr (.basic .Uint64) =>
    match strconv.ParseUint text 10 64 with
    | (_, some e) => .ret (some (.parse e)) ref
    | (u, none) => setAndReturn addr ro ref (.ptr none (.basic .Uint64) (.scalar none .Uint64 (.uint u)))
  | .ptr (.basic .Float64) =>
    match L.ParseFloat text 64 with
    | (_, some e) => .ret (some (.parse e)) ref
    | (f, none) => setAndReturn addr ro ref (.ptr none (.basic .Float64) (.scalar none .Float64 (.float f)))
  | .ptr (.basic .Float32) =>
    match L.ParseFloat text 64 with
    | (_, some e) => .ret (some (.parse e)) ref
    | (f, none) =>
      setAndReturn addr ro ref
        (.ptr none (.basic .Float32) (.scalar none .Float32 (.float (L.float32 f))))
  | .ptr (.basic .Bool) =>
    match strconv.ParseBool text with
    | (_, some e) => .ret (some (.parse e)) ref
    | (b, none) => setAndReturn addr ro ref (.ptr none (.basic .Bool) (.scalar none .Bool (.bool b)))
  | _ => .ret none ref

/-- The scalar cases of the switch of `mutate` (lines 324-388) for a value of predeclared
kind `b`: the parsed value wrapped by `reflect.ValueOf`, or the returned parse error.
`none` stands for a kind that the switch sends elsewhere. -/
def parseFor (L : Lib) (b : Basic) (text : GoString) : Option (Except NumError Val) :=
  match b with
  | .String => some (.ok (.scalar none .String (.str text)))
  | .Int =>
    match strconv.ParseInt text 10 64 with
    | (_, some e) => some (.error e)
    | (i, none) => some (.ok (.scalar none .Int (.int i)))
  | .Int8 =>
    match strconv.ParseInt text 10 64 with
    | (_, some e) => some (.error e)
    | (i, none) => some (.ok (.scalar none .Int8 (.int (toIntN 8 i))))
  | .Int16 =>
    match strconv.ParseInt text 10 64 with
    | (_, some e) => some (.error e)
    | (i, none) => some (.ok (.scalar none .Int16 (.int (toIntN 16 i))))
  | .Int32 =>
    match strconv.ParseInt text 10 64 with
    | (_, some e) => some (.error e)
    | (i, none) => some (.ok (.scalar none .Int32 (.int (toIntN 32 i))))
  | .Int64 =>
    match strconv.ParseInt text 10 64 with
    | (_, some e) => some (.error e)
    | (i, none) => some (.ok (.scalar none .Int64 (.int i)))
  | .Uint =>
    match strconv.ParseUint text 10 64 with
    | (_, some e) => some (.error e)
    | (u, none) => some (.ok (.scalar none .Uint (.uint (toUintN 64 u))))
  | .Uint8 =>
    match strconv.ParseUint text 10 64 with
    | (_, some e) => some (.error e)
    | (u, none) => some (.ok (.scalar none .Uint8 (.uint (toUintN 8 u))))
  | .Uint16 =>
    match strconv.ParseUint text 10 64 with
    | (_, some e) => some (.error e)
    | (u, none) => some (.ok (.scalar none .Uint16 (.uint (toUintN 16 u))))
  | .Uint32 =>
    match strconv.ParseUint text 10 64 with
    | (_, some e) => some (.error e)
    | (u, none) => some (.ok (.scalar none .Uint32 (.uint (toUintN 32 u))))
  | .Uint64 =>
    match strconv.ParseUint text 10 64 with
    | (_, some e) => some (.error e)
    | (u, none) => some (.ok (.scalar none .Uint64 (.uint u)))
  | .Float32 =>
    match L.ParseFloat text 10 with
    | (_, some e) => some (.error e)
    | (f, none) => some (.ok (.scalar none .Float32 (.float (L.float32 f))))
  | .Float64 =>
    match L.ParseFloat text 10 with
    | (_, some e) => some (.error e)
    | (f, none) => some (.ok (.scalar none .Float64 (.float f)))
  | .Bool =>
    match strconv.ParseBool text with
    | (_, some e) => some (.error e)
    | (b, none) => some (.ok (.scalar none .Bool (.bool b)))
  | _ => none

/-- Model of `mutate(ref, to)` (lines 322-401) on a handle with flags `addr` and `ro` holding a valid
value.  The recursion of line 394 goes into the pointee, which `Elem` makes addressable. -/
def mutate (L : Lib) : Bool → Bool → Val → GoString → MutOutcome
  | _, ro, .ptr n e target, text =>
    match mutate L true ro target text with
    | .ret err target1 => .ret err (.ptr n e target1)
    | .panic p => .panic p
  | addr, ro, .nilPtr n e, text => interNilType L addr ro (.nilPtr n e) text
  | addr, ro, .scalar n .UnsafePointer d, text =>
    if d = .addr 0 then interNilType L addr ro (.scalar n .UnsafePointer d) text
    else .panic .wrongKind
  | addr, ro, .scalar n b d, text =>
    match parseFor L b text with
    | some (.ok x) => setAndReturn addr ro (.scalar n b d) x
    | some (.error e) => .ret (some (.parse e)) (.scalar n b d)
    | none => .ret (some .unsupported) (.scalar n b d)
  | _, _, x, _ => .ret (some .unsupported) x

/-! ## Notions used to state the properties -/

/-- No custom unwrap function is registered: the flag is off or the registry is empty. -/
def validate.noCustom (v : validate) : Prop :=
  v.hasCustomFuncs = false ∨ ∀ t, v.customFuncs t = none

/-- A validator without custom unwrap functions. -/
def plainValidate : validate := ⟨false, fun _ => none⟩

/-- A library whose floating-point and duration functions are trivial; used where a concrete
library is needed and no float or duration is involved. -/
def plainLib : Lib := ⟨fun _ _ => (0, some .malformed), fun x => x, fun a b => a == b, fun _ => none⟩

/-- Relation `Unwraps x y`: `y` is reached from `x` by entering non-nil pointer and interface layers. -/
inductive Unwraps : Val → Val → Prop
  | here (x : Val) : Unwraps x x
  | ptr (n : TName) (e : GoType) (t y : Val) : Unwraps t y → Unwraps (.ptr n e t) y
  | iface (t : GoType) (d y : Val) : Unwraps d y → Unwraps (.iface t d) y

/-- Relation `Unwraps` on handles: the zero Value unwraps to itself only. -/
def HandleUnwraps : Handle → Handle → Prop
  | none, none => True
  | some x, some y => Unwraps x y
  | _, _ => False

/-- Whether a kind is an indirection kind (pointer or interface). -/
def isIndirection (k : Kind) : Bool := k == .Ptr || k == .Interface

/-- The custom function that the default case of `extractTypeInternal` applies to a value
that is not a pointer or interface, if any (lines 47-52). -/
def customStep (v : validate) (y : Val) : Option (Val → Handle) :=
  if isIndirection y.Kind then none
  else if v.hasCustomFuncs then v.customFuncs y.Type
  else none

/-- Whether a kind is valid and offers no descent: not a record, sequence, map, pointer or
interface. -/
def isLeafKind (k : Kind) : Bool :=
  !(k == .Invalid || k == .Struct || k == .Array || k == .Slice || k == .Map ||
    k == .Ptr || k == .Interface)

/-- Whether a byte can belong to a field name in a namespace: it is neither `.` nor `[`. -/
def isNameByte (c : Char) : Bool := c != '.' && c != '['

/-- First field name of a namespace: the text before the first `.` or `[`. -/
def firstName (ns : GoString) : GoString := ns.takeWhile isNameByte

/-- A text without one leading `.`. -/
def dropDot : GoString → GoString
  | '.' :: r => r
  | r => r

/-- What remains of a namespace after its first field name: the text after the `.` that ends
the name, or the text from the `[` that ends it. -/
def afterName (ns : GoString) : GoString := dropDot (ns.dropWhile isNameByte)

/-- Namespace made of field names joined by `.`. -/
def joinNames : List GoString → GoString
  | [] => []
  | [f] => f
  | f :: g :: fs => f ++ '.' :: joinNames (g :: fs)

/-- Relation `FieldPath x fs w`: following the non-empty list of field names `fs` from `x` ends at
the stored value `w`.  Each name is an existing field of the record, not convertible to the
time type, found under the non-nil pointer and interface layers of the value reached so far
(so no nil layer is met before the last field). -/
inductive FieldPath : Val → List GoString → Val → Prop
  | last (x : Val) (name : GoString) (fields : List (GoString × Val)) (f : GoString) (w : Val) :
      Unwraps x (.struct name false fields) → f ≠ [] → lookupField f fields = some w →
      FieldPath x [f] w
  | step (x : Val) (name : GoString) (fields : List (GoString × Val)) (f : GoString) (y : Val)
      (fs : List GoString) (w : Val) :
      Unwraps x (.struct name false fields) → f ≠ [] → lookupField f fields = some y →
      FieldPath y fs w → FieldPath x (f :: fs) w

/-- Example value: the string "x". -/
def exampleCity : Val := .scalar none .String (.str ['x'])

/-- Example value: the record `{City: "x"}`. -/
def exampleAddress : Val := .struct "Addr".toList false [("City".toList, exampleCity)]

/-- Example value: the record `{Address: &{City: "x"}}`. -/
def exampleRoot : Val :=
  .struct "Root".toList false
    [("Address".toList, .ptr none (.struct "Addr".toList false) exampleAddress)]

/-- The predeclared scalar types whose pointers `interNilType` lists, floats apart: `string`,
the signed and unsigned integers of every width, and `bool`. -/
def isWritableScalar (b : Basic) : Bool :=
  b == .String || b == .Bool ||
  b == .Int || b == .Int8 || b == .Int16 || b == .Int32 || b == .Int64 ||
  b == .Uint || b == .Uint8 || b == .Uint16 || b == .Uint32 || b == .Uint64

/-- The predeclared signed integer types. -/
def isSignedInt (b : Basic) : Bool :=
  b == .Int || b == .Int8 || b == .Int16 || b == .Int32 || b == .Int64

/-- An `int64` narrowed to a signed integer type: wraparound for the widths below 64. -/
def narrowTo (b : Basic) (i : Int) : Int :=
  match b with
  | .Int8 => toIntN 8 i
  | .Int16 => toIntN 16 i
  | .Int32 => toIntN 32 i
  | _ => i

/-- The text after an optional leading sign. -/
def unsignedPart : GoString → GoString
  | c :: cs => if c = '+' ∨ c = '-' then cs else c :: cs
  | [] => []

/-- Plain decimal text: after the optional sign comes the single digit `0` or a text that
does not start with `0`, and no underscore.  Such a text has no base prefix. -/
def plainDecimal (text : GoString) : Bool :=
  (unsignedPart text == ['0'] || (unsignedPart text).head? != some '0') &&
    !(unsignedPart text).contains '_'

/-- Example value: the slice `[]int{1, 2}`. -/
def exampleSlice : Val :=
  .slice none (.basic .Int) [.scalar none .Int (.int 1), .scalar none .Int (.int 2)]

/-- The character of a decimal digit. -/
def digitChar (d : Nat) : Char := Char.ofNat (48 + d)

/-- Decimal digits of `n` in front of `acc`, most significant first. -/
def decimalAux : Nat → Nat → GoString → GoString
  | 0, _, acc => acc
  | fuel + 1, n, acc =>
    if n < 10 then digitChar n :: acc
    else decimalAux fuel (n / 10) (digitChar (n % 10) :: acc)

/-- Canonical decimal text of a natural number. -/
def decimalNat (n : Nat) : GoString := decimalAux (n + 1) n []

/-- Canonical decimal text of an integer: a `-` in front of a negative one. -/
def decimalInt : Int → GoString
  | .ofNat n => decimalNat n
  | .negSucc n => '-' :: decimalNat (n + 1)

/-- Canonical text of a map key: decimal for integers, `true`/`false` for booleans, the
string itself for strings. -/
def keyText : Data → GoString
  | .int i => decimalInt i
  | .uint u => decimalNat u
  | .bool true => "true".toList
  | .bool false => "false".toList
  | .str s => s
  | _ => []

/-- Relation `isKeyOf b d`: `d` is a value of the predeclared integer, boolean or string type `b`,
and for a string its text has no `]`. -/
def isKeyOf (b : Basic) (d : Data) : Prop :=
  match b, d with
  | .Int, .int i => -(2 ^ 63 : Int) ≤ i ∧ i < (2 ^ 63 : Int)
  | .Int8, .int i => -(2 ^ 7 : Int) ≤ i ∧ i < (2 ^ 7 : Int)
  | .Int16, .int i => -(2 ^ 15 : Int) ≤ i ∧ i < (2 ^ 15 : Int)
  | .Int32, .int i => -(2 ^ 31 : Int) ≤ i ∧ i < (2 ^ 31 : Int)
  | .Int64, .int i => -(2 ^ 63 : Int) ≤ i ∧ i < (2 ^ 63 : Int)
  | .Uint, .uint u => u < 2 ^ 64
  | .Uint8, .uint u => u < 2 ^ 8
  | .Uint16, .uint u => u < 2 ^ 16
  | .Uint32, .uint u => u < 2 ^ 32
  | .Uint64, .uint u => u < 2 ^ 64
  | .Bool, .bool _ => True
  | .String, .str s => ']' ∉ s
  | _, _ => False

/-- Example value: the map `map[int]string{5: "x"}`. -/
def exampleTags : Val :=
  .map none (.basic .Int) (.basic .String) [(.data (.int 5), exampleCity)]

/-- Example value: the map `map[string]string{"a]b": "x"}`. -/
def exampleBracketKey : Val :=
  .map none (.basic .String) (.basic .String) [(.data (.str "a]b".toList), exampleCity)]

/-- Whether a byte is a decimal digit. -/
def isDigit (c : Char) : Bool := decide (48 ≤ c.toNat) && decide (c.toNat ≤ 57)

/-- Model of `leadingInt` of package `time`: the number written by the leading digits of
`s` after `x`, and the rest of `s`; `none` when the number passes `1<<63`. -/
def time.leadingInt : GoString → Nat → Option (Nat × GoString)
  | [], x => some (x, [])
  | c :: cs, x =>
    if isDigit c then
      if x > 2 ^ 63 / 10 then none
      else if x * 10 + (c.toNat - 48) > 2 ^ 63 then none
      else time.leadingInt cs (x * 10 + (c.toNat - 48))
    else some (x, c :: cs)

/-- Model of `unitMap` of package `time`: nanoseconds per unit. -/
def time.unitMap (u : GoString) : Option Nat :=
  if u = "ns".toList then some 1
  else if u = "us".toList ∨ u = "µs".toList ∨ u = "μs".toList then some 1000
  else if u = "ms".toList then some 1000000
  else if u = "s".toList then some 1000000000
  else if u = "m".toList then some 60000000000
  else if u = "h".toList then some 3600000000000
  else none

/-- Loop of `time.ParseDuration` over the groups "number unit", for literals without a
fractional part: `d` is the sum so far, `none` an invalid literal.  A group with a `.` is
outside this model and is reported as invalid. -/
def time.durationGroups : Nat → GoString → Nat → Option Nat
  | 0, _, _ => none
  | fuel + 1, s, d =>
    match s with
    | [] => some d
    | c :: _ =>
      if !(c == '.' || isDigit c) then none
      else
        match time.leadingInt s 0 with
        | none => none
        | some (v, rest) =>
          if rest.length = s.length then none
          else if rest.head? = some '.' then none
          else
            let u := rest.takeWhile (fun x => !(x == '.' || isDigit x))
            match time.unitMap u with
            | none => none
            | some unit =>
              if u = [] then none
              else if v > 2 ^ 63 / unit then none
              else if d + v * unit > 2 ^ 63 then none
              else
                time.durationGroups fuel (rest.dropWhile (fun x => !(x == '.' || isDigit x)))
                  (d + v * unit)

/-- Model of `time.ParseDuration(s)` for literals without a fractional part: the duration in
nanoseconds, `none` for an error.  Literals with a `.` are outside this model. -/
def time.ParseDurationWhole (s : GoString) : Option Int :=
  let neg : Bool := s.head? == some '-'
  let body := unsignedPart s
  if body = ['0'] then some 0
  else if body = [] then none
  else
    match time.durationGroups (body.length + 1) body 0 with
    | none => none
    | some d =>
      if neg then some (-(d : Int))
      else if d > 2 ^ 63 - 1 then none
      else some (d : Int)

/-- A library with the whole-number model of `time.ParseDuration`; floats as in `plainLib`. -/
def durationLib : Lib :=
  ⟨fun _ _ => (0, some .malformed), fun x => x, fun a b => a == b, time.ParseDurationWhole⟩

/-- The predeclared unsigned integer types that `mutate` writes (all but `uintptr`). -/
def isUnsignedInt (b : Basic) : Bool :=
  b == .Uint || b == .Uint8 || b == .Uint16 || b == .Uint32 || b == .Uint64

/-- Width in bits of a predeclared integer type on a 64-bit platform. -/
def widthOf : Basic → Nat
  | .Int8 => 8 | .Int16 => 16 | .Int32 => 32 | .Int64 => 64 | .Int => 64
  | .Uint8 => 8 | .Uint16 => 16 | .Uint32 => 32 | .Uint64 => 64 | .Uint => 64
  | .Uintptr => 64
  | _ => 0

/-- A `uint64` truncated to an unsigned integer type. -/
def truncTo (b : Basic) (u : Nat) : Nat :=
  match b with
  | .Uint64 => u
  | _ => toUintN (widthOf b) u

/-- Example registry: a function for the pointer type `*T`, giving the string "x", and a
function for `string`, giving the `int` 1; nothing for `int`. -/
def examplePointerRegistry : validate :=
  ⟨true, fun t =>
    if t = .ptr (.struct "T".toList false) then some (fun _ => some exampleCity)
    else if t = .basic .String then some (fun _ => some (.scalar none .Int (.int 1)))
    else none⟩

/-- Example registry: a function for the record type `A`, giving the string "x", and a
function for `string`, giving the `int` 1; nothing for `int`. -/
def exampleChainRegistry : validate :=
  ⟨true, fun t =>
    if t = .struct "A".toList false then some (fun _ => some exampleCity)
    else if t = .basic .String then some (fun _ => some (.scalar none .Int (.int 1)))
    else none⟩

/-- Example value: a pointer to the record `{X: 5}`. -/
def examplePointerToRecord : Val :=
  .ptr none (.struct "T".toList false)
    (.struct "T".toList false [("X".toList, .scalar none .Int (.int 5))])

/-- Whether a text is a decimal integer for `strconv.Atoi`: an optional sign followed by one
or more decimal digits. -/
def isDecimalInteger (k : GoString) : Bool :=
  !(unsignedPart k).isEmpty && (unsignedPart k).all isDigit

/-- The digits at the start of a text, after its optional sign. -/
def leadingDigits (k : GoString) : GoString := (unsignedPart k).takeWhile isDigit

/-- The number written by a list of decimal digits. -/
def digitsValue (ds : GoString) : Nat := ds.foldl (fun a c => a * 10 + (c.toNat - 48)) 0

/-- The body of one pass of `getStructFieldOKInternal` after `ExtractType` (lines 68-223):
the outcome when the pass ends the call, or the value and namespace of the next pass. -/
def onePass (L : Lib) (current : Handle) (kind : Kind) (nullable : Bool) (nspace : GoString) :
    Outcome ⊕ (Handle × GoString) :=
  if kind = .Invalid then .inl (.ret current kind nullable false)
  else if nspace = [] then .inl (.ret current kind nullable true)
  else
    match kind, current with
    | .Ptr, _ => .inl (.ret current kind nullable false)
    | .Interface, _ => .inl (.ret current kind nullable false)
    | .Struct, some cur =>
      if cur.Type.ConvertibleToTime = false then
        match structStep cur nspace with
        | .error p => .inl (.panic p)
        | .ok (val1, ns) => .inr (val1, ns)
      else .inl (.panic .invalidNamespace)
    | .Array, some cur | .Slice, some cur =>
      match seqStep cur nspace with
      | .error p => .inl (.panic p)
      | .ok none => .inl (.ret current kind nullable false)
      | .ok (some (val1, ns)) => .inr (val1, ns)
    | .Map, some cur =>
      match mapStep L cur nspace with
      | .error p => .inl (.panic p)
      | .ok (val1, ns) => .inr (val1, ns)
    | _, _ => .inl (.panic .invalidNamespace)

/-- Scan of the brackets of a namespace; `inside` tells whether a `[` is open.  Every `]`
closes a `[` opened before it and every `[` is closed by a `]`; what stands between a `[` and
the next `]` is the index or key. -/
def balancedFrom : Bool → GoString → Bool
  | false, [] => true
  | true, [] => false
  | false, c :: r =>
    if c = ']' then false else if c = '[' then balancedFrom true r else balancedFrom false r
  | true, c :: r => if c = ']' then balancedFrom false r else balancedFrom true r

/-- Whether each indexed segment of a namespace is written with both brackets. -/
def balanced (ns : GoString) : Bool := balancedFrom false ns

/-- Whether a namespace ends in `.`. -/
def endsWithDot (ns : GoString) : Bool := ns.getLast? == some '.'

/-- The namespace `r` followed by the namespace `q`: joined by one `.`, with nothing in front of
`q` when `r` is empty. -/
def glue (r q : GoString) : GoString := if r = [] then q else r ++ '.' :: q

/-- Example value: the record `{A: &[]int{1, 2}}`, whose field is a pointer to a slice. -/
def exampleRecordOfSlicePointer : Val :=
  .struct "R".toList false [("A".toList, .ptr none (.slice (.basic .Int)) exampleSlice)]

/-- Relation `Reaches L v val ns w`: the passes of `getStructFieldOKInternal` from the value
`val` with the namespace `ns` use up the namespace at the value `w`.  With the empty
namespace `w` is `val` itself; otherwise one pass settles `val`, selects a field value, an
element or a map entry, and `w` is reached from that value with what the pass leaves of the
namespace.  The value `w` is the one stored in the host structure, before `ExtractType`
settles it. -/
inductive Reaches (L : Lib) (v : validate) : Handle → GoString → Handle → Prop
  | done (val : Handle) : Reaches L v val [] val
  | pass (fuel : Nat) (val : Handle) (ns : GoString) (current : Handle) (kind : Kind)
      (nullable : Bool) (val1 : Handle) (ns1 : GoString) (w : Handle) :
      v.ExtractType fuel val = some (current, kind, nullable) →
      onePass L current kind nullable ns = .inr (val1, ns1) →
      Reaches L v val1 ns1 w → Reaches L v val ns w

/-- Example value: the slice `[]*int{&1}`, whose element is a pointer. -/
def exampleSliceOfPointers : Val :=
  .slice none (.ptr (.basic .Int)) [.ptr none (.basic .Int) (.scalar none .Int (.int 1))]

/-! ## Theorems -/

/-! ### The type resolver -/

theorem stripLayers_unwraps : ∀ (x : Val) (n : Bool), Unwraps x (stripLayers x n).1
  | .ptr m e t, _ => Unwraps.ptr m e t _ (by simpa [stripLayers] using stripLayers_unwraps t true)
  | .iface t d, _ => Unwraps.iface t d _ (by simpa [stripLayers] using stripLayers_unwraps d true)
  | .nilPtr _ _, _ => by simp [stripLayers]; exact Unwraps.here _
  | .nilIface _, _ => by simp [stripLayers]; exact Unwraps.here _
  | .scalar _ _ _, _ => by simp [stripLayers]; exact Unwraps.here _
  | .struct _ _ _, _ => by simp [stripLayers]; exact Unwraps.here _
  | .slice _ _ _, _ => by simp [stripLayers]; exact Unwraps.here _
  | .array _ _ _, _ => by simp [stripLayers]; exact Unwraps.here _
  | .map _ _ _ _, _ => by simp [stripLayers]; exact Unwraps.here _
  | .chan _ _, _ => by simp [stripLayers]; exact Unwraps.here _
  | .func _ _, _ => by simp [stripLayers]; exact Unwraps.here _

theorem stripLayers_nil_of_indirection (x : Val) (n : Bool) :
    isIndirection (stripLayers x n).1.Kind = true →
      (stripLayers x n).1.IsNil = .ok true ∧ (stripLayers x n).2 = true := by
  induction x, n using stripLayers.induct with
  | case1 m e t b ih => simpa [stripLayers] using ih
  | case2 t d b ih => simpa [stripLayers] using ih
  | case3 m e b => simp [stripLayers, Val.IsNil]
  | case4 t b => simp [stripLayers, Val.IsNil]
  | case5 x b h1 h2 h3 h4 =>
    cases x <;> simp_all [stripLayers, Val.Kind, isIndirection]
    all_goals (rename_i b0 _; cases b0 <;> simp [Basic.Kind])

theorem stripLayers_flag_of_plain (x : Val) (n : Bool) :
    isIndirection (stripLayers x n).1.Kind = false →
      (stripLayers x n).2 = (n || isIndirection x.Kind) := by
  induction x, n using stripLayers.induct with
  | case1 m e t b ih =>
    intro h
    have := ih (by simpa [stripLayers] using h)
    simpa [stripLayers, Val.Kind, isIndirection] using this
  | case2 t d b ih =>
    intro h
    have := ih (by simpa [stripLayers] using h)
    simpa [stripLayers, Val.Kind, isIndirection] using this
  | case3 m e b => simp [stripLayers, Val.Kind, isIndirection]
  | case4 t b => simp [stripLayers, Val.Kind, isIndirection]
  | case5 x b h1 h2 h3 h4 =>
    cases x <;> simp_all [stripLayers, Val.Kind, isIndirection]

/-- Without custom functions `extractTypeInternal` returns, whatever the fuel, the value
under the non-nil layers, its kind and the flag computed on the way. -/
theorem extractTypeInternal_plain (v : validate) (hv : v.noCustom) (fuel : Nat) (x : Val)
    (n : Bool) :
    extractTypeInternal v fuel (some x) n =
      some (some (stripLayers x n).1, (stripLayers x n).1.Kind, (stripLayers x n).2) := by
  unfold extractTypeInternal
  rcases hv with hv | hv
  · split <;> simp_all
  · split <;> simp_all

/-- One pass of `extractTypeInternal` on a valid value, in terms of `customStep`. -/
theorem extractTypeInternal_some (v : validate) (fuel : Nat) (x : Val) (n : Bool) :
    extractTypeInternal v fuel (some x) n =
      match customStep v (stripLayers x n).1, fuel with
      | none, _ =>
        some (some (stripLayers x n).1, (stripLayers x n).1.Kind, (stripLayers x n).2)
      | some _, 0 => none
      | some fn, f + 1 => extractTypeInternal v f (fn (stripLayers x n).1) (stripLayers x n).2 := by
  conv_lhs => unfold extractTypeInternal
  unfold customStep
  cases hk : (stripLayers x n).1.Kind <;> cases hc : v.hasCustomFuncs <;>
    cases hf : v.customFuncs (stripLayers x n).1.Type <;> cases fuel <;>
    simp [isIndirection]

/-- More fuel does not change a result of `extractTypeInternal`. -/
theorem extractTypeInternal_mono (v : validate) :
    ∀ (fuel fuel1 : Nat) (h : Handle) (n : Bool) (r : Handle × Kind × Bool),
      extractTypeInternal v fuel h n = some r → fuel ≤ fuel1 →
      extractTypeInternal v fuel1 h n = some r := by
  intro fuel
  induction fuel with
  | zero =>
    intro fuel1 h n r hr _
    cases h with
    | none => simpa [extractTypeInternal] using hr
    | some x =>
      rw [extractTypeInternal_some] at hr ⊢
      cases hs : customStep v (stripLayers x n).1 with
      | none => simpa [hs] using hr
      | some fn => simp [hs] at hr
  | succ f ih =>
    intro fuel1 h n r hr hle
    cases h with
    | none => simpa [extractTypeInternal] using hr
    | some x =>
      obtain ⟨g, rfl⟩ : ∃ g, fuel1 = g + 1 := ⟨fuel1 - 1, by omega⟩
      rw [extractTypeInternal_some] at hr ⊢
      cases hs : customStep v (stripLayers x n).1 with
      | none => simpa [hs] using hr
      | some fn =>
        simp only [hs] at hr ⊢
        exact ih _ _ _ _ hr (by omega)

/-- C5: without custom unwrap functions, `extractTypeInternal(h, n)` returns (for any fuel)
the value under every non-nil pointer and interface layer of `h` together with that value's
kind.  The kind is Ptr or Interface only when the returned handle is a nil layer, and then
the flag is true; otherwise the flag is `n` or-ed with whether `h` itself is a pointer or
interface. -/
theorem C5_extractTypeInternal_strips_layers (v : validate) (hv : v.noCustom) (fuel : Nat)
    (h : Handle) (n : Bool) :
    ∃ cur nl, extractTypeInternal v fuel h n = some (cur, cur.Kind, nl) ∧
      HandleUnwraps h cur ∧
      (isIndirection cur.Kind = true → (∃ y, cur = some y ∧ y.IsNil = .ok true) ∧ nl = true) ∧
      (isIndirection cur.Kind = false → nl = (n || isIndirection h.Kind)) := by
  cases h with
  | none =>
    exact ⟨none, n, by simp [extractTypeInternal, Handle.Kind], trivial,
      by simp [Handle.Kind, isIndirection], by simp [Handle.Kind, isIndirection]⟩
  | some x =>
    refine ⟨some (stripLayers x n).1, (stripLayers x n).2, ?_, ?_, ?_, ?_⟩
    · simpa [Handle.Kind] using extractTypeInternal_plain v hv fuel x n
    · exact stripLayers_unwraps x n
    · intro hk
      have := stripLayers_nil_of_indirection x n (by simpa [Handle.Kind] using hk)
      exact ⟨⟨_, rfl, this.1⟩, this.2⟩
    · intro hk
      simpa [Handle.Kind] using stripLayers_flag_of_plain x n (by simpa [Handle.Kind] using hk)

/-- C5 at a pointer to a nil pointer to `int`, with the flag off. -/
theorem C5_extractTypeInternal_strips_layers_witness :
    plainValidate.noCustom ∧
    ∃ cur nl,
      extractTypeInternal plainValidate 0
          (some (.ptr none (.ptr (.basic .Int)) (.nilPtr none (.basic .Int)))) false =
        some (cur, cur.Kind, nl) ∧
      HandleUnwraps (some (.ptr none (.ptr (.basic .Int)) (.nilPtr none (.basic .Int)))) cur ∧
      (isIndirection cur.Kind = true → (∃ y, cur = some y ∧ y.IsNil = .ok true) ∧ nl = true) ∧
      (isIndirection cur.Kind = false →
        nl = (false ||
          isIndirection
            (Handle.Kind (some (.ptr none (.ptr (.basic .Int)) (.nilPtr none (.basic .Int))))))) :=
  ⟨Or.inl rfl, C5_extractTypeInternal_strips_layers plainValidate (Or.inl rfl) 0 _ false⟩

/-! ### The namespace resolver: values that cannot be entered -/

/-- C9: when the value settles to a valid kind that offers no descent (not a record,
sequence, map, pointer or interface), or to a record convertible to the time type, and the
namespace is not empty, `getStructFieldOKInternal` panics with "Invalid field namespace";
the time-type record is not opened by field name. -/
theorem C9_leaf_or_time_panics (L : Lib) (v : validate) (fuel fuel1 : Nat) (h : Handle)
    (ns : GoString) (cur : Handle) (kind : Kind) (nl : Bool)
    (hx : v.ExtractType fuel h = some (cur, kind, nl)) (hfuel : fuel < fuel1) (hns : ns ≠ [])
    (hk : isLeafKind kind = true ∨
      (kind = .Struct ∧ ∃ c, cur = some c ∧ c.Type.ConvertibleToTime = true)) :
    getStructFieldOKInternal L v fuel1 h ns = .panic .invalidNamespace := by
  obtain ⟨g, rfl⟩ : ∃ g, fuel1 = g + 1 := ⟨fuel1 - 1, by omega⟩
  have hx1 : v.ExtractType g h = some (cur, kind, nl) :=
    extractTypeInternal_mono v fuel g h false _ hx (by omega)
  unfold getStructFieldOKInternal
  rw [hx1]
  rcases hk with hk | ⟨rfl, c, rfl, hc⟩
  · cases kind <;> simp_all [isLeafKind]
  · simp [hns, hc]

/-- C9 at a `time.Time` record and at an `int`, with the namespace "A". -/
theorem C9_leaf_or_time_panics_witness :
    (getStructFieldOKInternal plainLib plainValidate 1
        (some (.struct ['T', 'i', 'm', 'e'] true [])) ['A'] = .panic .invalidNamespace) ∧
    (getStructFieldOKInternal plainLib plainValidate 1
        (some (.scalar none .Int (.int 3))) ['A'] = .panic .invalidNamespace) :=
  ⟨C9_leaf_or_time_panics plainLib plainValidate 0 1 _ ['A'] _ .Struct false rfl (by decide)
      (by simp) (Or.inr ⟨rfl, _, rfl, rfl⟩),
   C9_leaf_or_time_panics plainLib plainValidate 0 1 _ ['A'] _ .Int false rfl (by decide)
      (by simp) (Or.inl rfl)⟩

/-! ### strings: index and slices -/
theorem beginsWith_single (c d : Char) (s : GoString) : beginsWith (d :: s) [c] = (d == c) := by
  cases s <;> simp [beginsWith]

theorem IndexFrom_single_notMem (c : Char) :
    ∀ (s : GoString) (i : Nat), c ∉ s → strings.IndexFrom [c] s i = -1
  | [], _, _ => by simp [strings.IndexFrom]
  | d :: s, i, h => by
    have hd : d ≠ c := fun e => h (by simp [e])
    have hs : c ∉ s := fun e => h (by simp [e])
    simp [strings.IndexFrom, beginsWith_single, hd, IndexFrom_single_notMem c s (i + 1) hs]

theorem IndexFrom_single_split (c : Char) :
    ∀ (pre post : GoString) (i : Nat), c ∉ pre →
      strings.IndexFrom [c] (pre ++ c :: post) i = ((i + pre.length : Nat) : Int)
  | [], post, i, _ => by simp [strings.IndexFrom, beginsWith_single]
  | d :: pre, post, i, h => by
    have hd : d ≠ c := fun e => h (by simp [e])
    have hs : c ∉ pre := fun e => h (by simp [e])
    simp only [List.cons_append, strings.IndexFrom, beginsWith_single]
    simp [hd, IndexFrom_single_split c pre post (i + 1) hs]
    omega

theorem Index_single_notMem (c : Char) (s : GoString) (h : c ∉ s) : strings.Index s [c] = -1 :=
  IndexFrom_single_notMem c s 0 h

theorem Index_single_split (c : Char) (pre post : GoString) (h : c ∉ pre) :
    strings.Index (pre ++ c :: post) [c] = (pre.length : Int) := by
  simpa using IndexFrom_single_split c pre post 0 h

theorem sliceStr_nat (s : GoString) (a b : Nat) (hab : a ≤ b) (hb : b ≤ s.length) :
    sliceStr s a b = .ok ((s.drop a).take (b - a)) := by
  unfold sliceStr
  have h : (0 : Int) ≤ a ∧ (a : Int) ≤ b ∧ (b : Int) ≤ s.length := by omega
  simp [h]

theorem sliceStr_mid (pre mid post : GoString) :
    sliceStr (pre ++ mid ++ post) pre.length ((pre.length + mid.length : Nat) : Int) = .ok mid := by
  rw [sliceStr_nat _ _ _ (by omega) (by simp)]
  simp

theorem sliceFrom_append (pre post : GoString) : sliceFrom (pre ++ post) pre.length = .ok post := by
  unfold sliceFrom
  rw [sliceStr_nat _ _ _ (by simp) (by simp)]
  simp

theorem sliceTo_append (pre post : GoString) : sliceTo (pre ++ post) pre.length = .ok pre := by
  unfold sliceTo
  have := sliceStr_nat (pre ++ post) 0 pre.length (by omega) (by simp)
  simpa using this

/-! ### The namespace resolver: one pass of each case -/

theorem mem_split (c : Char) : ∀ (s : GoString), c ∈ s → ∃ a b, s = a ++ c :: b ∧ c ∉ a
  | [], h => by simp at h
  | d :: s, h => by
    by_cases hd : d = c
    · exact ⟨[], s, by simp [hd], by simp⟩
    · have hs : c ∈ s := by
        rcases List.mem_cons.1 h with e | e
        · exact absurd e.symm hd
        · exact e
      obtain ⟨a, b, rfl, ha⟩ := mem_split c s hs
      refine ⟨d :: a, b, by simp, ?_⟩
      simp only [List.mem_cons, not_or]
      exact ⟨fun e => hd e.symm, ha⟩

theorem firstName_no_dot (ns : GoString) : '.' ∉ firstName ns := by
  intro h
  have := List.mem_takeWhile_imp h
  simp [isNameByte] at this

theorem firstName_no_bracket (ns : GoString) : '[' ∉ firstName ns := by
  intro h
  have := List.mem_takeWhile_imp h
  simp [isNameByte] at this

theorem name_split (ns : GoString) :
    ∃ pre rest, ns = pre ++ rest ∧ firstName ns = pre ∧ ns.dropWhile isNameByte = rest ∧
      '.' ∉ pre ∧ '[' ∉ pre ∧ (rest = [] ∨ (∃ r, rest = '.' :: r) ∨ (∃ r, rest = '[' :: r)) := by
  refine ⟨firstName ns, ns.dropWhile isNameByte,
    (List.takeWhile_append_dropWhile isNameByte ns).symm, rfl, rfl,
    firstName_no_dot ns, firstName_no_bracket ns, ?_⟩
  cases hd : ns.dropWhile isNameByte with
  | nil => exact Or.inl rfl
  | cons c r =>
    have hc : isNameByte c = false := by
      have := List.head_dropWhile_not isNameByte ns (by simp [hd])
      simpa [hd] using this
    simp [isNameByte] at hc
    by_cases h1 : c = '.'
    · right; left; exact ⟨r, by rw [h1]⟩
    · right; right; exact ⟨r, by rw [hc h1]⟩

theorem structStep_plain (cur : Val) (pre : GoString) (hdot : '.' ∉ pre) (hbr : '[' ∉ pre) :
    structStep cur pre =
      match cur.FieldByName pre with
      | .ok val => .ok (val, [])
      | .error p => .error p := by
  cases hf : cur.FieldByName pre <;>
    simp [structStep, bind, Except.bind, pure, Except.pure, namespaceSeparator, leftBracket,
      Index_single_notMem _ _ hdot, Index_single_notMem _ _ hbr, hf]

theorem structStep_dot (cur : Val) (pre r : GoString) (hdot : '.' ∉ pre) (hbr : '[' ∉ pre) :
    structStep cur (pre ++ '.' :: r) =
      match cur.FieldByName pre with
      | .ok val => .ok (val, r)
      | .error p => .error p := by
  have hi : strings.Index (pre ++ '.' :: r) ['.'] = (pre.length : Int) :=
    Index_single_split _ _ _ hdot
  have hs1 : sliceTo (pre ++ '.' :: r) (pre.length : Int) = .ok pre := sliceTo_append _ _
  have hs2 : sliceFrom (pre ++ '.' :: r) ((pre.length : Int) + 1) = .ok r := by
    have := sliceFrom_append (pre ++ ['.']) r
    simpa using this
  have hne : (pre.length : Int) ≠ -1 := by omega
  cases hf : cur.FieldByName pre <;>
    simp [structStep, bind, Except.bind, pure, Except.pure, namespaceSeparator, leftBracket,
      hi, hs1, hs2, hne, Index_single_notMem _ _ hbr, hf]

theorem structStep_bracket (cur : Val) (pre r : GoString) (hdot : '.' ∉ pre) (hbr : '[' ∉ pre) :
    structStep cur (pre ++ '[' :: r) =
      match cur.FieldByName pre with
      | .ok val => .ok (val, '[' :: r)
      | .error p => .error p := by
  have hs2 : sliceFrom (pre ++ '[' :: r) (pre.length : Int) = .ok ('[' :: r) := sliceFrom_append _ _
  have hne : (pre.length : Int) ≠ -1 := by omega
  by_cases hr : '.' ∈ r
  · obtain ⟨a, b, rfl, ha⟩ := mem_split '.' r hr
    have hna : '.' ∉ pre ++ '[' :: a := by simp [hdot, ha]
    have hi : strings.Index (pre ++ '[' :: (a ++ '.' :: b)) ['.'] =
        ((pre ++ '[' :: a).length : Int) := by
      have := Index_single_split '.' (pre ++ '[' :: a) b hna
      simpa using this
    have hs1 : sliceTo (pre ++ '[' :: (a ++ '.' :: b)) ((pre ++ '[' :: a).length : Int) =
        .ok (pre ++ '[' :: a) := by
      have := sliceTo_append (pre ++ '[' :: a) ('.' :: b)
      simpa using this
    have hs3 : sliceFrom (pre ++ '[' :: (a ++ '.' :: b)) (((pre ++ '[' :: a).length : Int) + 1) =
        .ok b := by
      have := sliceFrom_append (pre ++ '[' :: a ++ ['.']) b
      simpa using this
    have hib : strings.Index (pre ++ '[' :: a) ['['] = (pre.length : Int) :=
      Index_single_split _ _ _ hbr
    have hs4 : sliceTo (pre ++ '[' :: a) (pre.length : Int) = .ok pre := sliceTo_append _ _
    have hne2 : ((pre ++ '[' :: a).length : Int) ≠ -1 := by omega
    cases hf : cur.FieldByName pre <;>
      simp only [structStep, bind, Except.bind, pure, Except.pure, namespaceSeparator,
        leftBracket, hi, hs1, hs2, hs3, hs4, hib, hne, hne2, hf, if_true, if_false, ne_eq,
        not_false_eq_true]
  · have hn : '.' ∉ pre ++ '[' :: r := by simp [hdot, hr]
    have hib : strings.Index (pre ++ '[' :: r) ['['] = (pre.length : Int) :=
      Index_single_split _ _ _ hbr
    have hs4 : sliceTo (pre ++ '[' :: r) (pre.length : Int) = .ok pre := sliceTo_append _ _
    cases hf : cur.FieldByName pre <;>
      simp only [structStep, bind, Except.bind, pure, Except.pure, namespaceSeparator,
        leftBracket, Index_single_notMem _ _ hn, hs2, hs4, hib, hne, hf, if_true, if_false,
        ne_eq, not_false_eq_true, not_true_eq_false]

theorem structStep_eq (cur : Val) (ns : GoString) :
    structStep cur ns =
      match cur.FieldByName (firstName ns) with
      | .ok val => .ok (val, afterName ns)
      | .error p => .error p := by
  obtain ⟨pre, rest, h, hf, hd, hdot, hbr, hc⟩ := name_split ns
  rw [hf, afterName, hd, h]
  rcases hc with rfl | ⟨r, rfl⟩ | ⟨r, rfl⟩
  · simpa [dropDot] using structStep_plain cur pre hdot hbr
  · simpa [dropDot] using structStep_dot cur pre r hdot hbr
  · simpa [dropDot] using structStep_bracket cur pre r hdot hbr

theorem bracket_index_left (k rest : GoString) :
    strings.Index ('[' :: (k ++ ']' :: rest)) ['['] = 0 := by
  simpa using Index_single_split '[' [] (k ++ ']' :: rest) (by simp)

theorem bracket_index_right (k rest : GoString) (hk : ']' ∉ k) :
    strings.Index ('[' :: (k ++ ']' :: rest)) [']'] = (k.length : Int) + 1 := by
  have := Index_single_split ']' ('[' :: k) rest (by simp [hk])
  simpa using this

theorem bracket_slice_key (k rest : GoString) :
    sliceStr ('[' :: (k ++ ']' :: rest)) 1 ((k.length : Int) + 1) = .ok k := by
  have := sliceStr_mid ['['] k (']' :: rest)
  simpa [add_comm] using this

theorem bracket_slice_next (k r : GoString) (c : Char) :
    sliceStr ('[' :: (k ++ ']' :: c :: r)) ((k.length : Int) + 1 + 1) ((k.length : Int) + 1 + 1 + 1)
      = .ok [c] := by
  have := sliceStr_mid ('[' :: (k ++ [']'])) [c] r
  simpa using this

theorem bracket_slice_rest (k rest : GoString) :
    sliceFrom ('[' :: (k ++ ']' :: rest)) ((k.length : Int) + 1 + 1) = .ok rest := by
  have := sliceFrom_append ('[' :: (k ++ [']'])) rest
  simpa using this

theorem bracket_slice_rest_dot (k r : GoString) (c : Char) :
    sliceFrom ('[' :: (k ++ ']' :: c :: r)) ((k.length : Int) + 1 + 1 + 1) = .ok r := by
  have := sliceFrom_append ('[' :: (k ++ [']', c])) r
  simpa using this

theorem seqStep_bracket (cur : Val) (k rest : GoString) (hk : ']' ∉ k) :
    seqStep cur ('[' :: (k ++ ']' :: rest)) =
      match cur.Len with
      | .error p => .error p
      | .ok len =>
        if (strconv.Atoi k).1 ≥ len then .ok none
        else
          match cur.Index (strconv.Atoi k).1 with
          | .error p => .error p
          | .ok val => .ok (some (val, dropDot rest)) := by
  have h1 := bracket_index_left k rest
  have h2 := bracket_index_right k rest hk
  have h3 := bracket_slice_key k rest
  cases hl : cur.Len with
  | error p =>
    simp [seqStep, bind, Except.bind, pure, Except.pure, leftBracket, rightBracket, h1, h2, h3, hl]
  | ok len =>
    by_cases hge : (strconv.Atoi k).1 ≥ len
    · simp [seqStep, bind, Except.bind, pure, Except.pure, leftBracket, rightBracket, h1, h2, h3,
        hl, hge]
    · cases rest with
      | nil =>
        have h4 := bracket_slice_rest k []
        cases hx : cur.Index (strconv.Atoi k).1 <;>
          simp [seqStep, bind, Except.bind, pure, Except.pure, leftBracket, rightBracket, h1, h2,
            h3, h4, hl, hge, hx, dropDot]
      | cons c r =>
        have h4 := bracket_slice_rest k (c :: r)
        have h5 := bracket_slice_next k r c
        have h6 := bracket_slice_rest_dot k r c
        have hlen : (k.length : Int) + 1 + 1 < (k.length : Int) + 1 + 1 + ((r.length : Int) + 1) := by
          omega
        by_cases hc : c = '.'
        · subst hc
          cases hx : cur.Index (strconv.Atoi k).1 <;>
            simp [seqStep, bind, Except.bind, pure, Except.pure, leftBracket, rightBracket,
              namespaceSeparator, h1, h2, h3, h4, h5, h6, hl, hge, hx, dropDot, hlen]
        · have hd : dropDot (c :: r) = c :: r := by
            unfold dropDot
            split
            · rename_i heq; simp at heq; exact absurd heq.1 hc
            · rfl
          cases hx : cur.Index (strconv.Atoi k).1 <;>
            simp [seqStep, bind, Except.bind, pure, Except.pure, leftBracket, rightBracket,
              namespaceSeparator, h1, h2, h3, h4, h5, h6, hl, hge, hx, hd, hlen, hc]

theorem dropDot_of_ne (c : Char) (r : GoString) (hc : c ≠ '.') : dropDot (c :: r) = c :: r := by
  unfold dropDot
  split
  · rename_i heq; simp at heq; exact absurd heq.1 hc
  · rfl

theorem mapStep_bracket (L : Lib) (cur : Val) (k rest : GoString) (hk : ']' ∉ k) :
    mapStep L cur ('[' :: (k ++ ']' :: rest)) =
      match cur.Type.Key with
      | .error p => .error p
      | .ok keyType =>
        match cur.MapIndex L (decodeKey L keyType.Kind k) with
        | .error p => .error p
        | .ok val => .ok (val, dropDot rest) := by
  have h1 := bracket_index_left k rest
  have h2 := bracket_index_right k rest hk
  have h3 := bracket_slice_key k rest
  cases rest with
  | nil =>
    have h4 := bracket_slice_rest k []
    cases hkt : cur.Type.Key with
    | error p =>
      simp [mapStep, bind, Except.bind, pure, Except.pure, leftBracket, rightBracket, h1, h2, h3,
        h4, hkt]
    | ok kt =>
      cases hx : cur.MapIndex L (decodeKey L kt.Kind k) <;>
        simp [mapStep, bind, Except.bind, pure, Except.pure, leftBracket, rightBracket, h1, h2, h3,
          h4, hkt, hx, dropDot]
  | cons c r =>
    have h4 := bracket_slice_rest k (c :: r)
    have h5 : sliceStr ('[' :: (k ++ ']' :: c :: r)) ((k.length : Int) + 1 + 1)
        ((k.length : Int) + 1 + 2) = .ok [c] := by
      have := bracket_slice_next k r c
      rwa [show (k.length : Int) + 1 + 1 + 1 = (k.length : Int) + 1 + 2 by ring] at this
    have h6 := bracket_slice_rest_dot k r c
    have hlen : (k.length : Int) + 1 + 1 < (k.length : Int) + 1 + 1 + ((r.length : Int) + 1) := by
      omega
    by_cases hc : c = '.'
    · subst hc
      cases hkt : cur.Type.Key with
      | error p =>
        simp [mapStep, bind, Except.bind, pure, Except.pure, leftBracket, rightBracket,
          namespaceSeparator, h1, h2, h3, h4, h5, h6, hkt, hlen]
      | ok kt =>
        cases hx : cur.MapIndex L (decodeKey L kt.Kind k) <;>
          simp [mapStep, bind, Except.bind, pure, Except.pure, leftBracket, rightBracket,
            namespaceSeparator, h1, h2, h3, h4, h5, h6, hkt, hx, dropDot, hlen]
    · have hd := dropDot_of_ne c r hc
      cases hkt : cur.Type.Key with
      | error p =>
        simp [mapStep, bind, Except.bind, pure, Except.pure, leftBracket, rightBracket,
          namespaceSeparator, h1, h2, h3, h4, h5, h6, hkt, hlen, hc]
      | ok kt =>
        cases hx : cur.MapIndex L (decodeKey L kt.Kind k) <;>
          simp [mapStep, bind, Except.bind, pure, Except.pure, leftBracket, rightBracket,
            namespaceSeparator, h1, h2, h3, h4, h5, h6, hkt, hx, hd, hlen, hc]

theorem getStructFieldOKInternal_zero_value (L : Lib) (v : validate) (fuel : Nat) (ns : GoString) :
    getStructFieldOKInternal L v (fuel + 1) none ns = .ret none .Invalid false false := by
  simp [getStructFieldOKInternal, validate.ExtractType, extractTypeInternal]

theorem getStructFieldOKInternal_zero_value_any (L : Lib) (v : validate) (fuel : Nat)
    (ns1 ns2 : GoString) :
    getStructFieldOKInternal L v fuel none ns1 = getStructFieldOKInternal L v fuel none ns2 := by
  cases fuel with
  | zero => simp [getStructFieldOKInternal]
  | succ f => simp [getStructFieldOKInternal_zero_value]

theorem FieldByName_empty (cur : Val) :
    cur.FieldByName [] = .ok none ∨ ∃ p, cur.FieldByName [] = .error p := by
  cases cur <;> simp [Val.FieldByName]

theorem firstName_bracket (x : GoString) : firstName ('[' :: x) = [] := by
  simp [firstName, isNameByte, List.takeWhile]

theorem afterName_bracket (x : GoString) : afterName ('[' :: x) = '[' :: x := by
  simp [afterName, isNameByte, List.dropWhile, dropDot]

theorem dropDot_of_not_dot (rest : GoString) (h : ∀ r, rest ≠ '.' :: r) : dropDot rest = rest := by
  cases rest with
  | nil => rfl
  | cons c r =>
    exact dropDot_of_ne c r (fun e => h r (by rw [e]))

/-! ### The namespace resolver: the separator after an index -/

/-- C10: for every value (sequences and maps in particular), every index or key text `k`
without `]` and every rest that does not begin with `.`, resolving `[k].rest` gives the same
outcome as resolving `[k]rest`: exactly one `.` after the closing bracket is consumed. -/
theorem C10_one_dot_after_bracket (L : Lib) (v : validate) (fuel : Nat) (h : Handle)
    (k rest : GoString) (hk : ']' ∉ k) (hrest : ∀ r, rest ≠ '.' :: r) :
    getStructFieldOKInternal L v fuel h ('[' :: (k ++ ']' :: '.' :: rest)) =
      getStructFieldOKInternal L v fuel h ('[' :: (k ++ ']' :: rest)) := by
  cases fuel with
  | zero => simp [getStructFieldOKInternal]
  | succ f =>
    have hd := dropDot_of_not_dot rest hrest
    have hd2 : dropDot ('.' :: rest) = rest := rfl
    unfold getStructFieldOKInternal
    cases hx : v.ExtractType f h with
    | none => simp
    | some r =>
      obtain ⟨current, kind, nl⟩ := r
      cases current with
      | none => cases kind <;> simp
      | some cur =>
        cases kind <;>
          simp only [seqStep_bracket cur k _ hk, mapStep_bracket L cur k _ hk, hd, hd2, structStep_eq,
            firstName_bracket, afterName_bracket, reduceCtorEq, if_false, if_true]
        rcases FieldByName_empty cur with h0 | ⟨p, h0⟩
        · simp only [h0]
          rw [getStructFieldOKInternal_zero_value_any L v f _ ('[' :: (k ++ ']' :: rest))]
        · simp only [h0]

/-- C10 at a slice of one record `{C: 7}` with `[0].C` and `[0]C`; both resolve to the 7. -/
theorem C10_one_dot_after_bracket_witness :
    (']' ∉ ['0']) ∧ (∀ r : GoString, ['C'] ≠ '.' :: r) ∧
    getStructFieldOKInternal plainLib plainValidate 3
        (some (.slice none (.struct ['T'] false)
          [.struct ['T'] false [(['C'], .scalar none .Int (.int 7))]]))
        ('[' :: (['0'] ++ ']' :: '.' :: ['C'])) =
      getStructFieldOKInternal plainLib plainValidate 3
        (some (.slice none (.struct ['T'] false)
          [.struct ['T'] false [(['C'], .scalar none .Int (.int 7))]]))
        ('[' :: (['0'] ++ ']' :: ['C'])) ∧
    getStructFieldOKInternal plainLib plainValidate 3
        (some (.slice none (.struct ['T'] false)
          [.struct ['T'] false [(['C'], .scalar none .Int (.int 7))]]))
        ('[' :: (['0'] ++ ']' :: ['C'])) =
      .ret (some (.scalar none .Int (.int 7))) .Int false true :=
  ⟨by decide, by simp,
    C10_one_dot_after_bracket plainLib plainValidate 3 _ ['0'] ['C'] (by decide) (by simp), rfl⟩


/-! ### The namespace resolver: paths of field names -/

theorem Val.Kind_ne_Invalid (x : Val) : x.Kind ≠ .Invalid := by
  cases x <;> simp [Val.Kind]
  rename_i b _
  cases b <;> simp [Basic.Kind]

theorem stripLayers_of_unwraps_struct (x : Val) (name : GoString) (tl : Bool)
    (fields : List (GoString × Val)) (h : Unwraps x (.struct name tl fields)) :
    ∀ n, (stripLayers x n).1 = .struct name tl fields := by
  generalize hy : Val.struct name tl fields = y at h
  induction h with
  | here x => intro n; subst hy; simp [stripLayers]
  | ptr m e t y _ ih => intro n; simpa [stripLayers] using ih hy true
  | iface t d y _ ih => intro n; simpa [stripLayers] using ih hy true

theorem firstName_self (f : GoString) (hdot : '.' ∉ f) (hbr : '[' ∉ f) :
    firstName f = f ∧ afterName f = [] := by
  have hall : ∀ c ∈ f, isNameByte c = true := by
    intro c hc
    have h1 : c ≠ '.' := fun e => hdot (e ▸ hc)
    have h2 : c ≠ '[' := fun e => hbr (e ▸ hc)
    simp [isNameByte, h1, h2]
  constructor
  · exact List.takeWhile_eq_self_iff.2 hall
  · have : f.dropWhile isNameByte = [] := List.dropWhile_eq_nil_iff.2 hall
    simp [afterName, this, dropDot]

theorem firstName_dot (f r : GoString) (hdot : '.' ∉ f) (hbr : '[' ∉ f) :
    firstName (f ++ '.' :: r) = f ∧ afterName (f ++ '.' :: r) = r := by
  have hall : ∀ c ∈ f, isNameByte c = true := by
    intro c hc
    have h1 : c ≠ '.' := fun e => hdot (e ▸ hc)
    have h2 : c ≠ '[' := fun e => hbr (e ▸ hc)
    simp [isNameByte, h1, h2]
  constructor
  · unfold firstName
    rw [List.takeWhile_append_of_pos hall]
    simp [List.takeWhile, isNameByte]
  · unfold afterName
    rw [List.dropWhile_append_of_pos hall]
    simp [List.dropWhile, isNameByte, dropDot]

/-- One pass of `getStructFieldOKInternal` over a non-time record, without custom functions:
the first field name is looked up and the resolution continues with what follows it. -/
theorem getStructFieldOKInternal_struct (L : Lib) (v : validate) (hv : v.noCustom) (fuel : Nat)
    (x : Val) (name : GoString) (fields : List (GoString × Val))
    (hx : Unwraps x (.struct name false fields)) (ns : GoString) (hns : ns ≠ []) :
    getStructFieldOKInternal L v (fuel + 1) (some x) ns =
      getStructFieldOKInternal L v fuel
        (if firstName ns = [] then none else lookupField (firstName ns) fields) (afterName ns) := by
  have hs := stripLayers_of_unwraps_struct x name false fields hx false
  conv_lhs => unfold getStructFieldOKInternal
  simp only [validate.ExtractType, extractTypeInternal_plain v hv, hs, Val.Kind, hns,
    structStep_eq, Val.FieldByName, Val.Type, GoType.ConvertibleToTime, GoType.underlying,
    reduceCtorEq, if_false, if_true]

/-- The last pass of `getStructFieldOKInternal`, on a valid value with the namespace used
up, without custom functions. -/
theorem getStructFieldOKInternal_done (L : Lib) (v : validate) (hv : v.noCustom) (fuel : Nat)
    (w : Val) :
    getStructFieldOKInternal L v (fuel + 1) (some w) [] =
      .ret (some (stripLayers w false).1) (stripLayers w false).1.Kind (stripLayers w false).2
        true := by
  conv_lhs => unfold getStructFieldOKInternal
  simp [validate.ExtractType, extractTypeInternal_plain v hv, Val.Kind_ne_Invalid]

theorem lookupField_none (f : GoString) :
    ∀ (fields : List (GoString × Val)), (∀ y, (f, y) ∉ fields) → lookupField f fields = none
  | [], _ => rfl
  | (n, x) :: rest, h => by
    have hn : n ≠ f := fun e => h x (by simp [e])
    have hr : ∀ y, (f, y) ∉ rest := fun y hy => h y (by simp [hy])
    simp [lookupField, hn, lookupField_none f rest hr]

/-- C1: without custom functions, for a path `f1.f2...fn` of field names (free of `.` and
`[`) in which every name is an existing field of the non-time record reached after settling
the previous field, `getStructFieldOKInternal` returns `found = true`, and the handle, kind
and flag it returns are those of `extractTypeInternal` applied to the value stored in the
last field.  One unit of fuel per name and one more are enough. -/
theorem C1_existing_field_path (L : Lib) (v : validate) (hv : v.noCustom) (R w : Val)
    (fs : List GoString) (hnames : ∀ f ∈ fs, '.' ∉ f ∧ '[' ∉ f) (hpath : FieldPath R fs w)
    (fuel : Nat) (hfuel : fs.length < fuel) :
    ∃ cur kind nl, extractTypeInternal v fuel (some w) false = some (cur, kind, nl) ∧
      getStructFieldOKInternal L v fuel (some R) (joinNames fs) = .ret cur kind nl true := by
  refine ⟨_, _, _, extractTypeInternal_plain v hv fuel w false, ?_⟩
  induction hpath generalizing fuel with
  | last x name fields f w hx hf hl =>
    obtain ⟨g, rfl⟩ : ∃ g, fuel = g + 2 := ⟨fuel - 2, by simp at hfuel; omega⟩
    have hn := hnames f (by simp)
    have h1 := firstName_self f hn.1 hn.2
    rw [joinNames, getStructFieldOKInternal_struct L v hv (g + 1) x name fields hx f hf, h1.1,
      h1.2]
    simp [hf, hl, getStructFieldOKInternal_done L v hv]
  | step x name fields f y fs w hx hf hl hp ih =>
    cases fs with
    | nil => cases hp
    | cons g gs =>
      obtain ⟨k, rfl⟩ : ∃ k, fuel = k + 1 := ⟨fuel - 1, by simp at hfuel; omega⟩
      have hn := hnames f (by simp)
      have h1 := firstName_dot f (joinNames (g :: gs)) hn.1 hn.2
      rw [joinNames, getStructFieldOKInternal_struct L v hv k x name fields hx _ (by simp),
        h1.1, h1.2]
      simp only [hf, if_false, hl]
      exact ih (fun f hf => hnames f (by simp [hf])) k (by simp at hfuel ⊢; omega)

/-- C1 at the record `{Address: &{City: "x"}}` with the namespace `Address.City`. -/
theorem C1_existing_field_path_witness :
    plainValidate.noCustom ∧
    (∀ f ∈ ["Address".toList, "City".toList], '.' ∉ f ∧ '[' ∉ f) ∧
    FieldPath exampleRoot ["Address".toList, "City".toList] exampleCity ∧
    ∃ cur kind nl,
      extractTypeInternal plainValidate 3 (some exampleCity) false = some (cur, kind, nl) ∧
      getStructFieldOKInternal plainLib plainValidate 3 (some exampleRoot)
          (joinNames ["Address".toList, "City".toList]) =
        .ret cur kind nl true :=
  have hp : FieldPath exampleRoot ["Address".toList, "City".toList] exampleCity :=
    FieldPath.step exampleRoot "Root".toList
      [("Address".toList, .ptr none (.struct "Addr".toList false) exampleAddress)]
      "Address".toList (.ptr none (.struct "Addr".toList false) exampleAddress)
      ["City".toList] exampleCity (Unwraps.here _) (by decide) rfl
      (FieldPath.last (.ptr none (.struct "Addr".toList false) exampleAddress) "Addr".toList
        [("City".toList, exampleCity)] "City".toList exampleCity
        (Unwraps.ptr _ _ _ _ (Unwraps.here _)) (by decide) rfl)
  ⟨Or.inl rfl, by decide, hp,
    C1_existing_field_path plainLib plainValidate (Or.inl rfl) exampleRoot exampleCity
      ["Address".toList, "City".toList] (by decide) hp 3 (by decide)⟩

/-! ### The namespace resolver: a name that is not a field -/

/-- C4 (amended): without custom functions, for every non-time record and every non-empty
namespace whose first field name (the text before the first `.` or `[`) is not the name of a
field of the record, `getStructFieldOKInternal` returns a miss: `found = false` with the
zero Value and kind Invalid.  It does not panic. -/
theorem C4_missing_field_is_a_miss (L : Lib) (v : validate) (hv : v.noCustom) (name : GoString)
    (fields : List (GoString × Val)) (ns : GoString) (hns : ns ≠ [])
    (hmiss : ∀ y, (firstName ns, y) ∉ fields) (fuel : Nat) (hfuel : 2 ≤ fuel) :
    getStructFieldOKInternal L v fuel (some (.struct name false fields)) ns =
      .ret none .Invalid false false := by
  obtain ⟨g, rfl⟩ : ∃ g, fuel = g + 2 := ⟨fuel - 2, by omega⟩
  rw [getStructFieldOKInternal_struct L v hv (g + 1) _ name fields (Unwraps.here _) ns hns,
    lookupField_none _ fields hmiss]
  simp [getStructFieldOKInternal_zero_value]

/-- C4 (amended) at the record `{A: 1}` with the namespace `B`. -/
theorem C4_missing_field_is_a_miss_witness :
    plainValidate.noCustom ∧ (['B'] : GoString) ≠ [] ∧
    (∀ y, (firstName ['B'], y) ∉ [((['A'] : GoString), Val.scalar none .Int (.int 1))]) ∧
    getStructFieldOKInternal plainLib plainValidate 2
        (some (.struct ['T'] false [(['A'], .scalar none .Int (.int 1))])) ['B'] =
      .ret none .Invalid false false :=
  ⟨Or.inl rfl, by decide, by simp [firstName, isNameByte],
    C4_missing_field_is_a_miss plainLib plainValidate (Or.inl rfl) ['T'] _ ['B'] (by decide)
      (by simp [firstName, isNameByte]) 2 (by decide)⟩

/-- C4 as stated fails: on the record `{A: 1}` the namespace `B`, whose first name is not a
field, does not panic with "Invalid field namespace"; the call returns a miss. -/
theorem C4_counterexample :
    getStructFieldOKInternal plainLib plainValidate 2
        (some (.struct ['T'] false [(['A'], .scalar none .Int (.int 1))])) ['B'] ≠
      .panic .invalidNamespace ∧
    getStructFieldOKInternal plainLib plainValidate 2
        (some (.struct ['T'] false [(['A'], .scalar none .Int (.int 1))])) ['B'] =
      .ret none .Invalid false false := by
  have h : getStructFieldOKInternal plainLib plainValidate 2
      (some (.struct ['T'] false [(['A'], .scalar none .Int (.int 1))])) ['B'] =
      .ret none .Invalid false false := rfl
  exact ⟨by rw [h]; exact fun e => Outcome.noConfusion e, h⟩

/-! ### The namespace resolver: a negative index -/

/-- C2 at its failing input: on the slice `[]int{1, 2}` the namespace `[-1]` passes the
guard `arrIdx >= current.Len()` and `Index(-1)` panics; no miss is returned. -/
theorem C2_negative_index_panics :
    getStructFieldOKInternal plainLib plainValidate 2 (some exampleSlice) "[-1]".toList =
      .panic .indexOutOfRange ∧
    getStructFieldOKInternal plainLib plainValidate 2 (some exampleSlice) "[1]".toList =
      .ret (some (.scalar none .Int (.int 2))) .Int false true ∧
    getStructFieldOKInternal plainLib plainValidate 2 (some exampleSlice) "[2]".toList =
      .ret (some exampleSlice) .Slice false false :=
  ⟨rfl, rfl, rfl⟩

/-! ### Mutation -/

/-- C8 at its failing input: `mutate` on a nil pointer to a record returns nil (success)
from `interNilType`, whose type switch has no case for it; nothing is written.  On the
record itself, and on a non-nil pointer to it, the result is the unsupported-type error. -/
theorem C8_nil_pointer_to_record_returns_nil :
    mutate plainLib true false (.nilPtr none (.struct "T".toList false)) "7".toList =
      .ret none (.nilPtr none (.struct "T".toList false)) ∧
    mutate plainLib true false (.struct "T".toList false []) "7".toList =
      .ret (some .unsupported) (.struct "T".toList false []) ∧
    mutate plainLib true false
        (.ptr none (.struct "T".toList false) (.struct "T".toList false [])) "7".toList =
      .ret (some .unsupported)
        (.ptr none (.struct "T".toList false) (.struct "T".toList false [])) :=
  ⟨rfl, rfl, rfl⟩

/-- Fact: for every settable handle that is a nil pointer of one of the predeclared
types `*string`, `*int` ... `*int64`, `*uint` ... `*uint64`, `*bool`, and every text that
parses for the element type (`parseFor` gives the value `x`), `mutate` returns nil and the
handle is afterwards a non-nil pointer to `x`. -/
theorem mutate_nil_pointer_predeclared (L : Lib) (b : Basic) (text : GoString) (x : Val)
    (hb : isWritableScalar b = true) (hx : parseFor L b text = some (.ok x)) :
    mutate L true false (.nilPtr none (.basic b)) text = .ret none (.ptr none (.basic b) x) := by
  cases b <;> simp [isWritableScalar] at hb <;>
    simp only [mutate, interNilType, Val.Type, tname, parseFor] at hx ⊢
  all_goals first
    | (cases hp : strconv.ParseInt text 10 64 with
       | mk i e => cases e <;> simp_all [setAndReturn, Set, Val.Type, tname])
    | (cases hp : strconv.ParseUint text 10 64 with
       | mk i e => cases e <;> simp_all [setAndReturn, Set, Val.Type, tname])
    | (cases hp : strconv.ParseBool text with
       | mk i e => cases e <;> simp_all [setAndReturn, Set, Val.Type, tname])

/-- C6 at its failing input: `mutate` on a nil pointer to a defined type (`*MyInt` with
`type MyInt int`, `*time.Duration`), settable or not, returns nil (success) from
`interNilType`, whose type switch lists the pointers to the predeclared types only and has
no default case; nothing is allocated and the pointer is still nil.  So it is for the nil
`*MyInt` written with "7", a text that parses for the kind `int`, while the nil `*int`
written with "7" is allocated and points to 7. -/
theorem C6_nil_pointer_to_defined_type_stays_nil (L : Lib) (addr ro : Bool) (name : GoString)
    (under : GoType) (text : GoString) :
    mutate L addr ro (.nilPtr none (.named name under)) text =
      .ret none (.nilPtr none (.named name under)) ∧
    GoType.Kind (.named "MyInt".toList (.basic .Int)) = .Int ∧
    parseFor plainLib .Int "7".toList = some (.ok (.scalar none .Int (.int 7))) ∧
    mutate plainLib true false (.nilPtr none (.named "MyInt".toList (.basic .Int))) "7".toList =
      .ret none (.nilPtr none (.named "MyInt".toList (.basic .Int))) ∧
    mutate plainLib true false (.nilPtr none (.basic .Int)) "7".toList =
      .ret none (.ptr none (.basic .Int) (.scalar none .Int (.int 7))) :=
  ⟨by simp [mutate, interNilType, Val.Type, tname], rfl, rfl, rfl, rfl⟩

/-! ### strconv: base 0 and base 10 on plain decimal text -/

theorem ParseUintLoop_no_underscore (base cutoff maxVal : Nat) :
    ∀ (s : GoString) (n : Nat) (us : Bool), '_' ∉ s →
      strconv.ParseUintLoop base true cutoff maxVal s n us =
        strconv.ParseUintLoop base false cutoff maxVal s n us
  | [], _, _, _ => by simp [strconv.ParseUintLoop]
  | c :: cs, n, us, h => by
    have hc : c ≠ '_' := fun e => h (by simp [e])
    have hs : '_' ∉ cs := fun e => h (by simp [e])
    simp only [strconv.ParseUintLoop, hc, false_and, if_false]
    cases strconv.digitVal c with
    | none => rfl
    | some d =>
      simp only []
      split
      · rfl
      · split
        · rfl
        · split
          · rfl
          · exact ParseUintLoop_no_underscore base cutoff maxVal cs _ us hs

theorem ParseUintLoop_flag (base cutoff maxVal : Nat) :
    ∀ (s : GoString) (n : Nat) (us : Bool) (r : Nat × Bool),
      strconv.ParseUintLoop base false cutoff maxVal s n us = .ok r → r.2 = us
  | [], n, us, r, h => by
    simp [strconv.ParseUintLoop] at h
    rw [← h]
  | c :: cs, n, us, r, h => by
    simp only [strconv.ParseUintLoop, Bool.false_eq_true, and_false, if_false] at h
    cases hd : strconv.digitVal c with
    | none => simp [hd] at h
    | some d =>
      simp only [hd] at h
      split at h
      · simp at h
      · split at h
        · simp at h
        · split at h
          · simp at h
          · exact ParseUintLoop_flag base cutoff maxVal cs _ us r h

/-- Fact: `ParseUint` after its checks, for base 10 or for base 0 on a text sent to base 10. -/
theorem ParseUint_eq_loop (s : GoString) (base bitSize : Nat) (hs : s ≠ [])
    (hb : base = 10 ∨ (base = 0 ∧ strconv.pickBase s = (10, s))) (hbits : bitSize ≤ 64) :
    strconv.ParseUint s base bitSize =
      match strconv.ParseUintLoop 10 (base == 0) ((2 ^ 64 - 1) / 10 + 1)
          (2 ^ (if bitSize = 0 then 64 else bitSize) - 1) s 0 false with
      | .error (n, e) => (n, some e)
      | .ok (n, underscores) =>
        if underscores = true ∧ strconv.underscoreOK s = false then (0, some .malformed)
        else (n, none) := by
  have hnb : ¬ bitSize > 64 := by omega
  rcases hb with rfl | ⟨rfl, hp⟩
  · simp only [strconv.ParseUint, hs, if_false, hnb]
    rfl
  · simp only [strconv.ParseUint, hs, if_false, hnb, hp]
    rfl

theorem ParseUint_base0_eq (s : GoString)
    (h0 : s = ['0'] ∨ s.head? ≠ some '0') (hu : '_' ∉ s) :
    strconv.ParseUint s 0 64 = strconv.ParseUint s 10 64 := by
  rcases h0 with rfl | h0
  · decide
  · cases s with
    | nil => rfl
    | cons c cs =>
      have hc : c ≠ '0' := by simpa using h0
      have hp : strconv.pickBase (c :: cs) = (10, c :: cs) := by
        unfold strconv.pickBase
        split
        · rename_i heq; simp at heq; exact absurd heq.1 hc
        · rename_i heq; simp at heq; exact absurd heq.1 hc
        · rfl
      rw [ParseUint_eq_loop _ 0 64 (by simp) (Or.inr ⟨rfl, hp⟩) (by omega),
        ParseUint_eq_loop _ 10 64 (by simp) (Or.inl rfl) (by omega)]
      rw [show ((0 : Nat) == 0) = true from rfl, show ((10 : Nat) == 0) = false from rfl,
        ParseUintLoop_no_underscore _ _ _ _ _ _ hu]

theorem ParseInt_base0_eq (s : GoString) (h : plainDecimal s = true) :
    strconv.ParseInt s 0 64 = strconv.ParseInt s 10 64 := by
  cases s with
  | nil => rfl
  | cons c cs =>
    simp only [plainDecimal, Bool.and_eq_true, Bool.or_eq_true, beq_iff_eq, bne_iff_ne,
      Bool.not_eq_true'] at h
    have hu : '_' ∉ unsignedPart (c :: cs) := by
      have := h.2
      simpa using this
    have h0 := h.1
    simp only [unsignedPart] at h0 hu
    simp only [strconv.ParseInt]
    rw [ParseUint_base0_eq _ h0 hu]

/-! ### Mutation of signed integers -/

/-- Fact: `mutate` on a settable handle of a predeclared signed integer type: the text is parsed
in base 10 as an `int64`; on success the narrowed value is stored, on failure the parse
error is returned and the handle keeps its value. -/
theorem mutate_signed (L : Lib) (b : Basic) (d : Data) (text : GoString)
    (hb : isSignedInt b = true) :
    mutate L true false (.scalar none b d) text =
      match strconv.ParseInt text 10 64 with
      | (i, none) => .ret none (.scalar none b (.int (narrowTo b i)))
      | (_, some e) => .ret (some (.parse e)) (.scalar none b d) := by
  cases b <;> simp [isSignedInt] at hb <;>
    simp only [mutate, parseFor, narrowTo] <;>
    (cases hp : strconv.ParseInt text 10 64 with
     | mk i e => cases e <;> simp [setAndReturn, Set, Val.Type, tname])

/-- C7 (amended): for every settable handle of a predeclared signed integer type and every
plain decimal text (optional sign, no base prefix, no leading zero before other digits, no
underscore): `mutate` succeeds exactly when `asInt` succeeds, and the handle then holds
`asInt(text)` narrowed to the handle's width. -/
theorem C7_write_then_read_matches_asInt (L : Lib) (b : Basic) (d : Data) (text : GoString)
    (hb : isSignedInt b = true) (hd : plainDecimal text = true) :
    ((∃ after, mutate L true false (.scalar none b d) text = .ret none after) ↔
      (∃ i, asInt text = .ok i)) ∧
    (∀ i, asInt text = .ok i →
      mutate L true false (.scalar none b d) text =
        .ret none (.scalar none b (.int (narrowTo b i)))) := by
  rw [mutate_signed L b d text hb]
  unfold asInt
  rw [ParseInt_base0_eq text hd]
  cases hp : strconv.ParseInt text 10 64 with
  | mk i e =>
    cases e with
    | none => simp
    | some e => simp

/-- C7 (amended) at an `int8` handle holding 3, written with "300": it then holds 44. -/
theorem C7_write_then_read_matches_asInt_witness :
    isSignedInt .Int8 = true ∧ plainDecimal "300".toList = true ∧
    (((∃ after, mutate plainLib true false (.scalar none .Int8 (.int 3)) "300".toList =
        .ret none after) ↔ (∃ i, asInt "300".toList = .ok i)) ∧
      (∀ i, asInt "300".toList = .ok i →
        mutate plainLib true false (.scalar none .Int8 (.int 3)) "300".toList =
          .ret none (.scalar none .Int8 (.int (narrowTo .Int8 i))))) ∧
    asInt "300".toList = .ok 300 ∧ narrowTo .Int8 300 = 44 :=
  ⟨rfl, rfl,
    C7_write_then_read_matches_asInt plainLib .Int8 (.int 3) "300".toList rfl rfl, rfl,
    by decide⟩

/-- C7 as stated fails: on an `int` handle the text "0x10" is accepted by `asInt` (16) and
rejected by `mutate`, which parses in base 10; the handle keeps its value. -/
theorem C7_counterexample :
    asInt "0x10".toList = .ok 16 ∧
    mutate plainLib true false (.scalar none .Int (.int 3)) "0x10".toList =
      .ret (some (.parse .malformed)) (.scalar none .Int (.int 3)) :=
  ⟨rfl, rfl⟩


/-! ### strconv: parsing canonical decimal text -/

theorem digitChar_toNat (d : Nat) (hd : d < 10) : (digitChar d).toNat = 48 + d := by
  interval_cases d <;> rfl

theorem digitVal_digitChar (d : Nat) (hd : d < 10) : strconv.digitVal (digitChar d) = some d := by
  interval_cases d <;> rfl

theorem decimalAux_acc : ∀ (fuel n : Nat) (acc : GoString),
    decimalAux fuel n acc = decimalAux fuel n [] ++ acc
  | 0, _, _ => by simp [decimalAux]
  | fuel + 1, n, acc => by
    simp only [decimalAux]
    split
    · simp
    · rw [decimalAux_acc fuel (n / 10) (digitChar (n % 10) :: acc),
        decimalAux_acc fuel (n / 10) [digitChar (n % 10)]]
      simp

theorem decimalAux_fuel : ∀ (fuel fuel1 n : Nat) (acc : GoString), n < fuel → n < fuel1 →
    decimalAux fuel n acc = decimalAux fuel1 n acc
  | 0, _, _, _, h, _ => by omega
  | _ + 1, 0, _, _, _, h => by omega
  | fuel + 1, fuel1 + 1, n, acc, h, h1 => by
    simp only [decimalAux]
    split
    · rfl
    · exact decimalAux_fuel fuel fuel1 (n / 10) _ (by omega) (by omega)

theorem decimalNat_small (n : Nat) (h : n < 10) : decimalNat n = [digitChar n] := by
  simp [decimalNat, decimalAux, h]

theorem decimalNat_large (n : Nat) (h : ¬ n < 10) :
    decimalNat n = decimalNat (n / 10) ++ [digitChar (n % 10)] := by
  have e : decimalAux (n + 1) n [] = decimalAux n (n / 10) [digitChar (n % 10)] := by
    simp [decimalAux, h]
  unfold decimalNat
  rw [e, decimalAux_acc, decimalAux_fuel n (n / 10 + 1) (n / 10) [] (by omega) (by omega)]

theorem ParseUintLoop_append (base : Nat) (base0 : Bool) (cutoff maxVal : Nat) :
    ∀ (xs ys : GoString) (n : Nat) (us : Bool),
      strconv.ParseUintLoop base base0 cutoff maxVal (xs ++ ys) n us =
        match strconv.ParseUintLoop base base0 cutoff maxVal xs n us with
        | .ok (n1, us1) => strconv.ParseUintLoop base base0 cutoff maxVal ys n1 us1
        | .error e => .error e
  | [], ys, n, us => by simp [strconv.ParseUintLoop]
  | c :: cs, ys, n, us => by
    simp only [List.cons_append, strconv.ParseUintLoop]
    split
    · exact ParseUintLoop_append base base0 cutoff maxVal cs ys n true
    · cases strconv.digitVal c with
      | none => rfl
      | some d =>
        simp only []
        split
        · rfl
        · split
          · rfl
          · split
            · rfl
            · exact ParseUintLoop_append base base0 cutoff maxVal cs ys _ us

theorem digitChar_ne_underscore (d : Nat) (hd : d < 10) : digitChar d ≠ '_' := by
  interval_cases d <;> decide

/-- One pass of the digit loop of `ParseUint` on a decimal digit that fits. -/
theorem ParseUintLoop_digit (maxVal a d : Nat) (rest : GoString) (us : Bool)
    (hmax : maxVal < 2 ^ 64) (hd : d < 10) (ha : a * 10 + d ≤ maxVal) :
    strconv.ParseUintLoop 10 false ((2 ^ 64 - 1) / 10 + 1) maxVal (digitChar d :: rest) a us =
      strconv.ParseUintLoop 10 false ((2 ^ 64 - 1) / 10 + 1) maxVal rest (a * 10 + d) us := by
  have h1 : ¬ d ≥ 10 := by omega
  have h3 : ¬ a ≥ (2 ^ 64 - 1) / 10 + 1 := by omega
  have h0 : a * 10 % 2 ^ 64 = a * 10 := Nat.mod_eq_of_lt (by omega)
  have h2 : (a * 10 + d) % 2 ^ 64 = a * 10 + d := Nat.mod_eq_of_lt (by omega)
  have h4 : ¬ (a * 10 + d < a * 10 ∨ a * 10 + d > maxVal) := by omega
  rw [strconv.ParseUintLoop]
  simp only [digitChar_ne_underscore d hd, false_and, if_false, digitVal_digitChar d hd, h1, h3,
    h0, h2, h4]

/-- The digit loop of `ParseUint` reads the canonical decimal text of `n` back as `n`. -/
theorem ParseUintLoop_decimalNat (maxVal : Nat) (hmax : maxVal < 2 ^ 64) :
    ∀ (n : Nat), n ≤ maxVal →
      strconv.ParseUintLoop 10 false ((2 ^ 64 - 1) / 10 + 1) maxVal (decimalNat n) 0 false =
        .ok (n, false) := by
  intro n
  induction n using Nat.strong_induction_on with
  | _ n ih =>
    intro hn
    by_cases h : n < 10
    · rw [decimalNat_small n h, ParseUintLoop_digit maxVal 0 n [] false hmax h (by omega)]
      simp [strconv.ParseUintLoop]
    · have hd : n % 10 < 10 := Nat.mod_lt _ (by omega)
      rw [decimalNat_large n h, ParseUintLoop_append, ih (n / 10) (by omega) (by omega)]
      simp only []
      rw [ParseUintLoop_digit maxVal (n / 10) (n % 10) [] false hmax hd (by omega)]
      have : n / 10 * 10 + n % 10 = n := by omega
      simp [strconv.ParseUintLoop, this]

theorem decimalNat_digits (n : Nat) :
    ∀ c ∈ decimalNat n, ∃ d, d < 10 ∧ c = digitChar d := by
  induction n using Nat.strong_induction_on with
  | _ n ih =>
    intro c hc
    by_cases h : n < 10
    · rw [decimalNat_small n h] at hc
      exact ⟨n, h, by simpa using hc⟩
    · rw [decimalNat_large n h] at hc
      rcases List.mem_append.1 hc with hc | hc
      · exact ih (n / 10) (by omega) c hc
      · exact ⟨n % 10, Nat.mod_lt _ (by omega), by simpa using hc⟩

theorem decimalNat_ne_nil (n : Nat) : decimalNat n ≠ [] := by
  by_cases h : n < 10
  · rw [decimalNat_small n h]; simp
  · rw [decimalNat_large n h]; simp

theorem digitChar_props (d : Nat) (hd : d < 10) :
    digitChar d ≠ '+' ∧ digitChar d ≠ '-' ∧ digitChar d ≠ ']' ∧ digitChar d ≠ '[' ∧
      digitChar d ≠ '.' := by
  interval_cases d <;> decide

/-- Fact: `ParseUint` in base 10 reads the canonical decimal text of `n` back, when `n` fits. -/
theorem ParseUint_decimalNat (n bitSize : Nat) (hbits : bitSize ≤ 64)
    (hn : n < 2 ^ (if bitSize = 0 then 64 else bitSize)) :
    strconv.ParseUint (decimalNat n) 10 bitSize = (n, none) := by
  rw [ParseUint_eq_loop _ 10 bitSize (decimalNat_ne_nil n) (Or.inl rfl) hbits]
  have hp : 2 ^ (if bitSize = 0 then 64 else bitSize) ≤ 2 ^ 64 :=
    Nat.pow_le_pow_right (by omega) (by split <;> omega)
  have hpos : 0 < 2 ^ (if bitSize = 0 then 64 else bitSize) := Nat.pow_pos (by omega)
  rw [show ((10 : Nat) == 0) = false from rfl,
    ParseUintLoop_decimalNat _ (by omega) n (by omega)]
  simp

/-- Fact: `ParseInt` in base 10 reads the canonical decimal text of `i` back, when `i` fits. -/
theorem ParseInt_decimalInt (i : Int) (bitSize : Nat) (hbits : bitSize ≤ 64)
    (hlo : -(2 ^ ((if bitSize = 0 then 64 else bitSize) - 1) : Int) ≤ i)
    (hhi : i < (2 ^ ((if bitSize = 0 then 64 else bitSize) - 1) : Int)) :
    strconv.ParseInt (decimalInt i) 10 bitSize = (i, none) := by
  have hp : 2 ^ ((if bitSize = 0 then 64 else bitSize) - 1) ≤ 2 ^ 63 :=
    Nat.pow_le_pow_right (by omega) (by split <;> omega)
  have hpi : ((2 ^ ((if bitSize = 0 then 64 else bitSize) - 1) : Nat) : Int) =
      (2 ^ ((if bitSize = 0 then 64 else bitSize) - 1) : Int) := by push_cast; rfl
  cases i with
  | ofNat n =>
    have hn : n < 2 ^ ((if bitSize = 0 then 64 else bitSize) - 1) := by
      have : ((n : Nat) : Int) < ((2 ^ ((if bitSize = 0 then 64 else bitSize) - 1) : Nat) : Int) := by
        rw [hpi]; exact hhi
      exact_mod_cast this
    have hu := ParseUint_decimalNat n 64 (by omega) (by simp; omega)
    cases hs : decimalNat n with
    | nil => exact absurd hs (decimalNat_ne_nil n)
    | cons c cs =>
      obtain ⟨d, hd, rfl⟩ := decimalNat_digits n c (by rw [hs]; simp)
      have hpr := digitChar_props d hd
      rw [hs] at hu
      simp only [decimalInt, hs, strconv.ParseInt, hpr.1, hpr.2.1, or_self, if_false, hu]
      have hneg : (digitChar d == '-') = false := by simp [hpr.2.1]
      simp only [hneg]
      have h1 : ¬ n ≥ 2 ^ ((if bitSize = 0 then 64 else bitSize) - 1) := by omega
      simp [h1]
  | negSucc m =>
    have hn : m + 1 ≤ 2 ^ ((if bitSize = 0 then 64 else bitSize) - 1) := by
      have : -((2 ^ ((if bitSize = 0 then 64 else bitSize) - 1) : Nat) : Int) ≤ Int.negSucc m := by
        rw [hpi]; exact hlo
      have h2 : Int.negSucc m = -((m + 1 : Nat) : Int) := rfl
      rw [h2] at this
      omega
    have hu := ParseUint_decimalNat (m + 1) 64 (by omega) (by simp; omega)
    simp only [decimalInt, strconv.ParseInt, or_true, if_true, hu]
    have h1 : ¬ m + 1 > 2 ^ ((if bitSize = 0 then 64 else bitSize) - 1) := by omega
    simp [h1]
    rw [Int.negSucc_eq]
    omega

theorem AtoiFast_append : ∀ (xs ys : GoString) (a : Int),
    strconv.AtoiFast (xs ++ ys) a =
      match strconv.AtoiFast xs a with
      | some b => strconv.AtoiFast ys b
      | none => none
  | [], ys, a => by simp [strconv.AtoiFast]
  | c :: cs, ys, a => by
    simp only [List.cons_append, strconv.AtoiFast]
    split
    · exact AtoiFast_append cs ys _
    · rfl

theorem AtoiFast_decimalNat (n : Nat) : strconv.AtoiFast (decimalNat n) 0 = some (n : Int) := by
  induction n using Nat.strong_induction_on with
  | _ n ih =>
    by_cases h : n < 10
    · rw [decimalNat_small n h]
      have := digitChar_toNat n h
      simp [strconv.AtoiFast, this]
      omega
    · have hd : n % 10 < 10 := Nat.mod_lt _ (by omega)
      rw [decimalNat_large n h, AtoiFast_append, ih (n / 10) (by omega)]
      have := digitChar_toNat (n % 10) hd
      simp [strconv.AtoiFast, this]
      omega

/-- Fact: `Atoi` reads the canonical decimal text of an `int64` back. -/
theorem Atoi_decimalInt (i : Int) (hlo : -(2 ^ 63 : Int) ≤ i) (hhi : i < (2 ^ 63 : Int)) :
    strconv.Atoi (decimalInt i) = (i, none) := by
  unfold strconv.Atoi
  split
  · cases i with
    | ofNat n =>
      cases hs : decimalNat n with
      | nil => exact absurd hs (decimalNat_ne_nil n)
      | cons c cs =>
        obtain ⟨d, hd, rfl⟩ := decimalNat_digits n c (by rw [hs]; simp)
        have hpr := digitChar_props d hd
        have ha := AtoiFast_decimalNat n
        rw [hs] at ha
        simp [decimalInt, hs, hpr.1, hpr.2.1, ha]
    | negSucc m =>
      have ha := AtoiFast_decimalNat (m + 1)
      simp [decimalInt, decimalNat_ne_nil, ha]
      rw [Int.negSucc_eq]
      omega
  · exact ParseInt_decimalInt i 0 (by omega) (by simpa using hlo) (by simpa using hhi)


/-! ### The namespace resolver: map keys -/

theorem toIntN_of_range (bits : Nat) (hb : 0 < bits) (i : Int)
    (hlo : -(2 ^ (bits - 1) : Int) ≤ i) (hhi : i < (2 ^ (bits - 1) : Int)) :
    toIntN bits i = i := by
  unfold toIntN
  have h2 : (2 : Int) ^ bits = 2 * 2 ^ (bits - 1) := by
    obtain ⟨k, rfl⟩ : ∃ k, bits = k + 1 := ⟨bits - 1, by omega⟩
    simp [pow_succ, mul_comm]
  have hpos : (0 : Int) < 2 ^ (bits - 1) := by positivity
  rw [h2, Int.emod_eq_of_lt (by omega) (by omega)]
  omega

theorem decimalInt_no_bracket (i : Int) : ']' ∉ decimalInt i := by
  intro h
  cases i with
  | ofNat n =>
    obtain ⟨d, hd, e⟩ := decimalNat_digits n _ h
    exact (digitChar_props d hd).2.2.1 e.symm
  | negSucc m =>
    simp only [decimalInt, List.mem_cons] at h
    rcases h with h | h
    · exact absurd h (by decide)
    · obtain ⟨d, hd, e⟩ := decimalNat_digits _ _ h
      exact (digitChar_props d hd).2.2.1 e.symm

theorem keyText_no_bracket (b : Basic) (d : Data) (h : isKeyOf b d) : ']' ∉ keyText d := by
  cases d with
  | int i => exact decimalInt_no_bracket i
  | uint u =>
    intro hm
    obtain ⟨d, hd, e⟩ := decimalNat_digits u _ hm
    exact (digitChar_props d hd).2.2.1 e.symm
  | bool v => cases v <;> decide
  | str s => cases b <;> simp_all [isKeyOf, keyText]
  | float _ => simp [keyText]
  | complex _ _ => simp [keyText]
  | addr _ => simp [keyText]

/-- The key decoded from the canonical text of `d` is `d`, at the predeclared type. -/
theorem decodeKey_keyText (L : Lib) (b : Basic) (d : Data) (h : isKeyOf b d) :
    decodeKey L b.Kind (keyText d) = .scalar none b d := by
  cases b <;> cases d <;> simp only [isKeyOf] at h <;>
    simp only [decodeKey, Basic.Kind, keyText]
  · rename_i v
    cases v <;> rfl
  · rw [Atoi_decimalInt _ h.1 h.2]
  · rw [ParseInt_decimalInt _ 8 (by omega) (by simpa using h.1) (by simpa using h.2),
      toIntN_of_range 8 (by omega) _ (by simpa using h.1) (by simpa using h.2)]
  · rw [ParseInt_decimalInt _ 16 (by omega) (by simpa using h.1) (by simpa using h.2),
      toIntN_of_range 16 (by omega) _ (by simpa using h.1) (by simpa using h.2)]
  · rw [ParseInt_decimalInt _ 32 (by omega) (by simpa using h.1) (by simpa using h.2),
      toIntN_of_range 32 (by omega) _ (by simpa using h.1) (by simpa using h.2)]
  · rw [ParseInt_decimalInt _ 64 (by omega) (by simpa using h.1) (by simpa using h.2)]
  · rw [ParseUint_decimalNat _ 0 (by omega) (by simpa using h)]
    rw [toUintN, Nat.mod_eq_of_lt (by simpa using h)]
  · rw [ParseUint_decimalNat _ 8 (by omega) (by simpa using h)]
    rw [toUintN, Nat.mod_eq_of_lt (by simpa using h)]
  · rw [ParseUint_decimalNat _ 16 (by omega) (by simpa using h)]
    rw [toUintN, Nat.mod_eq_of_lt (by simpa using h)]
  · rw [ParseUint_decimalNat _ 32 (by omega) (by simpa using h)]
    rw [toUintN, Nat.mod_eq_of_lt (by simpa using h)]
  · rw [ParseUint_decimalNat _ 64 (by omega) (by simpa using h)]

/-- One pass of `getStructFieldOKInternal` over a map, without custom functions, for a
namespace that starts with a bracketed key free of `]`. -/
theorem getStructFieldOKInternal_map (L : Lib) (v : validate) (hv : v.noCustom) (fuel : Nat)
    (n : TName) (kt et : GoType) (entries : List (MapKey × Val)) (k rest : GoString)
    (hk : ']' ∉ k) :
    getStructFieldOKInternal L v (fuel + 1) (some (.map n kt et entries))
        ('[' :: (k ++ ']' :: rest)) =
      match Val.MapIndex L (.map n kt et entries) (decodeKey L kt.Kind k) with
      | .ok val => getStructFieldOKInternal L v fuel val (dropDot rest)
      | .error p => .panic p := by
  have hkey : (Val.map n kt et entries).Type.Key = .ok kt := by
    cases n <;> simp [Val.Type, tname, GoType.Key, GoType.underlying]
  conv_lhs => unfold getStructFieldOKInternal
  simp only [validate.ExtractType, extractTypeInternal_plain v hv, stripLayers, Val.Kind,
    reduceCtorEq, if_false, mapStep_bracket L _ k rest hk, hkey]
  cases Val.MapIndex L (.map n kt et entries) (decodeKey L kt.Kind k) <;> simp

/-- C3 (amended): without custom functions, for every map whose key type is a predeclared
signed or unsigned integer type, `bool` or `string`, and every key `k` of that type written
as its canonical text (for a string key, a text without `]`): resolving `[k]` returns
`found = true` with the settled entry when `k` is present, and `found = false` with kind
Invalid, as a normal result, when it is absent. -/
theorem C3_map_key_lookup (L : Lib) (v : validate) (hv : v.noCustom) (n : TName) (b : Basic)
    (et : GoType) (entries : List (MapKey × Val)) (d : Data) (hk : isKeyOf b d) (fuel : Nat)
    (hfuel : 2 ≤ fuel) :
    (∀ x, lookupKey L (.data d) entries = some x →
      ∃ cur kind nl, extractTypeInternal v fuel (some x) false = some (cur, kind, nl) ∧
        getStructFieldOKInternal L v fuel (some (.map n (.basic b) et entries))
            ('[' :: (keyText d ++ [']'])) = .ret cur kind nl true) ∧
    (lookupKey L (.data d) entries = none →
      getStructFieldOKInternal L v fuel (some (.map n (.basic b) et entries))
          ('[' :: (keyText d ++ [']'])) = .ret none .Invalid false false) := by
  obtain ⟨g, rfl⟩ : ∃ g, fuel = g + 2 := ⟨fuel - 2, by omega⟩
  have hstep := getStructFieldOKInternal_map L v hv (g + 1) n (.basic b) et entries (keyText d) []
    (keyText_no_bracket b d hk)
  have hdec : decodeKey L (GoType.basic b).Kind (keyText d) = .scalar none b d :=
    decodeKey_keyText L b d hk
  rw [hdec] at hstep
  simp only [Val.MapIndex, tname, if_true, dropDot] at hstep
  constructor
  · intro x hx
    refine ⟨_, _, _, extractTypeInternal_plain v hv _ x false, ?_⟩
    rw [hstep, hx]
    exact getStructFieldOKInternal_done L v hv g x
  · intro hx
    rw [hstep, hx]
    exact getStructFieldOKInternal_zero_value L v g []

/-- C3 (amended) at `map[int]string{5: "x"}`: `[5]` resolves to "x", `[9]` is a miss. -/
theorem C3_map_key_lookup_witness :
    plainValidate.noCustom ∧ isKeyOf .Int (.int 5) ∧ isKeyOf .Int (.int 9) ∧
    keyText (.int 5) = ['5'] ∧ keyText (.int 9) = ['9'] ∧
    lookupKey plainLib (.data (.int 5)) [(.data (.int 5), exampleCity)] = some exampleCity ∧
    lookupKey plainLib (.data (.int 9)) [(.data (.int 5), exampleCity)] = none ∧
    (∃ cur kind nl,
      extractTypeInternal plainValidate 2 (some exampleCity) false = some (cur, kind, nl) ∧
      getStructFieldOKInternal plainLib plainValidate 2 (some exampleTags)
          ('[' :: (keyText (.int 5) ++ [']'])) = .ret cur kind nl true) ∧
    getStructFieldOKInternal plainLib plainValidate 2 (some exampleTags)
        ('[' :: (keyText (.int 9) ++ [']'])) = .ret none .Invalid false false :=
  have h5 : isKeyOf .Int (.int 5) := by simp [isKeyOf]
  have h9 : isKeyOf .Int (.int 9) := by simp [isKeyOf]
  ⟨Or.inl rfl, h5, h9, rfl, rfl, rfl, rfl,
    (C3_map_key_lookup plainLib plainValidate (Or.inl rfl) none .Int (.basic .String)
      [(.data (.int 5), exampleCity)] (.int 5) h5 2 (by decide)).1 exampleCity rfl,
    (C3_map_key_lookup plainLib plainValidate (Or.inl rfl) none .Int (.basic .String)
      [(.data (.int 5), exampleCity)] (.int 9) h9 2 (by decide)).2 rfl⟩

/-- C3 as stated fails: in `map[string]string{"a]b": "x"}` the key `a]b` is present, and
resolving `[a]b]` returns `found = false`: the key text ends at the first `]`. -/
theorem C3_counterexample :
    lookupKey plainLib (.data (.str "a]b".toList))
        [(.data (.str "a]b".toList), exampleCity)] = some exampleCity ∧
    getStructFieldOKInternal plainLib plainValidate 3 (some exampleBracketKey) "[a]b]".toList =
      .ret none .Invalid false false :=
  ⟨rfl, rfl⟩

/-! ### Mutation: an error leaves the value as it was -/

/-- Fact: when `interNilType` returns an error, the handle is as before. -/
theorem interNilType_error_unchanged (L : Lib) (addr ro : Bool) (ref : Val) (text : GoString)
    (e : MutError) (after : Val) (h : interNilType L addr ro ref text = .ret (some e) after) :
    after = ref := by
  unfold interNilType at h
  split at h
  all_goals first
    | (simp only [setAndReturn] at h
       split at h <;> simp at h)
    | (split at h
       · simp at h; exact h.2.symm
       · simp only [setAndReturn] at h
         split at h <;> simp at h)
    | (simp at h)

/-- C18: for every handle and every text, when `mutate` returns an error (a parse error or
the unsupported-type error) the value behind the handle is the one it held before: a scalar
keeps its value, a nil pointer stays nil. -/
theorem C18_error_leaves_value : ∀ (L : Lib) (addr ro : Bool) (x : Val) (text : GoString)
    (e : MutError) (after : Val), mutate L addr ro x text = .ret (some e) after → after = x
  | L, addr, ro, .ptr n el target, text, e, after, h => by
    simp only [mutate] at h
    cases hm : mutate L true ro target text with
    | ret err t1 =>
      rw [hm] at h
      simp only [MutOutcome.ret.injEq] at h
      obtain ⟨h1, h2⟩ := h
      subst h1
      have := C18_error_leaves_value L true ro target text e t1 hm
      rw [← h2, this]
    | panic p => rw [hm] at h; simp at h
  | L, addr, ro, .nilPtr n el, text, e, after, h => by
    simp only [mutate] at h
    exact interNilType_error_unchanged L addr ro _ text e after h
  | L, addr, ro, .scalar n b d, text, e, after, h => by
    by_cases hb : b = .UnsafePointer
    · subst hb
      simp only [mutate] at h
      split at h
      · exact interNilType_error_unchanged L addr ro _ text e after h
      · simp at h
    · have hm : mutate L addr ro (.scalar n b d) text =
          match parseFor L b text with
          | some (.ok x) => setAndReturn addr ro (.scalar n b d) x
          | some (.error e) => .ret (some (.parse e)) (.scalar n b d)
          | none => .ret (some .unsupported) (.scalar n b d) := by
        cases b <;> first | exact absurd rfl hb | rfl
      rw [hm] at h
      split at h
      · simp only [setAndReturn] at h
        split at h <;> simp at h
      · simp at h; exact h.2.symm
      · simp at h; exact h.2.symm
  | L, addr, ro, .nilIface t, text, e, after, h => by simp [mutate] at h; exact h.2.symm
  | L, addr, ro, .iface t d, text, e, after, h => by simp [mutate] at h; exact h.2.symm
  | L, addr, ro, .struct _ _ _, text, e, after, h => by simp [mutate] at h; exact h.2.symm
  | L, addr, ro, .slice _ _ _, text, e, after, h => by simp [mutate] at h; exact h.2.symm
  | L, addr, ro, .array _ _ _, text, e, after, h => by simp [mutate] at h; exact h.2.symm
  | L, addr, ro, .map _ _ _ _, text, e, after, h => by simp [mutate] at h; exact h.2.symm
  | L, addr, ro, .chan _ _, text, e, after, h => by simp [mutate] at h; exact h.2.symm
  | L, addr, ro, .func _ _, text, e, after, h => by simp [mutate] at h; exact h.2.symm

/-- C18 at a nil `*int` written with "x": the parse error is returned and the pointer is
still nil. -/
theorem C18_error_leaves_value_witness :
    mutate plainLib true false (.nilPtr none (.basic .Int)) "x".toList =
      .ret (some (.parse .malformed)) (.nilPtr none (.basic .Int)) ∧
    (Val.nilPtr none (.basic .Int)) = .nilPtr none (.basic .Int) :=
  ⟨rfl, C18_error_leaves_value plainLib true false (.nilPtr none (.basic .Int)) "x".toList
    (.parse .malformed) (.nilPtr none (.basic .Int)) rfl⟩

/-! ### Mutation: chains of pointers -/

/-- C12 at its failing input: a nil `**int` written with "7" matches no case of the type
switch of `interNilType`; `mutate` returns nil and the pointer is still nil.  With the outer
layer present and the inner `*int` nil, the inner layer is allocated and reads 7. -/
theorem C12_nil_pointer_to_pointer_returns_nil :
    mutate plainLib true false (.nilPtr none (.ptr (.basic .Int))) "7".toList =
      .ret none (.nilPtr none (.ptr (.basic .Int))) ∧
    mutate plainLib true false
        (.ptr none (.ptr (.basic .Int)) (.nilPtr none (.basic .Int))) "7".toList =
      .ret none
        (.ptr none (.ptr (.basic .Int))
          (.ptr none (.basic .Int) (.scalar none .Int (.int 7)))) :=
  ⟨rfl, rfl⟩

/-! ### The namespace resolver: a sequence met by a name -/

/-- C17 at its failing input: on the slice `[]int{1, 2}` the namespace `A`, a valid
identifier segment, has no bracket; the Array/Slice case slices `nspace[0:-1]` and the
runtime panics with a slice-bounds failure, which is neither a result nor the
"Invalid field namespace" panic.  The same happens below a field: `{Items: []int{1, 2}}`
with `Items.A`. -/
theorem C17_name_on_sequence_panics :
    getStructFieldOKInternal plainLib plainValidate 3 (some exampleSlice) "A".toList =
      .panic .sliceBounds ∧
    getStructFieldOKInternal plainLib plainValidate 3
        (some (.struct "T".toList false [("Items".toList, exampleSlice)])) "Items.A".toList =
      .panic .sliceBounds ∧
    getStructFieldOKInternal plainLib plainValidate 3 (some exampleSlice) "[-1]".toList =
      .panic .indexOutOfRange :=
  ⟨rfl, rfl, rfl⟩

/-! ### Scalar coercion: durations -/

/-- C13: with the duration type, `asIntFromType` returns the nanosecond count of a text
that `time.ParseDuration` accepts, and for a text that it rejects exactly what `asInt`
returns (its value or its failure); with every other type it returns what `asInt` returns. -/
theorem C13_asIntFromType_duration (L : Lib) (t : GoType) (text : GoString) :
    (∀ d, L.ParseDuration text = some d → asIntFromType L timeDurationType text = .ok d) ∧
    (L.ParseDuration text = none → asIntFromType L timeDurationType text = asInt text) ∧
    (t ≠ timeDurationType → asIntFromType L t text = asInt text) := by
  refine ⟨?_, ?_, ?_⟩
  · intro d hd
    simp [asIntFromType, asIntFromTimeDuration, hd]
  · intro hd
    simp [asIntFromType, asIntFromTimeDuration, hd]
  · intro ht
    simp [asIntFromType, ht]

/-- C13 at "150ms" (150000000 nanoseconds), at "42" (not a duration literal, read by
`asInt` as 42) and at the type `int64`. -/
theorem C13_asIntFromType_duration_witness :
    durationLib.ParseDuration "150ms".toList = some 150000000 ∧
    asIntFromType durationLib timeDurationType "150ms".toList = .ok 150000000 ∧
    durationLib.ParseDuration "42".toList = none ∧
    asIntFromType durationLib timeDurationType "42".toList = asInt "42".toList ∧
    asInt "42".toList = .ok 42 ∧
    GoType.basic .Int64 ≠ timeDurationType ∧
    asIntFromType durationLib (.basic .Int64) "150ms".toList = asInt "150ms".toList :=
  ⟨rfl,
    (C13_asIntFromType_duration durationLib (.basic .Int64) "150ms".toList).1 150000000 rfl,
    rfl,
    (C13_asIntFromType_duration durationLib (.basic .Int64) "42".toList).2.1 rfl,
    rfl, by decide,
    (C13_asIntFromType_duration durationLib (.basic .Int64) "150ms".toList).2.2 (by decide)⟩

/-! ### Mutation: narrowing -/

/-- Fact: `toIntN` lands in the signed range of the width and differs from its argument by
a multiple of `2 ^ bits`. -/
theorem toIntN_spec (bits : Nat) (hb : 0 < bits) (i : Int) :
    -(2 ^ (bits - 1) : Int) ≤ toIntN bits i ∧ toIntN bits i < (2 ^ (bits - 1) : Int) ∧
      (toIntN bits i - i) % (2 ^ bits : Int) = 0 := by
  unfold toIntN
  have h2 : (2 : Int) ^ bits = 2 * 2 ^ (bits - 1) := by
    obtain ⟨k, rfl⟩ : ∃ k, bits = k + 1 := ⟨bits - 1, by omega⟩
    simp [pow_succ, mul_comm]
  have hpos : (0 : Int) < 2 ^ bits := by positivity
  have h0 := Int.emod_nonneg (i + 2 ^ (bits - 1)) (ne_of_gt hpos)
  have h1 := Int.emod_lt_of_pos (i + 2 ^ (bits - 1)) hpos
  refine ⟨by omega, by omega, ?_⟩
  have hd : (i + 2 ^ (bits - 1)) % 2 ^ bits - 2 ^ (bits - 1) - i =
      -(2 ^ bits * ((i + 2 ^ (bits - 1)) / 2 ^ bits)) := by
    have := Int.emod_add_ediv (i + 2 ^ (bits - 1)) (2 ^ bits)
    omega
  rw [hd]
  simp

/-- Fact: `mutate` on a settable handle of a predeclared unsigned integer type: the text is
parsed in base 10 as a `uint64`; on success the truncated value is stored, on failure the
parse error is returned and the handle keeps its value. -/
theorem mutate_unsigned (L : Lib) (b : Basic) (d : Data) (text : GoString)
    (hb : isUnsignedInt b = true) :
    mutate L true false (.scalar none b d) text =
      match strconv.ParseUint text 10 64 with
      | (u, none) => .ret none (.scalar none b (.uint (truncTo b u)))
      | (_, some e) => .ret (some (.parse e)) (.scalar none b d) := by
  cases b <;> simp [isUnsignedInt] at hb <;>
    simp only [mutate, parseFor, widthOf, truncTo] <;>
    (cases hp : strconv.ParseUint text 10 64 with
     | mk i e =>
       cases e with
       | none => simp [setAndReturn, Set, Val.Type, tname]
       | some e => simp [setAndReturn, Set, Val.Type, tname])

/-- Fact: `mutate` on a settable handle of a defined type of a signed integer kind: the text
is parsed in base 10 as an `int64`; on success the `Set` of a value of the predeclared type
panics, on failure the parse error is returned. -/
theorem mutate_signed_defined (L : Lib) (b : Basic) (d : Data) (name text : GoString)
    (hb : isSignedInt b = true) :
    mutate L true false (.scalar (some name) b d) text =
      match strconv.ParseInt text 10 64 with
      | (_, none) => .panic .notAssignable
      | (_, some e) => .ret (some (.parse e)) (.scalar (some name) b d) := by
  cases b <;> simp [isSignedInt] at hb <;>
    simp only [mutate, parseFor] <;>
    (cases hp : strconv.ParseInt text 10 64 with
     | mk i e => cases e <;> simp [setAndReturn, Set, Val.Type, tname, GoType.underlying])

/-- Fact: `mutate` on a settable handle of a defined type of an unsigned integer kind other
than `uintptr`: as for the signed kinds, with `ParseUint`. -/
theorem mutate_unsigned_defined (L : Lib) (b : Basic) (d : Data) (name text : GoString)
    (hb : isUnsignedInt b = true) :
    mutate L true false (.scalar (some name) b d) text =
      match strconv.ParseUint text 10 64 with
      | (_, none) => .panic .notAssignable
      | (_, some e) => .ret (some (.parse e)) (.scalar (some name) b d) := by
  cases b <;> simp [isUnsignedInt] at hb <;>
    simp only [mutate, parseFor] <;>
    (cases hp : strconv.ParseUint text 10 64 with
     | mk i e => cases e <;> simp [setAndReturn, Set, Val.Type, tname, GoType.underlying])

/-- Fact: on a handle of an unsigned integer kind other than `uintptr`, settable or not, of
a predeclared or a defined type, a text that `ParseUint` rejects gives the parse error and
the handle keeps its value: the error is returned before any `Set`. -/
theorem mutate_unsigned_error (L : Lib) (addr ro : Bool) (name : TName) (b : Basic) (d : Data)
    (text : GoString) (u : Nat) (e : NumError) (hb : isUnsignedInt b = true)
    (hp : strconv.ParseUint text 10 64 = (u, some e)) :
    mutate L addr ro (.scalar name b d) text = .ret (some (.parse e)) (.scalar name b d) := by
  cases b <;> simp [isUnsignedInt] at hb <;> simp only [mutate, parseFor, hp]

theorem ParseUint_minus (rest : GoString) :
    strconv.ParseUint ('-' :: rest) 10 64 = (0, some .malformed) := by
  rw [ParseUint_eq_loop _ 10 64 (by simp) (Or.inl rfl) (by omega)]
  have hd : strconv.digitVal '-' = none := by decide
  simp [strconv.ParseUintLoop, hd]

/-- C14 at its failing input, with the cases around it.  On a settable handle of a defined
type of an integer kind (`type MyInt8 int8`), `mutate` with the decimal text of a number in
range panics: the switch is on the kind, and the parsed value, of the predeclared type, is
not assignable by `Set`; nothing is stored.  On a settable handle of the predeclared type
`int8`, `int16` or `int32` the same text stores the value of the signed range of the width
that differs from `n` by a multiple of `2 ^ W`, and on `uint8`, `uint16` or `uint32` it
stores `n % 2 ^ W`.  A text with a leading `-` written to a handle of kind `uint`, `uint8`
... `uint64`, settable or not, of a predeclared or a defined type, gives a parse error and
the handle keeps its value; on a handle of kind `uintptr` every text gives the
unsupported-type error. -/
theorem C14_store_into_defined_type_panics (L : Lib) (b : Basic) (d : Data) :
    (isSignedInt b = true → ∀ (name : GoString) (n : Int), -(2 ^ 63 : Int) ≤ n →
      n < (2 ^ 63 : Int) →
      mutate L true false (.scalar (some name) b d) (decimalInt n) = .panic .notAssignable) ∧
    (isUnsignedInt b = true → ∀ (name : GoString) (n : Nat), n < 2 ^ 64 →
      mutate L true false (.scalar (some name) b d) (decimalNat n) = .panic .notAssignable) ∧
    ((b = .Int8 ∨ b = .Int16 ∨ b = .Int32) → ∀ n : Int, -(2 ^ 63 : Int) ≤ n → n < (2 ^ 63 : Int) →
      ∃ r : Int, mutate L true false (.scalar none b d) (decimalInt n) =
          .ret none (.scalar none b (.int r)) ∧
        -(2 ^ (widthOf b - 1) : Int) ≤ r ∧ r < (2 ^ (widthOf b - 1) : Int) ∧
        (r - n) % (2 ^ widthOf b : Int) = 0) ∧
    ((b = .Uint8 ∨ b = .Uint16 ∨ b = .Uint32) → ∀ n : Nat, n < 2 ^ 64 →
      mutate L true false (.scalar none b d) (decimalNat n) =
        .ret none (.scalar none b (.uint (n % 2 ^ widthOf b)))) ∧
    (isUnsignedInt b = true → ∀ (addr ro : Bool) (name : TName) (rest : GoString),
      mutate L addr ro (.scalar name b d) ('-' :: rest) =
        .ret (some (.parse .malformed)) (.scalar name b d)) ∧
    (∀ (addr ro : Bool) (name : TName) (text : GoString),
      mutate L addr ro (.scalar name .Uintptr d) text =
        .ret (some .unsupported) (.scalar name .Uintptr d)) := by
  refine ⟨?_, ?_, ?_, ?_, ?_, ?_⟩
  · intro hs name n hlo hhi
    have hp := ParseInt_decimalInt n 64 (by omega) (by simpa using hlo) (by simpa using hhi)
    rw [mutate_signed_defined L b d name _ hs, hp]
  · intro hs name n hn
    have hp := ParseUint_decimalNat n 64 (by omega) (by simpa using hn)
    rw [mutate_unsigned_defined L b d name _ hs, hp]
  · intro hb n hlo hhi
    have hs : isSignedInt b = true := by rcases hb with rfl | rfl | rfl <;> rfl
    have hp := ParseInt_decimalInt n 64 (by omega) (by simpa using hlo) (by simpa using hhi)
    rw [mutate_signed L b d _ hs, hp]
    refine ⟨narrowTo b n, rfl, ?_⟩
    rcases hb with rfl | rfl | rfl
    · exact toIntN_spec 8 (by omega) n
    · exact toIntN_spec 16 (by omega) n
    · exact toIntN_spec 32 (by omega) n
  · intro hb n hn
    have hs : isUnsignedInt b = true := by rcases hb with rfl | rfl | rfl <;> rfl
    have hp := ParseUint_decimalNat n 64 (by omega) (by simpa using hn)
    rw [mutate_unsigned L b d _ hs, hp]
    rcases hb with rfl | rfl | rfl <;> rfl
  · intro hs addr ro name rest
    exact mutate_unsigned_error L addr ro name b d _ 0 .malformed hs (ParseUint_minus rest)
  · intro addr ro name text
    simp only [mutate, parseFor]

/-- C14 at the defined type `MyInt8` of kind `int8` written with "300" (panic, nothing
stored), at "300" into an `int8` (stores 44), at "300" into a `uint8` (stores 44), and at
"-3" into a `uint8` that is not settable (parse error, the 3 stays). -/
theorem C14_store_into_defined_type_panics_witness :
    Val.Kind (.scalar (some "MyInt8".toList) .Int8 (.int 3)) = .Int8 ∧
    decimalInt 300 = "300".toList ∧
    mutate plainLib true false (.scalar (some "MyInt8".toList) .Int8 (.int 3)) (decimalInt 300) =
      .panic .notAssignable ∧
    mutate plainLib true false (.scalar (some "MyUint8".toList) .Uint8 (.uint 3))
        (decimalNat 300) = .panic .notAssignable ∧
    (∃ r : Int, mutate plainLib true false (.scalar none .Int8 (.int 3)) (decimalInt 300) =
        .ret none (.scalar none .Int8 (.int r)) ∧
      -(2 ^ (widthOf .Int8 - 1) : Int) ≤ r ∧ r < (2 ^ (widthOf .Int8 - 1) : Int) ∧
      (r - 300) % (2 ^ widthOf .Int8 : Int) = 0) ∧
    mutate plainLib true false (.scalar none .Int8 (.int 3)) "300".toList =
      .ret none (.scalar none .Int8 (.int 44)) ∧
    mutate plainLib true false (.scalar none .Uint8 (.uint 3)) (decimalNat 300) =
      .ret none (.scalar none .Uint8 (.uint (300 % 2 ^ widthOf .Uint8))) ∧
    mutate plainLib false false (.scalar none .Uint8 (.uint 3)) ('-' :: "3".toList) =
      .ret (some (.parse .malformed)) (.scalar none .Uint8 (.uint 3)) :=
  ⟨rfl, rfl,
    (C14_store_into_defined_type_panics plainLib .Int8 (.int 3)).1 rfl "MyInt8".toList 300
      (by norm_num) (by norm_num),
    (C14_store_into_defined_type_panics plainLib .Uint8 (.uint 3)).2.1 rfl "MyUint8".toList 300
      (by norm_num),
    (C14_store_into_defined_type_panics plainLib .Int8 (.int 3)).2.2.1 (Or.inl rfl) 300
      (by norm_num) (by norm_num),
    rfl,
    (C14_store_into_defined_type_panics plainLib .Uint8 (.uint 3)).2.2.2.1 (Or.inl rfl) 300
      (by norm_num),
    (C14_store_into_defined_type_panics plainLib .Uint8 (.uint 3)).2.2.2.2.1 rfl false false none
      "3".toList⟩

/-! ### The type resolver: chained custom functions -/

theorem stripLayers_of_plain (x : Val) (n : Bool) (h : isIndirection x.Kind = false) :
    stripLayers x n = (x, n) := by
  cases x <;> simp_all [stripLayers, Val.Kind, isIndirection]

theorem customStep_of_plain (v : validate) (x : Val) (hflag : v.hasCustomFuncs = true)
    (h : isIndirection x.Kind = false) : customStep v x = v.customFuncs x.Type := by
  simp [customStep, h, hflag]

/-- C15 (amended): in a registry with functions registered (the flag `hasCustomFuncs` is
set) where the function for the type of `a` gives `b`, the function for the type of `b`
gives `c`, no function is registered for the type of `c`, and none of `a`, `b`, `c` is a
pointer or an interface, `extractTypeInternal` on `a` returns the handle `c` with the kind
of `c` and the flag unchanged; two units of fuel are enough. -/
theorem C15_chained_custom_functions (v : validate) (hflag : v.hasCustomFuncs = true)
    (a b c : Val) (fA fB : Val → Handle)
    (hA : v.customFuncs a.Type = some fA) (hab : fA a = some b)
    (hB : v.customFuncs b.Type = some fB) (hbc : fB b = some c)
    (hC : v.customFuncs c.Type = none)
    (ha : isIndirection a.Kind = false) (hb : isIndirection b.Kind = false)
    (hc : isIndirection c.Kind = false) (n : Bool) (fuel : Nat) (hfuel : 2 ≤ fuel) :
    extractTypeInternal v fuel (some a) n = some (some c, c.Kind, n) := by
  obtain ⟨g, rfl⟩ : ∃ g, fuel = g + 2 := ⟨fuel - 2, by omega⟩
  rw [extractTypeInternal_some, stripLayers_of_plain a n ha]
  simp only [customStep_of_plain v a hflag ha, hA, hab]
  rw [extractTypeInternal_some, stripLayers_of_plain b n hb]
  simp only [customStep_of_plain v b hflag hb, hB, hbc]
  rw [extractTypeInternal_some, stripLayers_of_plain c n hc]
  simp only [customStep_of_plain v c hflag hc, hC]

/-- C15 (amended) at a record of type `A`, unwrapped to the string "x" and then to the
`int` 1. -/
theorem C15_chained_custom_functions_witness :
    extractTypeInternal exampleChainRegistry 2 (some (.struct "A".toList false [])) false =
      some (some (.scalar none .Int (.int 1)), Val.Kind (.scalar none .Int (.int 1)), false) :=
  C15_chained_custom_functions exampleChainRegistry rfl (.struct "A".toList false [])
    exampleCity (.scalar none .Int (.int 1)) (fun _ => some exampleCity)
    (fun _ => some (.scalar none .Int (.int 1))) rfl rfl rfl rfl rfl rfl rfl rfl false 2
    (by decide)

/-- C15 as stated fails: with a function registered for the pointer type `*T`, a value of
type `*T` is entered as a pointer before the registry is read; the function is never
applied and the record behind the pointer is returned, with kind Struct. -/
theorem C15_counterexample :
    Val.Type (.ptr none (.struct "T".toList false) (.struct "T".toList false [])) =
      .ptr (.struct "T".toList false) ∧
    (∃ fA, examplePointerRegistry.customFuncs (.ptr (.struct "T".toList false)) = some fA ∧
      fA (.ptr none (.struct "T".toList false) (.struct "T".toList false [])) =
        some exampleCity) ∧
    (∃ fB, examplePointerRegistry.customFuncs exampleCity.Type = some fB ∧
      fB exampleCity = some (.scalar none .Int (.int 1))) ∧
    examplePointerRegistry.customFuncs (Val.Type (.scalar none .Int (.int 1))) = none ∧
    extractTypeInternal examplePointerRegistry 5
        (some (.ptr none (.struct "T".toList false) (.struct "T".toList false []))) false =
      some (some (.struct "T".toList false []), .Struct, true) :=
  ⟨rfl, ⟨_, rfl, rfl⟩, ⟨_, rfl, rfl⟩, rfl, rfl⟩

/-! ### The namespace resolver: the nullable flag -/

theorem Basic.Kind_not_indirection (b : Basic) : isIndirection b.Kind = false := by
  cases b <;> rfl

theorem stripLayers_flag_mono (x : Val) (n : Bool) : n = true → (stripLayers x n).2 = true := by
  induction x, n using stripLayers.induct with
  | case1 m e t b ih => intro _; simpa [stripLayers] using ih rfl
  | case2 t d b ih => intro _; simpa [stripLayers] using ih rfl
  | case3 m e b => intro _; simp [stripLayers]
  | case4 t b => intro _; simp [stripLayers]
  | case5 x b h1 h2 h3 h4 =>
    intro hb
    cases x <;> simp_all [stripLayers]

/-- Fact: settling a value with the flag off turns the flag on exactly when the value
itself is a pointer or an interface. -/
theorem stripLayers_flag_false (w : Val) : (stripLayers w false).2 = isIndirection w.Kind := by
  cases w <;>
    simp [stripLayers, Val.Kind, isIndirection, stripLayers_flag_mono]
  rename_i b _
  have := Basic.Kind_not_indirection b
  simpa [isIndirection] using this

/-- Fact: without custom functions, for a path of field names, the call
returns `found = true` and the nullable flag is true exactly when the value stored in the
last field is itself a pointer or an interface; pointer and interface layers entered
earlier on the path, at the root or at an intermediate field, do not set it. -/
theorem field_path_nullable (L : Lib) (v : validate) (hv : v.noCustom) (R w : Val)
    (fs : List GoString) (hnames : ∀ f ∈ fs, '.' ∉ f ∧ '[' ∉ f) (hpath : FieldPath R fs w)
    (fuel : Nat) (hfuel : fs.length < fuel) :
    ∃ cur kind,
      getStructFieldOKInternal L v fuel (some R) (joinNames fs) =
        .ret cur kind (isIndirection w.Kind) true := by
  refine ⟨some (stripLayers w false).1, (stripLayers w false).1.Kind, ?_⟩
  rw [← stripLayers_flag_false w]
  induction hpath generalizing fuel with
  | last x name fields f w hx hf hl =>
    obtain ⟨g, rfl⟩ : ∃ g, fuel = g + 2 := ⟨fuel - 2, by simp at hfuel; omega⟩
    have hn := hnames f (by simp)
    have h1 := firstName_self f hn.1 hn.2
    rw [joinNames, getStructFieldOKInternal_struct L v hv (g + 1) x name fields hx f hf, h1.1,
      h1.2]
    simp [hf, hl, getStructFieldOKInternal_done L v hv]
  | step x name fields f y fs w hx hf hl hp ih =>
    cases fs with
    | nil => cases hp
    | cons g gs =>
      obtain ⟨k, rfl⟩ : ∃ k, fuel = k + 1 := ⟨fuel - 1, by simp at hfuel; omega⟩
      have hn := hnames f (by simp)
      have h1 := firstName_dot f (joinNames (g :: gs)) hn.1 hn.2
      rw [joinNames, getStructFieldOKInternal_struct L v hv k x name fields hx _ (by simp),
        h1.1, h1.2]
      simp only [hf, if_false, hl]
      exact ih (fun f hf => hnames f (by simp [hf])) k (by simp at hfuel ⊢; omega)

/-- C16 as stated fails: the root is a pointer to the record `{X: 5}`, the namespace `X` is
found through that pointer, and the returned nullable flag is false. -/
theorem C16_counterexample :
    Val.Kind examplePointerToRecord = .Ptr ∧
    getStructFieldOKInternal plainLib plainValidate 2 (some examplePointerToRecord)
        "X".toList =
      .ret (some (.scalar none .Int (.int 5))) .Int false true :=
  ⟨rfl, rfl⟩

/-! ### strconv: malformed decimal text -/

theorem digitChar_of_isDigit (c : Char) (h : isDigit c = true) : digitChar (c.toNat - 48) = c := by
  simp only [isDigit, Bool.and_eq_true, decide_eq_true_eq] at h
  unfold digitChar
  rw [show 48 + (c.toNat - 48) = c.toNat by omega]
  exact Char.ofNat_toNat c

theorem foldl_digits_ge (ds : GoString) :
    ∀ a : Nat, a ≤ ds.foldl (fun a c => a * 10 + (c.toNat - 48)) a := by
  induction ds with
  | nil => intro a; simp
  | cons c cs ih =>
    intro a
    simp only [List.foldl_cons]
    have := ih (a * 10 + (c.toNat - 48))
    omega

/-- Fact: the digit loop of `ParseUint` goes through a run of decimal digits whose number
fits, and continues after it with that number. -/
theorem ParseUintLoop_digits (maxVal : Nat) (hmax : maxVal < 2 ^ 64) (tail : GoString)
    (us : Bool) :
    ∀ (ds : GoString) (a : Nat), (∀ c ∈ ds, isDigit c = true) →
      ds.foldl (fun a c => a * 10 + (c.toNat - 48)) a ≤ maxVal →
      strconv.ParseUintLoop 10 false ((2 ^ 64 - 1) / 10 + 1) maxVal (ds ++ tail) a us =
        strconv.ParseUintLoop 10 false ((2 ^ 64 - 1) / 10 + 1) maxVal tail
          (ds.foldl (fun a c => a * 10 + (c.toNat - 48)) a) us := by
  intro ds
  induction ds with
  | nil => intro a _ _; rfl
  | cons c cs ih =>
    intro a hd hv
    have hc := hd c (by simp)
    have hc2 := hc
    simp only [isDigit, Bool.and_eq_true, decide_eq_true_eq] at hc2
    simp only [List.foldl_cons] at hv ⊢
    have hge := foldl_digits_ge cs (a * 10 + (c.toNat - 48))
    rw [List.cons_append, ← digitChar_of_isDigit c hc,
      ParseUintLoop_digit maxVal a (c.toNat - 48) _ us hmax (by omega) (by omega)]
    rw [digitChar_of_isDigit c hc]
    exact ih _ (fun x hx => hd x (by simp [hx])) hv

theorem digitVal_not_digit (c : Char) (hc : isDigit c = false) :
    strconv.digitVal c = none ∨ ∃ d, strconv.digitVal c = some d ∧ d ≥ 10 := by
  have hnd : ¬ (48 ≤ c.toNat ∧ c.toNat ≤ 57) := by
    simpa [isDigit] using hc
  unfold strconv.digitVal
  rw [if_neg hnd]
  by_cases hl : 97 ≤ strconv.lower c ∧ strconv.lower c ≤ 122
  · right
    exact ⟨_, by rw [if_pos hl], by omega⟩
  · left
    rw [if_neg hl]

theorem ParseUintLoop_not_digit (cutoff maxVal : Nat) (c : Char) (rest : GoString) (n : Nat)
    (us : Bool) (hc : isDigit c = false) :
    strconv.ParseUintLoop 10 false cutoff maxVal (c :: rest) n us = .error (0, .malformed) := by
  rcases digitVal_not_digit c hc with h | ⟨d, h, hd⟩
  · simp [strconv.ParseUintLoop, h]
  · simp [strconv.ParseUintLoop, h, hd]

theorem AtoiFast_not_digit : ∀ (s : GoString) (a : Int), (∃ c ∈ s, isDigit c = false) →
    strconv.AtoiFast s a = none
  | [], _, h => by simp at h
  | c :: cs, a, h => by
    simp only [strconv.AtoiFast]
    by_cases hc : isDigit c = true
    · have hc2 := hc
      simp only [isDigit, Bool.and_eq_true, decide_eq_true_eq] at hc2
      simp only [hc2, and_self, if_true]
      apply AtoiFast_not_digit
      obtain ⟨x, hx, hxd⟩ := h
      rcases List.mem_cons.1 hx with e | e
      · rw [e] at hxd; rw [hxd] at hc; simp at hc
      · exact ⟨x, e, hxd⟩
    · have hnd : ¬ (48 ≤ c.toNat ∧ c.toNat ≤ 57) := by
        simpa [isDigit] using hc
      simp [hnd]

theorem ParseUint_malformed (u : GoString)
    (hbad : u = [] ∨ ∃ c ∈ u, isDigit c = false)
    (hval : digitsValue (u.takeWhile isDigit) < 2 ^ 64) :
    strconv.ParseUint u 10 64 = (0, some .malformed) := by
  by_cases hu : u = []
  · subst hu; rfl
  · have hex : ∃ c ∈ u, isDigit c = false := by
      rcases hbad with h | h
      · exact absurd h hu
      · exact h
    have hsplit := List.takeWhile_append_dropWhile isDigit u
    cases hd : u.dropWhile isDigit with
    | nil =>
      exfalso
      obtain ⟨c, hc, hcd⟩ := hex
      have hall := List.dropWhile_eq_nil_iff.1 hd c hc
      rw [hcd] at hall
      simp at hall
    | cons c rest =>
      have hc : isDigit c = false := by
        have := List.head_dropWhile_not isDigit u (by simp [hd])
        simpa [hd] using this
      rw [ParseUint_eq_loop _ 10 64 hu (Or.inl rfl) (by omega)]
      rw [hd] at hsplit
      have hl : strconv.ParseUintLoop 10 false ((2 ^ 64 - 1) / 10 + 1) (2 ^ 64 - 1) u 0 false =
          .error (0, .malformed) := by
        conv_lhs => rw [← hsplit]
        rw [ParseUintLoop_digits (2 ^ 64 - 1) (by omega) (c :: rest) false _ 0
          (fun x hx => List.mem_takeWhile_imp hx) (by unfold digitsValue at hval; omega)]
        exact ParseUintLoop_not_digit _ _ c rest _ false hc
      rw [show ((10 : Nat) == 0) = false from rfl]
      simp only [show (if (64 : Nat) = 0 then 64 else 64) = 64 from rfl, hl]

/-- Fact: `Atoi` returns 0 with a syntax error on a text that is not a decimal integer and
whose leading digits stay below `2 ^ 64`. -/
theorem Atoi_malformed (k : GoString) (hbad : isDecimalInteger k = false)
    (hval : digitsValue (leadingDigits k) < 2 ^ 64) :
    strconv.Atoi k = (0, some .malformed) := by
  have hb : unsignedPart k = [] ∨ ∃ c ∈ unsignedPart k, isDigit c = false := by
    simp only [isDecimalInteger, Bool.and_eq_false_iff, Bool.not_eq_false',
      List.isEmpty_iff, List.all_eq_false] at hbad
    rcases hbad with h | ⟨c, hc, hcd⟩
    · exact Or.inl h
    · exact Or.inr ⟨c, hc, by simpa using hcd⟩
  have hpu := ParseUint_malformed (unsignedPart k) hb hval
  unfold strconv.Atoi
  split
  · cases k with
    | nil => rfl
    | cons c cs =>
      have hdig : (if c = '-' ∨ c = '+' then cs else c :: cs) = unsignedPart (c :: cs) := by
        unfold unsignedPart
        by_cases h1 : c = '-' <;> by_cases h2 : c = '+' <;> simp [h1, h2]
      simp only [hdig]
      rcases hb with h | h
      · simp [h]
      · have hne : unsignedPart (c :: cs) ≠ [] := by
          obtain ⟨x, hx, _⟩ := h
          exact List.ne_nil_of_mem hx
        simp [hne, AtoiFast_not_digit _ 0 h]
  · cases k with
    | nil => rfl
    | cons c cs =>
      have hs1 : (if c = '+' ∨ c = '-' then cs else c :: cs) = unsignedPart (c :: cs) := rfl
      simp only [strconv.ParseInt, hs1, hpu]

/-! ### The namespace resolver: a malformed index -/

/-- C11 (amended): without custom functions, for every array or slice, every index text `k`
without `]` that is not a decimal integer (an optional sign followed by digits) and whose
leading digits stay below `2 ^ 64`, and every rest of the namespace, resolving `[k]rest`
gives the same outcome as resolving `[0]rest`: the malformed text selects index 0. -/
theorem C11_malformed_index_is_zero (L : Lib) (v : validate) (hv : v.noCustom) (S : Val)
    (hS : S.Kind = .Array ∨ S.Kind = .Slice) (k rest : GoString) (hk : ']' ∉ k)
    (hbad : isDecimalInteger k = false) (hval : digitsValue (leadingDigits k) < 2 ^ 64)
    (fuel : Nat) :
    getStructFieldOKInternal L v fuel (some S) ('[' :: (k ++ ']' :: rest)) =
      getStructFieldOKInternal L v fuel (some S) ('[' :: '0' :: ']' :: rest) := by
  cases fuel with
  | zero => simp [getStructFieldOKInternal]
  | succ f =>
    have hplain : isIndirection S.Kind = false := by
      rcases hS with h | h <;> simp [h, isIndirection]
    have h0 : seqStep S ('[' :: '0' :: ']' :: rest) = _ := seqStep_bracket S ['0'] rest (by decide)
    have hk0 : strconv.Atoi ['0'] = (0, none) := by decide
    have hkk := Atoi_malformed k hbad hval
    unfold getStructFieldOKInternal
    simp only [validate.ExtractType, extractTypeInternal_plain v hv, stripLayers_of_plain S false hplain]
    rcases hS with h | h <;>
      simp only [h, reduceCtorEq, if_false, seqStep_bracket S k rest hk, h0, hk0, hkk]

/-- C11 (amended) at the slice `[]int{1, 2}` with `[abc]` and `[0]`; both resolve to the 1. -/
theorem C11_malformed_index_is_zero_witness :
    plainValidate.noCustom ∧ ']' ∉ "abc".toList ∧ isDecimalInteger "abc".toList = false ∧
    digitsValue (leadingDigits "abc".toList) < 2 ^ 64 ∧
    getStructFieldOKInternal plainLib plainValidate 2 (some exampleSlice)
        ('[' :: ("abc".toList ++ ']' :: [])) =
      getStructFieldOKInternal plainLib plainValidate 2 (some exampleSlice)
        ('[' :: '0' :: ']' :: []) ∧
    getStructFieldOKInternal plainLib plainValidate 2 (some exampleSlice)
        ('[' :: '0' :: ']' :: []) =
      .ret (some (.scalar none .Int (.int 1))) .Int false true :=
  ⟨Or.inl rfl, by decide, rfl, by decide,
    C11_malformed_index_is_zero plainLib plainValidate (Or.inl rfl) exampleSlice (Or.inr rfl)
      "abc".toList [] (by decide) rfl (by decide) 2, rfl⟩

/-- C11 as stated fails: on the slice `[]int{1, 2}` the index text of twenty 9s followed by
`x` is not a decimal integer, yet `Atoi` stops at the overflow and returns the largest
`int`; the index is out of range and the call returns a miss, while `[0]` resolves to the 1. -/
theorem C11_counterexample :
    isDecimalInteger "99999999999999999999x".toList = false ∧
    ']' ∉ "99999999999999999999x".toList ∧ '[' ∉ "99999999999999999999x".toList ∧
    getStructFieldOKInternal plainLib plainValidate 2 (some exampleSlice)
        "[99999999999999999999x]".toList =
      .ret (some exampleSlice) .Slice false false ∧
    getStructFieldOKInternal plainLib plainValidate 2 (some exampleSlice) "[0]".toList =
      .ret (some (.scalar none .Int (.int 1))) .Int false true :=
  ⟨rfl, by decide, by decide, rfl, rfl⟩

/-! ### The namespace resolver: termination -/

theorem sliceStr_ok (s : GoString) (lo hi : Int) (r : GoString) (h : sliceStr s lo hi = .ok r) :
    0 ≤ lo ∧ lo ≤ hi ∧ hi ≤ (s.length : Int) ∧ (r.length : Int) = hi - lo := by
  unfold sliceStr at h
  split at h
  · rename_i hc
    simp only [Except.ok.injEq] at h
    refine ⟨hc.1, hc.2.1, hc.2.2, ?_⟩
    rw [← h]
    simp only [List.length_take, List.length_drop]
    omega
  · simp at h

theorem sliceFrom_ok (s : GoString) (lo : Int) (r : GoString) (h : sliceFrom s lo = .ok r) :
    0 ≤ lo ∧ (r.length : Int) = (s.length : Int) - lo :=
  let h1 := sliceStr_ok s lo s.length r h
  ⟨h1.1, h1.2.2.2⟩

theorem IndexFrom_ge (sub : GoString) : ∀ (s : GoString) (i : Nat), -1 ≤ strings.IndexFrom sub s i
  | [], i => by simp only [strings.IndexFrom]; split <;> omega
  | c :: cs, i => by
    simp only [strings.IndexFrom]
    split
    · omega
    · exact IndexFrom_ge sub cs (i + 1)

theorem Index_ge (s sub : GoString) : -1 ≤ strings.Index s sub := IndexFrom_ge sub s 0

/-- Fact: a pass of the Array/Slice case that continues leaves a strictly shorter
namespace. -/
theorem seqStep_shorter (cur : Val) (ns : GoString) (val : Handle) (ns1 : GoString)
    (h : seqStep cur ns = .ok (some (val, ns1))) : ns1.length < ns.length := by
  have hi := Index_ge ns leftBracket
  simp only [seqStep, bind, Except.bind, pure, Except.pure] at h
  cases htext : sliceStr ns (strings.Index ns leftBracket + 1) (strings.Index ns rightBracket) with
  | error p => simp [htext] at h
  | ok text =>
    have ht := sliceStr_ok _ _ _ _ htext
    simp only [htext] at h
    generalize strings.Index ns rightBracket = j at h ht
    cases hlen : cur.Len with
    | error p => simp [hlen] at h
    | ok len =>
      simp only [hlen] at h
      by_cases hge : (strconv.Atoi text).1 ≥ len
      · simp [hge] at h
      · simp only [hge, if_false] at h
        cases hidx : cur.Index (strconv.Atoi text).1 with
        | error p =>
          simp only [hidx] at h
          split at h
          · split at h <;> simp at h
          · simp at h
        | ok x =>
          simp only [hidx] at h
          split at h
          · cases hc : sliceStr ns (j + 1) (j + 1 + 1) with
            | error p => simp [hc] at h
            | ok c =>
              simp only [hc] at h
              cases hr : sliceFrom ns (if c = namespaceSeparator then j + 1 + 1 else j + 1) with
              | error p => simp [hr] at h
              | ok r =>
                simp only [hr, Except.ok.injEq, Option.some.injEq, Prod.mk.injEq] at h
                have hlenr := sliceFrom_ok _ _ _ hr
                rw [← h.2]
                split at hlenr <;> omega
          · cases hr : sliceFrom ns (j + 1) with
            | error p => simp [hr] at h
            | ok r =>
              simp only [hr, Except.ok.injEq, Option.some.injEq, Prod.mk.injEq] at h
              have hlenr := sliceFrom_ok _ _ _ hr
              rw [← h.2]
              omega

/-- Fact: a pass of the Map case that continues leaves a strictly shorter namespace. -/
theorem mapStep_shorter (L : Lib) (cur : Val) (ns : GoString) (val : Handle) (ns1 : GoString)
    (h : mapStep L cur ns = .ok (val, ns1)) : ns1.length < ns.length := by
  have hi := Index_ge ns leftBracket
  simp only [mapStep, bind, Except.bind, pure, Except.pure] at h
  generalize strings.Index ns rightBracket = j at h
  generalize strings.Index ns leftBracket = i at h hi
  cases hk : sliceStr ns (i + 1) j with
  | error p =>
    simp only [hk] at h
    split at h
    · split at h <;> simp at h
    · simp at h
  | ok k =>
    have hkk := sliceStr_ok _ _ _ _ hk
    simp only [hk] at h
    cases hkt : cur.Type.Key with
    | error p =>
      simp only [hkt] at h
      split at h
      · split at h <;> simp at h
      · simp at h
    | ok kt =>
      simp only [hkt] at h
      cases hm : Val.MapIndex L cur (decodeKey L kt.Kind k) with
      | error p =>
        simp only [hm] at h
        split at h
        · split at h <;> simp at h
        · simp at h
      | ok x =>
        simp only [hm] at h
        split at h
        · cases hc : sliceStr ns (j + 1) (j + 2) with
          | error p => simp [hc] at h
          | ok c =>
            simp only [hc] at h
            cases hr : sliceFrom ns ((if c = namespaceSeparator then j + 1 else j) + 1) with
            | error p => simp [hr] at h
            | ok r =>
              simp only [hr, Except.ok.injEq, Prod.mk.injEq] at h
              have hlenr := sliceFrom_ok _ _ _ hr
              rw [← h.2]
              split at hlenr <;> omega
        · cases hr : sliceFrom ns (j + 1) with
          | error p => simp [hr] at h
          | ok r =>
            simp only [hr, Except.ok.injEq, Prod.mk.injEq] at h
            have hlenr := sliceFrom_ok _ _ _ hr
            rw [← h.2]
            omega

/-- Fact: `getStructFieldOKInternal` with fuel left is `ExtractType`, then one pass, then the
rest of the loop. -/
theorem getStructFieldOKInternal_succ (L : Lib) (v : validate) (fuel : Nat) (h : Handle)
    (ns : GoString) :
    getStructFieldOKInternal L v (fuel + 1) h ns =
      match v.ExtractType fuel h with
      | none => .outOfFuel
      | some (current, kind, nullable) =>
        match onePass L current kind nullable ns with
        | .inl o => o
        | .inr (val1, ns1) => getStructFieldOKInternal L v fuel val1 ns1 := by
  conv_lhs => unfold getStructFieldOKInternal
  cases hx : v.ExtractType fuel h with
  | none => rfl
  | some r =>
    obtain ⟨current, kind, nullable⟩ := r
    simp only [onePass]
    by_cases hk : kind = .Invalid
    · simp [hk]
    · by_cases hn : ns = []
      · simp [hk, hn]
      · simp only [hk, hn, if_false]
        cases kind <;> cases current <;> simp only [] <;> try rfl
        all_goals (split <;> try rfl)
        all_goals (split <;> rfl)

theorem dropDot_length (r : GoString) : (dropDot r).length ≤ r.length := by
  unfold dropDot
  split <;> simp

/-- Fact: a pass of the Struct case that continues leaves a strictly shorter namespace or
moves to the zero Value. -/
theorem structStep_progress (cur : Val) (ns : GoString) (val : Handle) (ns1 : GoString)
    (h : structStep cur ns = .ok (val, ns1)) : ns1.length < ns.length ∨ val = none := by
  rw [structStep_eq] at h
  by_cases hf : firstName ns = []
  · right
    rw [hf] at h
    rcases FieldByName_empty cur with h0 | ⟨p, h0⟩
    · rw [h0] at h
      simp only [Except.ok.injEq, Prod.mk.injEq] at h
      exact h.1.symm
    · rw [h0] at h
      simp at h
  · left
    cases hb : cur.FieldByName (firstName ns) with
    | error p => rw [hb] at h; simp at h
    | ok x =>
      rw [hb] at h
      simp only [Except.ok.injEq, Prod.mk.injEq] at h
      rw [← h.2]
      have h1 := dropDot_length (ns.dropWhile isNameByte)
      have h2 : (firstName ns).length + (ns.dropWhile isNameByte).length = ns.length := by
        have := congrArg List.length (List.takeWhile_append_dropWhile isNameByte ns)
        rw [List.length_append] at this
        exact this
      have h3 : 0 < (firstName ns).length := List.length_pos.2 hf
      unfold afterName
      omega

theorem onePass_inl (L : Lib) (current : Handle) (kind : Kind) (nl : Bool) (ns : GoString)
    (o : Outcome) (h : onePass L current kind nl ns = .inl o) : o ≠ .outOfFuel := by
  unfold onePass at h
  split at h
  · simp at h; rw [← h]; simp
  · split at h
    · simp at h; rw [← h]; simp
    · split at h
      all_goals first
        | (simp at h; rw [← h]; simp)
        | (split at h
           all_goals first
             | (simp at h; rw [← h]; simp)
             | (split at h <;> first | (simp at h; rw [← h]; simp) | simp at h)
             | simp at h)

/-- Fact: a pass that continues leaves a strictly shorter namespace or moves to the zero
Value. -/
theorem onePass_progress (L : Lib) (current : Handle) (kind : Kind) (nl : Bool) (ns : GoString)
    (val : Handle) (ns1 : GoString) (h : onePass L current kind nl ns = .inr (val, ns1)) :
    ns1.length < ns.length ∨ val = none := by
  unfold onePass at h
  split at h
  · simp at h
  · split at h
    · simp at h
    · split at h
      · simp at h
      · simp at h
      · split at h
        · cases hs : structStep _ ns with
          | error p => rw [hs] at h; simp at h
          | ok r =>
            obtain ⟨a, b⟩ := r
            rw [hs] at h
            simp only [Sum.inr.injEq, Prod.mk.injEq] at h
            obtain ⟨rfl, rfl⟩ := h
            exact structStep_progress _ _ _ _ hs
        · simp at h
      · cases hs : seqStep _ ns with
        | error p => rw [hs] at h; simp at h
        | ok r =>
          cases r with
          | none => rw [hs] at h; simp at h
          | some r =>
            obtain ⟨a, b⟩ := r
            rw [hs] at h
            simp only [Sum.inr.injEq, Prod.mk.injEq] at h
            obtain ⟨rfl, rfl⟩ := h
            exact Or.inl (seqStep_shorter _ _ _ _ hs)
      · cases hs : seqStep _ ns with
        | error p => rw [hs] at h; simp at h
        | ok r =>
          cases r with
          | none => rw [hs] at h; simp at h
          | some r =>
            obtain ⟨a, b⟩ := r
            rw [hs] at h
            simp only [Sum.inr.injEq, Prod.mk.injEq] at h
            obtain ⟨rfl, rfl⟩ := h
            exact Or.inl (seqStep_shorter _ _ _ _ hs)
      · cases hs : mapStep L _ ns with
        | error p => rw [hs] at h; simp at h
        | ok r =>
          obtain ⟨a, b⟩ := r
          rw [hs] at h
          simp only [Sum.inr.injEq, Prod.mk.injEq] at h
          obtain ⟨rfl, rfl⟩ := h
          exact Or.inl (mapStep_shorter L _ _ _ _ hs)
      · simp at h

/-- Fact: more fuel does not change an outcome of `getStructFieldOKInternal` other than
running out of fuel. -/
theorem getStructFieldOKInternal_mono (L : Lib) (v : validate) :
    ∀ (f f1 : Nat) (h : Handle) (ns : GoString), f ≤ f1 →
      getStructFieldOKInternal L v f h ns ≠ .outOfFuel →
      getStructFieldOKInternal L v f1 h ns = getStructFieldOKInternal L v f h ns := by
  intro f
  induction f with
  | zero =>
    intro f1 h ns _ hne
    simp [getStructFieldOKInternal] at hne
  | succ f ih =>
    intro f1 h ns hle hne
    obtain ⟨g, rfl⟩ : ∃ g, f1 = g + 1 := ⟨f1 - 1, by omega⟩
    rw [getStructFieldOKInternal_succ] at hne
    rw [getStructFieldOKInternal_succ, getStructFieldOKInternal_succ]
    cases hx : v.ExtractType f h with
    | none => rw [hx] at hne; simp at hne
    | some r =>
      obtain ⟨c, k, n⟩ := r
      have hx1 : v.ExtractType g h = some (c, k, n) :=
        extractTypeInternal_mono v f g h false _ hx (by omega)
      rw [hx] at hne
      simp only [hx1]
      cases hp : onePass L c k n ns with
      | inl o => rfl
      | inr r =>
        obtain ⟨val1, ns1⟩ := r
        simp only [hp] at hne ⊢
        exact ih g val1 ns1 (by omega) hne

theorem ExtractType_plain (v : validate) (hv : v.noCustom) (fuel : Nat) (h : Handle) (n : Bool) :
    ∃ r, extractTypeInternal v fuel h n = some r := by
  cases h with
  | none => exact ⟨(none, .Invalid, n), by simp [extractTypeInternal]⟩
  | some x => exact ⟨_, extractTypeInternal_plain v hv fuel x n⟩

/-- Fact: without custom functions, `getStructFieldOKInternal` does not run out of fuel when
given two units more than the length of the namespace. -/
theorem getStructFieldOKInternal_enough (L : Lib) (v : validate) (hv : v.noCustom) :
    ∀ (fuel : Nat) (h : Handle) (ns : GoString), ns.length + 2 ≤ fuel →
      getStructFieldOKInternal L v fuel h ns ≠ .outOfFuel := by
  intro fuel
  induction fuel with
  | zero => intro h ns hf; omega
  | succ f ih =>
    intro h ns hf
    rw [getStructFieldOKInternal_succ]
    obtain ⟨r, hr⟩ := ExtractType_plain v hv f h false
    obtain ⟨c, k, n⟩ := r
    simp only [validate.ExtractType, hr]
    cases hp : onePass L c k n ns with
    | inl o => exact onePass_inl L c k n ns o hp
    | inr r =>
      obtain ⟨val1, ns1⟩ := r
      simp only []
      rcases onePass_progress L c k n ns val1 ns1 hp with hlt | hnone
      · exact ih val1 ns1 (by omega)
      · subst hnone
        obtain ⟨g, rfl⟩ : ∃ g, f = g + 1 := ⟨f - 1, by omega⟩
        rw [getStructFieldOKInternal_zero_value]
        simp

/-- C19: without custom functions, `getStructFieldOKInternal` terminates for every root and
every namespace: one outcome, a result or a panic, is produced by every fuel from the length
of the namespace plus two on.  Every pass that continues leaves a strictly shorter namespace
or moves to the zero Value, which settles to Invalid; and `extractTypeInternal` returns on
every value, whatever the fuel. -/
theorem C19_terminates (L : Lib) (v : validate) (hv : v.noCustom) (h : Handle) (ns : GoString)
    (n : Bool) :
    (∃ o, o ≠ .outOfFuel ∧
      ∀ fuel, ns.length + 2 ≤ fuel → getStructFieldOKInternal L v fuel h ns = o) ∧
    (∀ current kind nl val1 ns1, onePass L current kind nl ns = .inr (val1, ns1) →
      ns1.length < ns.length ∨
        (val1 = none ∧ ∀ fuel, v.ExtractType fuel val1 = some (none, .Invalid, false))) ∧
    (∀ fuel, ∃ r, extractTypeInternal v fuel h n = some r) := by
  refine ⟨⟨getStructFieldOKInternal L v (ns.length + 2) h ns, ?_, ?_⟩, ?_, ?_⟩
  · exact getStructFieldOKInternal_enough L v hv _ h ns (le_refl _)
  · intro fuel hf
    exact getStructFieldOKInternal_mono L v _ fuel h ns hf
      (getStructFieldOKInternal_enough L v hv _ h ns (le_refl _))
  · intro current kind nl val1 ns1 hp
    rcases onePass_progress L current kind nl ns val1 ns1 hp with hlt | hnone
    · exact Or.inl hlt
    · subst hnone
      exact Or.inr ⟨rfl, fun fuel => by simp [validate.ExtractType, extractTypeInternal]⟩
  · intro fuel
    exact ExtractType_plain v hv fuel h n

/-- C19 at the record `{Address: &{City: "x"}}` with the namespace `Address.City`. -/
theorem C19_terminates_witness :
    plainValidate.noCustom ∧
    (∃ o, o ≠ .outOfFuel ∧
      ∀ fuel, "Address.City".toList.length + 2 ≤ fuel →
        getStructFieldOKInternal plainLib plainValidate fuel (some exampleRoot)
          "Address.City".toList = o) ∧
    (∀ current kind nl val1 ns1,
      onePass plainLib current kind nl "Address.City".toList = .inr (val1, ns1) →
      ns1.length < "Address.City".toList.length ∨
        (val1 = none ∧
          ∀ fuel, plainValidate.ExtractType fuel val1 = some (none, .Invalid, false))) ∧
    (∀ fuel, ∃ r, extractTypeInternal plainValidate fuel (some exampleRoot) false = some r) :=
  ⟨Or.inl rfl,
    C19_terminates plainLib plainValidate (Or.inl rfl) (some exampleRoot) "Address.City".toList
      false⟩

/-! ### The namespace resolver: composition over the separator -/

theorem Index_mem_of_ne (c : Char) (s : GoString) (h : strings.Index s [c] ≠ -1) : c ∈ s := by
  by_contra hc
  exact h (Index_single_notMem c s hc)

theorem balancedFrom_first_close : ∀ (s : Bool) (r : GoString),
    balancedFrom s r = true → ']' ∈ r →
      ∃ a b, r = a ++ ']' :: b ∧ ']' ∉ a ∧ balancedFrom false b = true ∧ (s = false → '[' ∈ a)
  | _, [], _, h => by simp at h
  | false, c :: r, hb, hm => by
    by_cases h1 : c = ']'
    · simp [balancedFrom, h1] at hb
    · by_cases h2 : c = '['
      · have hb1 : balancedFrom true r = true := by simpa [balancedFrom, h1, h2] using hb
        have hm1 : ']' ∈ r := by
          rcases List.mem_cons.1 hm with e | e
          · exact absurd e.symm h1
          · exact e
        obtain ⟨a, b, rfl, ha, hbb, _⟩ := balancedFrom_first_close true r hb1 hm1
        refine ⟨c :: a, b, by simp, ?_, hbb, fun _ => by simp [h2]⟩
        simp only [List.mem_cons, not_or]
        exact ⟨fun e => h1 e.symm, ha⟩
      · have hb1 : balancedFrom false r = true := by simpa [balancedFrom, h1, h2] using hb
        have hm1 : ']' ∈ r := by
          rcases List.mem_cons.1 hm with e | e
          · exact absurd e.symm h1
          · exact e
        obtain ⟨a, b, rfl, ha, hbb, hop⟩ := balancedFrom_first_close false r hb1 hm1
        refine ⟨c :: a, b, by simp, ?_, hbb, fun _ => by simp [hop rfl]⟩
        simp only [List.mem_cons, not_or]
        exact ⟨fun e => h1 e.symm, ha⟩
  | true, c :: r, hb, hm => by
    by_cases h1 : c = ']'
    · exact ⟨[], r, by simp [h1], by simp, by simpa [balancedFrom, h1] using hb, by simp⟩
    · have hb1 : balancedFrom true r = true := by simpa [balancedFrom, h1] using hb
      have hm1 : ']' ∈ r := by
        rcases List.mem_cons.1 hm with e | e
        · exact absurd e.symm h1
        · exact e
      obtain ⟨a, b, rfl, ha, hbb, _⟩ := balancedFrom_first_close true r hb1 hm1
      refine ⟨c :: a, b, by simp, ?_, hbb, by simp⟩
      simp only [List.mem_cons, not_or]
      exact ⟨fun e => h1 e.symm, ha⟩

/-- Fact: a namespace with paired brackets that holds a `]` is a bracket-free text, an index
or key between brackets, and a rest with paired brackets. -/
theorem balanced_split (r : GoString) (hb : balanced r = true) (hm : ']' ∈ r) :
    ∃ pre k rest, r = pre ++ '[' :: (k ++ ']' :: rest) ∧ '[' ∉ pre ∧ ']' ∉ pre ∧ ']' ∉ k ∧
      balanced rest = true := by
  obtain ⟨a, b, rfl, ha, hbb, hop⟩ := balancedFrom_first_close false r hb hm
  obtain ⟨pre, k, rfl, hpre⟩ := mem_split '[' a (hop rfl)
  refine ⟨pre, k, b, by simp, hpre, ?_, ?_, hbb⟩
  · intro h; exact ha (by simp [h])
  · intro h; exact ha (by simp [h])

theorem balancedFrom_drop_plain : ∀ (pre d : GoString), '[' ∉ pre →
    balancedFrom false (pre ++ d) = true → balancedFrom false d = true
  | [], _, _, h => by simpa using h
  | c :: pre, d, hpre, h => by
    have h2 : c ≠ '[' := fun e => hpre (by simp [e])
    have h3 : '[' ∉ pre := fun e => hpre (by simp [e])
    by_cases h1 : c = ']'
    · simp [balancedFrom, h1] at h
    · exact balancedFrom_drop_plain pre d h3 (by simpa [balancedFrom, h1, h2] using h)

theorem balanced_dropDot (d : GoString) (h : balanced d = true) : balanced (dropDot d) = true := by
  unfold dropDot
  split
  · simpa [balanced, balancedFrom] using h
  · exact h

theorem endsWithDot_append (a b : GoString) (hb : b ≠ []) :
    endsWithDot (a ++ b) = endsWithDot b := by
  unfold endsWithDot
  rw [List.getLast?_append_of_ne_nil _ hb]

theorem endsWithDot_cons (c : Char) (b : GoString) (hb : b ≠ []) :
    endsWithDot (c :: b) = endsWithDot b := endsWithDot_append [c] b hb

theorem endsWithDot_dropDot (d : GoString) (h : endsWithDot d = false) :
    endsWithDot (dropDot d) = false := by
  unfold dropDot
  split
  · rename_i r
    by_cases hr : r = []
    · subst hr; rfl
    · rwa [endsWithDot_cons _ _ hr] at h
  · exact h

theorem glue_nil (q : GoString) : glue [] q = q := by simp [glue]

theorem glue_of_ne (r q : GoString) (h : r ≠ []) : glue r q = r ++ '.' :: q := by simp [glue, h]

/-- Fact: dropping the leading `.` of what follows an index, with `.q` appended. -/
theorem dropDot_glue (d q : GoString) (h : endsWithDot d = false) :
    dropDot (d ++ '.' :: q) = glue (dropDot d) q := by
  cases d with
  | nil => simp [dropDot, glue]
  | cons c d1 =>
    by_cases hc : c = '.'
    · subst hc
      have hd1 : d1 ≠ [] := by
        intro e; subst e; simp [endsWithDot] at h
      simp [dropDot, glue, hd1]
    · rw [dropDot_of_ne c d1 hc]
      have : dropDot (c :: d1 ++ '.' :: q) = c :: d1 ++ '.' :: q := dropDot_of_ne c _ hc
      rw [this, glue_of_ne _ _ (by simp)]

theorem takeWhile_append_stop (p : Char → Bool) (c : Char) (hc : p c = false) :
    ∀ (l m : GoString), (l ++ c :: m).takeWhile p = l.takeWhile p
  | [], m => by simp [List.takeWhile, hc]
  | d :: l, m => by
    by_cases hd : p d = true
    · simp [List.takeWhile, hd, takeWhile_append_stop p c hc l m]
    · simp [List.takeWhile, hd]

theorem dropWhile_append_stop (p : Char → Bool) (c : Char) (hc : p c = false) :
    ∀ (l m : GoString), (l ++ c :: m).dropWhile p = l.dropWhile p ++ c :: m
  | [], m => by simp [List.dropWhile, hc]
  | d :: l, m => by
    by_cases hd : p d = true
    · simp [List.dropWhile, hd, dropWhile_append_stop p c hc l m]
    · simp [List.dropWhile, hd]

theorem firstName_glue (r q : GoString) : firstName (r ++ '.' :: q) = firstName r :=
  takeWhile_append_stop isNameByte '.' (by simp [isNameByte]) r q

theorem afterName_glue (r q : GoString) (h : endsWithDot r = false) :
    afterName (r ++ '.' :: q) = glue (afterName r) q := by
  unfold afterName
  rw [dropWhile_append_stop isNameByte '.' (by simp [isNameByte]) r q]
  apply dropDot_glue
  by_cases hd : r.dropWhile isNameByte = []
  · rw [hd]; rfl
  · have := endsWithDot_append (r.takeWhile isNameByte) (r.dropWhile isNameByte) hd
    rw [List.takeWhile_append_dropWhile] at this
    rw [← this]; exact h

theorem afterName_keeps (r : GoString) (hb : balanced r = true) (hd : endsWithDot r = false) :
    balanced (afterName r) = true ∧ endsWithDot (afterName r) = false := by
  unfold afterName
  constructor
  · apply balanced_dropDot
    have h := List.takeWhile_append_dropWhile isNameByte r
    have hb1 : balancedFrom false (r.takeWhile isNameByte ++ r.dropWhile isNameByte) = true := by
      rw [h]; exact hb
    exact balancedFrom_drop_plain _ _ (firstName_no_bracket r) hb1
  · apply endsWithDot_dropDot
    by_cases hn : r.dropWhile isNameByte = []
    · rw [hn]; rfl
    · have := endsWithDot_append (r.takeWhile isNameByte) (r.dropWhile isNameByte) hn
      rw [List.takeWhile_append_dropWhile] at this
      rw [← this]; exact hd

/-- Fact: a pass of the Struct case that continues does the same with `.q` appended to the
namespace, leaving `.q` appended to what it left. -/
theorem structStep_glue (cur : Val) (r q : GoString) (val1 : Handle) (r1 : GoString)
    (hb : balanced r = true) (hd : endsWithDot r = false)
    (h : structStep cur r = .ok (val1, r1)) :
    structStep cur (r ++ '.' :: q) = .ok (val1, glue r1 q) ∧ balanced r1 = true ∧
      endsWithDot r1 = false := by
  rw [structStep_eq] at h
  rw [structStep_eq, firstName_glue, afterName_glue r q hd]
  cases hf : cur.FieldByName (firstName r) with
  | error p => rw [hf] at h; simp at h
  | ok x =>
    rw [hf] at h
    simp only [Except.ok.injEq, Prod.mk.injEq] at h
    obtain ⟨rfl, rfl⟩ := h
    exact ⟨rfl, afterName_keeps r hb hd⟩

theorem sliceStr_parts (a mid b : GoString) (lo hi : Int) (hlo : lo = a.length)
    (hhi : hi = (a.length : Int) + mid.length) : sliceStr (a ++ mid ++ b) lo hi = .ok mid := by
  subst hlo hhi
  have := sliceStr_mid a mid b
  simpa using this

theorem sliceFrom_parts (a b : GoString) (lo : Int) (hlo : lo = a.length) :
    sliceFrom (a ++ b) lo = .ok b := by
  subst hlo
  exact sliceFrom_append a b

/-- Fact: the Array and Slice case on a namespace whose first `[` and first `]` enclose `k`;
what stands before the `[` is not read. -/
theorem seqStep_enclosed (cur : Val) (pre k rest : GoString) (hbr : '[' ∉ pre) (hcl : ']' ∉ pre)
    (hk : ']' ∉ k) :
    seqStep cur (pre ++ '[' :: (k ++ ']' :: rest)) =
      match cur.Len with
      | .error p => .error p
      | .ok len =>
        if (strconv.Atoi k).1 ≥ len then .ok none
        else
          match cur.Index (strconv.Atoi k).1 with
          | .error p => .error p
          | .ok val => .ok (some (val, dropDot rest)) := by
  have h1 : strings.Index (pre ++ '[' :: (k ++ ']' :: rest)) ['['] = (pre.length : Int) :=
    Index_single_split '[' pre _ hbr
  have h2 : strings.Index (pre ++ '[' :: (k ++ ']' :: rest)) [']'] =
      (pre.length : Int) + 1 + k.length := by
    have := Index_single_split ']' (pre ++ '[' :: k) rest (by simp [hcl, hk])
    simp only [List.append_assoc, List.cons_append] at this
    rw [this]
    simp
    ring
  have h3 : sliceStr (pre ++ '[' :: (k ++ ']' :: rest)) ((pre.length : Int) + 1)
      ((pre.length : Int) + 1 + k.length) = .ok k := by
    have := sliceStr_parts (pre ++ ['[']) k (']' :: rest) ((pre.length : Int) + 1)
      ((pre.length : Int) + 1 + k.length) (by simp) (by simp)
    simpa using this
  cases hl : cur.Len with
  | error p =>
    simp only [seqStep, bind, Except.bind, pure, Except.pure, leftBracket, rightBracket, h1, h2,
      h3, hl]
  | ok len =>
    by_cases hge : (strconv.Atoi k).1 ≥ len
    · simp only [seqStep, bind, Except.bind, pure, Except.pure, leftBracket, rightBracket, h1,
        h2, h3, hl, hge, if_true]
    · cases rest with
      | nil =>
        have h4 : sliceFrom (pre ++ '[' :: (k ++ [']'])) ((pre.length : Int) + 1 + k.length + 1) =
            .ok [] := by
          have := sliceFrom_parts (pre ++ '[' :: (k ++ [']'])) []
            ((pre.length : Int) + 1 + k.length + 1) (by simp; ring)
          simpa using this
        have hlen : ¬ ((pre.length : Int) + 1 + k.length + 1 <
            ((pre ++ '[' :: (k ++ [']'])).length : Int)) := by
          simp
          omega
        cases hx : cur.Index (strconv.Atoi k).1 <;>
          simp only [seqStep, bind, Except.bind, pure, Except.pure, leftBracket, rightBracket,
            h1, h2, h3, h4, hl, hge, hx, dropDot, hlen, if_false]
      | cons c r =>
        have h4 : sliceFrom (pre ++ '[' :: (k ++ ']' :: c :: r))
            ((pre.length : Int) + 1 + k.length + 1) = .ok (c :: r) := by
          have := sliceFrom_parts (pre ++ '[' :: (k ++ [']'])) (c :: r)
            ((pre.length : Int) + 1 + k.length + 1) (by simp; ring)
          simpa using this
        have h5 : sliceStr (pre ++ '[' :: (k ++ ']' :: c :: r))
            ((pre.length : Int) + 1 + k.length + 1) ((pre.length : Int) + 1 + k.length + 1 + 1) =
            .ok [c] := by
          have := sliceStr_parts (pre ++ '[' :: (k ++ [']'])) [c] r
            ((pre.length : Int) + 1 + k.length + 1) ((pre.length : Int) + 1 + k.length + 1 + 1)
            (by simp; ring) (by simp; ring)
          simpa using this
        have h6 : sliceFrom (pre ++ '[' :: (k ++ ']' :: c :: r))
            ((pre.length : Int) + 1 + k.length + 1 + 1) = .ok r := by
          have := sliceFrom_parts (pre ++ '[' :: (k ++ [']', c])) r
            ((pre.length : Int) + 1 + k.length + 1 + 1) (by simp; ring)
          simpa using this
        have hlen : (pre.length : Int) + 1 + k.length + 1 <
            ((pre ++ '[' :: (k ++ ']' :: c :: r)).length : Int) := by
          simp
          omega
        by_cases hc : c = '.'
        · subst hc
          cases hx : cur.Index (strconv.Atoi k).1 <;>
            simp only [seqStep, bind, Except.bind, pure, Except.pure, leftBracket, rightBracket,
              namespaceSeparator, h1, h2, h3, h4, h5, h6, hl, hge, hx, dropDot, hlen, if_true,
              if_false]
        · have hd := dropDot_of_ne c r hc
          have hcc : ¬ ([c] = ['.']) := by simpa using hc
          cases hx : cur.Index (strconv.Atoi k).1 <;>
            simp only [seqStep, bind, Except.bind, pure, Except.pure, leftBracket, rightBracket,
              namespaceSeparator, h1, h2, h3, h4, h5, h6, hl, hge, hx, hd, hlen, hcc, if_true,
              if_false]

/-- Fact: the Map case on a namespace whose first `[` and first `]` enclose `k`; what stands
before the `[` is not read. -/
theorem mapStep_enclosed (L : Lib) (cur : Val) (pre k rest : GoString) (hbr : '[' ∉ pre)
    (hcl : ']' ∉ pre) (hk : ']' ∉ k) :
    mapStep L cur (pre ++ '[' :: (k ++ ']' :: rest)) =
      match cur.Type.Key with
      | .error p => .error p
      | .ok keyType =>
        match cur.MapIndex L (decodeKey L keyType.Kind k) with
        | .error p => .error p
        | .ok val => .ok (val, dropDot rest) := by
  have h1 : strings.Index (pre ++ '[' :: (k ++ ']' :: rest)) ['['] = (pre.length : Int) :=
    Index_single_split '[' pre _ hbr
  have h2 : strings.Index (pre ++ '[' :: (k ++ ']' :: rest)) [']'] =
      (pre.length : Int) + 1 + k.length := by
    have := Index_single_split ']' (pre ++ '[' :: k) rest (by simp [hcl, hk])
    simp only [List.append_assoc, List.cons_append] at this
    rw [this]
    simp
    ring
  have h3 : sliceStr (pre ++ '[' :: (k ++ ']' :: rest)) ((pre.length : Int) + 1)
      ((pre.length : Int) + 1 + k.length) = .ok k := by
    have := sliceStr_parts (pre ++ ['[']) k (']' :: rest) ((pre.length : Int) + 1)
      ((pre.length : Int) + 1 + k.length) (by simp) (by simp)
    simpa using this
  cases rest with
  | nil =>
    have h4 : sliceFrom (pre ++ '[' :: (k ++ [']'])) ((pre.length : Int) + 1 + k.length + 1) =
        .ok [] := by
      have := sliceFrom_parts (pre ++ '[' :: (k ++ [']'])) []
        ((pre.length : Int) + 1 + k.length + 1) (by simp; ring)
      simpa using this
    have hlen : ¬ ((pre.length : Int) + 1 + k.length + 1 <
        ((pre ++ '[' :: (k ++ [']'])).length : Int)) := by
      simp
      omega
    cases hkt : cur.Type.Key with
    | error p =>
      simp only [mapStep, bind, Except.bind, pure, Except.pure, leftBracket, rightBracket, h1,
        h2, h3, h4, hkt, hlen, if_false]
    | ok kt =>
      cases hx : cur.MapIndex L (decodeKey L kt.Kind k) <;>
        simp only [mapStep, bind, Except.bind, pure, Except.pure, leftBracket, rightBracket, h1,
          h2, h3, h4, hkt, hx, dropDot, hlen, if_false]
  | cons c r =>
    have h4 : sliceFrom (pre ++ '[' :: (k ++ ']' :: c :: r))
        ((pre.length : Int) + 1 + k.length + 1) = .ok (c :: r) := by
      have := sliceFrom_parts (pre ++ '[' :: (k ++ [']'])) (c :: r)
        ((pre.length : Int) + 1 + k.length + 1) (by simp; ring)
      simpa using this
    have h5 : sliceStr (pre ++ '[' :: (k ++ ']' :: c :: r))
        ((pre.length : Int) + 1 + k.length + 1) ((pre.length : Int) + 1 + k.length + 2) =
        .ok [c] := by
      have := sliceStr_parts (pre ++ '[' :: (k ++ [']'])) [c] r
        ((pre.length : Int) + 1 + k.length + 1) ((pre.length : Int) + 1 + k.length + 2)
        (by simp; ring) (by simp; ring)
      simpa using this
    have h6 : sliceFrom (pre ++ '[' :: (k ++ ']' :: c :: r))
        ((pre.length : Int) + 1 + k.length + 1 + 1) = .ok r := by
      have := sliceFrom_parts (pre ++ '[' :: (k ++ [']', c])) r
        ((pre.length : Int) + 1 + k.length + 1 + 1) (by simp; ring)
      simpa using this
    have hlen : (pre.length : Int) + 1 + k.length + 1 <
        ((pre ++ '[' :: (k ++ ']' :: c :: r)).length : Int) := by
      simp
      omega
    by_cases hc : c = '.'
    · subst hc
      cases hkt : cur.Type.Key with
      | error p =>
        simp only [mapStep, bind, Except.bind, pure, Except.pure, leftBracket, rightBracket,
          namespaceSeparator, h1, h2, h3, h4, h5, h6, hkt, hlen, if_true]
      | ok kt =>
        cases hx : cur.MapIndex L (decodeKey L kt.Kind k) <;>
          simp only [mapStep, bind, Except.bind, pure, Except.pure, leftBracket, rightBracket,
            namespaceSeparator, h1, h2, h3, h4, h5, h6, hkt, hx, dropDot, hlen, if_true]
    · have hd := dropDot_of_ne c r hc
      have hcc : ¬ ([c] = ['.']) := by simpa using hc
      cases hkt : cur.Type.Key with
      | error p =>
        simp only [mapStep, bind, Except.bind, pure, Except.pure, leftBracket, rightBracket,
          namespaceSeparator, h1, h2, h3, h4, h5, h6, hkt, hlen, hcc, if_true, if_false]
      | ok kt =>
        cases hx : cur.MapIndex L (decodeKey L kt.Kind k) <;>
          simp only [mapStep, bind, Except.bind, pure, Except.pure, leftBracket, rightBracket,
            namespaceSeparator, h1, h2, h3, h4, h5, h6, hkt, hx, hd, hlen, hcc, if_true, if_false]

theorem seqStep_close_mem (cur : Val) (ns : GoString) (val : Handle) (ns1 : GoString)
    (h : seqStep cur ns = .ok (some (val, ns1))) : ']' ∈ ns := by
  have hi := Index_ge ns leftBracket
  simp only [seqStep, bind, Except.bind, pure, Except.pure] at h
  cases htext : sliceStr ns (strings.Index ns leftBracket + 1) (strings.Index ns rightBracket) with
  | error p => simp [htext] at h
  | ok text =>
    have ht := sliceStr_ok _ _ _ _ htext
    apply Index_mem_of_ne
    have : strings.Index ns rightBracket = strings.Index ns [']'] := rfl
    omega

theorem mapStep_close_mem (L : Lib) (cur : Val) (ns : GoString) (val : Handle) (ns1 : GoString)
    (h : mapStep L cur ns = .ok (val, ns1)) : ']' ∈ ns := by
  have hi := Index_ge ns leftBracket
  simp only [mapStep, bind, Except.bind, pure, Except.pure] at h
  cases hk : sliceStr ns (strings.Index ns leftBracket + 1) (strings.Index ns rightBracket) with
  | error p =>
    simp only [hk] at h
    split at h
    · split at h <;> simp at h
    · simp at h
  | ok k =>
    have ht := sliceStr_ok _ _ _ _ hk
    apply Index_mem_of_ne
    have : strings.Index ns rightBracket = strings.Index ns [']'] := rfl
    omega

theorem endsWithDot_rest (pre k rest : GoString)
    (h : endsWithDot (pre ++ '[' :: (k ++ ']' :: rest)) = false) : endsWithDot rest = false := by
  by_cases hr : rest = []
  · subst hr; rfl
  · have := endsWithDot_append (pre ++ '[' :: (k ++ [']'])) rest hr
    simp only [List.append_assoc, List.cons_append, List.singleton_append, List.nil_append] at this
    rw [← this]; exact h

/-- Fact: a pass of the Array and Slice case that continues does the same with `.q` appended
to the namespace, leaving `.q` appended to what it left. -/
theorem seqStep_glue (cur : Val) (r q : GoString) (val1 : Handle) (r1 : GoString)
    (hb : balanced r = true) (hd : endsWithDot r = false)
    (h : seqStep cur r = .ok (some (val1, r1))) :
    seqStep cur (r ++ '.' :: q) = .ok (some (val1, glue r1 q)) ∧ balanced r1 = true ∧
      endsWithDot r1 = false := by
  obtain ⟨pre, k, rest, rfl, hbr, hcl, hk, hrest⟩ := balanced_split r hb (seqStep_close_mem _ _ _ _ h)
  have hdr := endsWithDot_rest pre k rest hd
  have e : pre ++ '[' :: (k ++ ']' :: rest) ++ '.' :: q =
      pre ++ '[' :: (k ++ ']' :: (rest ++ '.' :: q)) := by simp
  rw [seqStep_enclosed cur pre k rest hbr hcl hk] at h
  rw [e, seqStep_enclosed cur pre k _ hbr hcl hk, dropDot_glue rest q hdr]
  cases hl : cur.Len with
  | error p => rw [hl] at h; simp at h
  | ok len =>
    rw [hl] at h
    simp only [] at h ⊢
    by_cases hge : (strconv.Atoi k).1 ≥ len
    · simp [hge] at h
    · simp only [hge, if_false] at h ⊢
      cases hx : cur.Index (strconv.Atoi k).1 with
      | error p => rw [hx] at h; simp at h
      | ok x =>
        rw [hx] at h
        simp only [Except.ok.injEq, Option.some.injEq, Prod.mk.injEq] at h
        obtain ⟨rfl, rfl⟩ := h
        exact ⟨rfl, balanced_dropDot rest hrest, endsWithDot_dropDot rest hdr⟩

/-- Fact: a pass of the Map case that continues does the same with `.q` appended to the
namespace, leaving `.q` appended to what it left. -/
theorem mapStep_glue (L : Lib) (cur : Val) (r q : GoString) (val1 : Handle) (r1 : GoString)
    (hb : balanced r = true) (hd : endsWithDot r = false)
    (h : mapStep L cur r = .ok (val1, r1)) :
    mapStep L cur (r ++ '.' :: q) = .ok (val1, glue r1 q) ∧ balanced r1 = true ∧
      endsWithDot r1 = false := by
  obtain ⟨pre, k, rest, rfl, hbr, hcl, hk, hrest⟩ :=
    balanced_split r hb (mapStep_close_mem L _ _ _ _ h)
  have hdr := endsWithDot_rest pre k rest hd
  have e : pre ++ '[' :: (k ++ ']' :: rest) ++ '.' :: q =
      pre ++ '[' :: (k ++ ']' :: (rest ++ '.' :: q)) := by simp
  rw [mapStep_enclosed L cur pre k rest hbr hcl hk] at h
  rw [e, mapStep_enclosed L cur pre k _ hbr hcl hk, dropDot_glue rest q hdr]
  cases hkt : cur.Type.Key with
  | error p => rw [hkt] at h; simp at h
  | ok kt =>
    rw [hkt] at h
    simp only [] at h ⊢
    cases hx : cur.MapIndex L (decodeKey L kt.Kind k) with
    | error p => rw [hx] at h; simp at h
    | ok x =>
      rw [hx] at h
      simp only [Except.ok.injEq, Prod.mk.injEq] at h
      obtain ⟨rfl, rfl⟩ := h
      exact ⟨rfl, balanced_dropDot rest hrest, endsWithDot_dropDot rest hdr⟩

/-- Fact: a pass that continues does the same with `.q` appended to the namespace, leaving
`.q` appended to what it left, or `q` itself when it left nothing. -/
theorem onePass_glue (L : Lib) (c : Handle) (kind : Kind) (nl : Bool) (r q : GoString)
    (val1 : Handle) (r1 : GoString) (hb : balanced r = true) (hd : endsWithDot r = false)
    (h : onePass L c kind nl r = .inr (val1, r1)) :
    onePass L c kind nl (r ++ '.' :: q) = .inr (val1, glue r1 q) ∧ balanced r1 = true ∧
      endsWithDot r1 = false := by
  have hne : r ++ '.' :: q ≠ [] := by simp
  unfold onePass at h ⊢
  by_cases hk : kind = .Invalid
  · simp [hk] at h
  · by_cases hr : r = []
    · simp [hk, hr] at h
    · simp only [hk, hr, hne, if_false] at h ⊢
      split at h
      · simp at h
      · simp at h
      · split at h
        · rename_i cur hconv
          cases hs : structStep cur r with
          | error p => rw [hs] at h; simp at h
          | ok x =>
            obtain ⟨a, b⟩ := x
            rw [hs] at h
            simp only [Sum.inr.injEq, Prod.mk.injEq] at h
            obtain ⟨rfl, rfl⟩ := h
            obtain ⟨h1, h2, h3⟩ := structStep_glue cur r q _ _ hb hd hs
            simp only [hconv, h1, if_true]
            exact ⟨trivial, h2, h3⟩
        · simp at h
      · rename_i cur
        cases hs : seqStep cur r with
        | error p => rw [hs] at h; simp at h
        | ok x =>
          cases x with
          | none => rw [hs] at h; simp at h
          | some x =>
            obtain ⟨a, b⟩ := x
            rw [hs] at h
            simp only [Sum.inr.injEq, Prod.mk.injEq] at h
            obtain ⟨rfl, rfl⟩ := h
            obtain ⟨h1, h2, h3⟩ := seqStep_glue cur r q _ _ hb hd hs
            simp only [h1]
            exact ⟨trivial, h2, h3⟩
      · rename_i cur
        cases hs : seqStep cur r with
        | error p => rw [hs] at h; simp at h
        | ok x =>
          cases x with
          | none => rw [hs] at h; simp at h
          | some x =>
            obtain ⟨a, b⟩ := x
            rw [hs] at h
            simp only [Sum.inr.injEq, Prod.mk.injEq] at h
            obtain ⟨rfl, rfl⟩ := h
            obtain ⟨h1, h2, h3⟩ := seqStep_glue cur r q _ _ hb hd hs
            simp only [h1]
            exact ⟨trivial, h2, h3⟩
      · rename_i cur
        cases hs : mapStep L cur r with
        | error p => rw [hs] at h; simp at h
        | ok x =>
          obtain ⟨a, b⟩ := x
          rw [hs] at h
          simp only [Sum.inr.injEq, Prod.mk.injEq] at h
          obtain ⟨rfl, rfl⟩ := h
          obtain ⟨h1, h2, h3⟩ := mapStep_glue L cur r q _ _ hb hd hs
          simp only [h1]
          exact ⟨trivial, h2, h3⟩
      · simp at h

/-- Fact: the nullable flag given to a pass is only copied into the result of a pass that
returns. -/
theorem onePass_nullable (L : Lib) (c : Handle) (k : Kind) (m n : Bool) (q : GoString) :
    onePass L c k m q =
      match onePass L c k n q with
      | .inl (.ret a b _ f) => .inl (.ret a b m f)
      | o => o := by
  simp only [onePass]
  by_cases hk : k = .Invalid
  · simp [hk]
  · by_cases hq : q = []
    · simp [hk, hq]
    · simp only [hk, hq, if_false]
      cases k <;> cases c <;> simp only [] <;> try rfl
      all_goals (split <;> try rfl)
      all_goals (split <;> rfl)

/-- Fact: a pass that returns gives back the settled value, its kind and the flag it was
given, and `found = true` exactly when the namespace is empty and the kind is valid. -/
theorem onePass_ret (L : Lib) (c : Handle) (k : Kind) (n : Bool) (ns : GoString)
    (a : Handle) (b : Kind) (d f : Bool) (h : onePass L c k n ns = .inl (.ret a b d f)) :
    a = c ∧ b = k ∧ d = n ∧ (f = true ↔ (ns = [] ∧ k ≠ .Invalid)) := by
  unfold onePass at h
  by_cases hk : k = .Invalid
  · simp only [hk, if_true, Sum.inl.injEq, Outcome.ret.injEq] at h
    obtain ⟨rfl, rfl, rfl, rfl⟩ := h
    simp [hk]
  · by_cases hq : ns = []
    · simp only [hk, hq, if_true, if_false, Sum.inl.injEq, Outcome.ret.injEq] at h
      obtain ⟨rfl, rfl, rfl, rfl⟩ := h
      simp [hk, hq]
    · simp only [hk, hq, if_false] at h
      split at h
      · simp only [Sum.inl.injEq, Outcome.ret.injEq] at h
        obtain ⟨rfl, rfl, rfl, rfl⟩ := h
        simp [hq]
      · simp only [Sum.inl.injEq, Outcome.ret.injEq] at h
        obtain ⟨rfl, rfl, rfl, rfl⟩ := h
        simp [hq]
      · split at h
        · split at h <;> simp at h
        · simp at h
      · split at h
        · simp at h
        · simp only [Sum.inl.injEq, Outcome.ret.injEq] at h
          obtain ⟨rfl, rfl, rfl, rfl⟩ := h
          simp [hq]
        · simp at h
      · split at h
        · simp at h
        · simp only [Sum.inl.injEq, Outcome.ret.injEq] at h
          obtain ⟨rfl, rfl, rfl, rfl⟩ := h
          simp [hq]
        · simp at h
      · split at h <;> simp at h
      · simp at h

theorem stripLayers_idem (x : Val) (n m : Bool) :
    (stripLayers (stripLayers x n).1 m).1 = (stripLayers x n).1 := by
  induction x, n using stripLayers.induct with
  | case1 a e t b ih => simpa [stripLayers] using ih
  | case2 t d b ih => simpa [stripLayers] using ih
  | case3 a e b => simp [stripLayers]
  | case4 t b => simp [stripLayers]
  | case5 x b h1 h2 h3 h4 =>
    cases x <;> simp_all [stripLayers]

theorem ExtractType_fuel (v : validate) (hv : v.noCustom) (f g : Nat) (h : Handle) :
    v.ExtractType f h = v.ExtractType g h := by
  cases h with
  | none => simp [validate.ExtractType, extractTypeInternal]
  | some x =>
    simp only [validate.ExtractType, extractTypeInternal_plain v hv]

/-- Fact: without custom functions, what `ExtractType` returns for a valid value settles to
itself, with the flag on exactly when it is a nil pointer or interface. -/
theorem ExtractType_settled (v : validate) (hv : v.noCustom) (f g : Nat) (val h : Handle)
    (k : Kind) (nl : Bool) (hx : v.ExtractType f val = some (h, k, nl)) (hk : k ≠ .Invalid) :
    v.ExtractType g h = some (h, k, isIndirection k) ∧ (isIndirection k = true → nl = true) := by
  cases val with
  | none =>
    simp [validate.ExtractType, extractTypeInternal] at hx
    exact absurd hx.2.1.symm hk
  | some x =>
    simp only [validate.ExtractType, extractTypeInternal_plain v hv, Option.some.injEq,
      Prod.mk.injEq] at hx
    obtain ⟨rfl, rfl, rfl⟩ := hx
    constructor
    · simp only [validate.ExtractType, extractTypeInternal_plain v hv, stripLayers_idem,
        stripLayers_flag_false]
    · intro hi
      exact (stripLayers_nil_of_indirection x false hi).2

theorem getStructFieldOKInternal_stable (L : Lib) (v : validate) (hv : v.noCustom) (F G : Nat)
    (h : Handle) (ns : GoString) (hF : ns.length + 2 ≤ F) (hG : ns.length + 2 ≤ G) :
    getStructFieldOKInternal L v F h ns = getStructFieldOKInternal L v G h ns := by
  have e := getStructFieldOKInternal_enough L v hv (ns.length + 2) h ns (le_refl _)
  rw [getStructFieldOKInternal_mono L v _ F h ns hF e,
    getStructFieldOKInternal_mono L v _ G h ns hG e]

theorem getStructFieldOKInternal_of_result (L : Lib) (v : validate) (hv : v.noCustom) (f F : Nat)
    (h : Handle) (ns : GoString) (o : Outcome) (ho : getStructFieldOKInternal L v f h ns = o)
    (hne : o ≠ .outOfFuel) (hF : ns.length + 2 ≤ F) :
    getStructFieldOKInternal L v F h ns = o := by
  rcases Nat.le_total f F with hle | hle
  · rw [getStructFieldOKInternal_mono L v f F h ns hle (by rw [ho]; exact hne), ho]
  · rw [← ho]
    exact (getStructFieldOKInternal_mono L v F f h ns hle
      (getStructFieldOKInternal_enough L v hv F h ns hF)).symm

/-- Fact: without custom functions and with enough fuel, a call is one pass on the settled
value, followed by the call on what the pass left. -/
theorem getStructFieldOKInternal_pass (L : Lib) (v : validate) (hv : v.noCustom) (f0 F : Nat)
    (val : Handle) (ns : GoString) (c : Handle) (k : Kind) (n : Bool)
    (hx : v.ExtractType f0 val = some (c, k, n)) (hF : ns.length + 2 ≤ F) :
    getStructFieldOKInternal L v F val ns =
      match onePass L c k n ns with
      | .inl o => o
      | .inr (val1, ns1) => getStructFieldOKInternal L v (ns1.length + 2) val1 ns1 := by
  obtain ⟨g, rfl⟩ : ∃ g, F = g + 1 := ⟨F - 1, by omega⟩
  rw [getStructFieldOKInternal_succ, ExtractType_fuel v hv g f0 val, hx]
  simp only []
  cases hp : onePass L c k n ns with
  | inl o => rfl
  | inr x =>
    obtain ⟨val1, ns1⟩ := x
    simp only []
    rcases onePass_progress L c k n ns val1 ns1 hp with hlt | hnone
    · exact getStructFieldOKInternal_stable L v hv _ _ val1 ns1 (by omega) (le_refl _)
    · subst hnone
      obtain ⟨g1, rfl⟩ : ∃ g1, g = g1 + 1 := ⟨g - 1, by omega⟩
      rw [getStructFieldOKInternal_zero_value, getStructFieldOKInternal_zero_value]

/-- Fact: without custom functions, when the call on `r` finds a value, the call on `r`
followed by `.q` is the call on `q` from the value of the last pass of the call on `r`. -/
theorem getStructFieldOKInternal_glue (L : Lib) (v : validate) (hv : v.noCustom) (q : GoString)
    (h : Handle) (k : Kind) (nl : Bool) :
    ∀ (n : Nat) (r : GoString) (val : Handle), r.length ≤ n → balanced r = true →
      endsWithDot r = false →
      getStructFieldOKInternal L v (r.length + 2) val r = .ret h k nl true →
      ∃ vlast, v.ExtractType 0 vlast = some (h, k, nl) ∧ k ≠ .Invalid ∧
        getStructFieldOKInternal L v ((glue r q).length + 2) val (glue r q) =
          getStructFieldOKInternal L v (q.length + 2) vlast q := by
  intro n
  induction n with
  | zero =>
    intro r val hlen _ _ hrun
    have hr : r = [] := List.length_eq_zero.1 (by omega)
    subst hr
    obtain ⟨x, hx⟩ := ExtractType_plain v hv 0 val false
    obtain ⟨c, kd, m⟩ := x
    have hx1 : v.ExtractType 0 val = some (c, kd, m) := hx
    rw [getStructFieldOKInternal_pass L v hv 0 _ val [] c kd m hx1 (le_refl _)] at hrun
    cases hp : onePass L c kd m [] with
    | inl o =>
      rw [hp] at hrun
      simp only [] at hrun
      subst hrun
      obtain ⟨rfl, rfl, rfl, hf⟩ := onePass_ret L c kd m [] _ _ _ _ hp
      exact ⟨val, hx1, (hf.1 rfl).2, by rw [glue_nil]⟩
    | inr x =>
      have := onePass_progress L c kd m [] x.1 x.2 hp
      rcases this with hlt | hnone
      · simp at hlt
      · obtain ⟨val1, ns1⟩ := x
        simp only [] at hnone
        subst hnone
        rw [hp] at hrun
        simp only [] at hrun
        rw [getStructFieldOKInternal_zero_value] at hrun
        simp at hrun
  | succ n ih =>
    intro r val hlen hb hd hrun
    by_cases hr : r = []
    · subst hr
      exact ih [] val (by simp) hb hd hrun
    · obtain ⟨x, hx⟩ := ExtractType_plain v hv 0 val false
      obtain ⟨c, kd, m⟩ := x
      have hx1 : v.ExtractType 0 val = some (c, kd, m) := hx
      rw [getStructFieldOKInternal_pass L v hv 0 _ val r c kd m hx1 (le_refl _)] at hrun
      cases hp : onePass L c kd m r with
      | inl o =>
        rw [hp] at hrun
        simp only [] at hrun
        subst hrun
        obtain ⟨_, _, _, hf⟩ := onePass_ret L c kd m r _ _ _ _ hp
        exact absurd (hf.1 rfl).1 hr
      | inr x =>
        obtain ⟨val1, r1⟩ := x
        rw [hp] at hrun
        simp only [] at hrun
        obtain ⟨hg, hb1, hd1⟩ := onePass_glue L c kd m r q val1 r1 hb hd hp
        have hlt : r1.length ≤ n := by
          rcases onePass_progress L c kd m r val1 r1 hp with hlt | hnone
          · omega
          · subst hnone
            rw [getStructFieldOKInternal_zero_value] at hrun
            simp at hrun
        obtain ⟨vlast, hv1, hk, hrest⟩ := ih r1 val1 hlt hb1 hd1 hrun
        refine ⟨vlast, hv1, hk, ?_⟩
        rw [glue_of_ne r q hr,
          getStructFieldOKInternal_pass L v hv 0 _ val _ c kd m hx1 (le_refl _), hg]
        exact hrest

/-- C20 (amended): without custom functions, let `p` be a non-empty namespace with each
indexed segment written with both brackets and not ending in `.`, on which
`getStructFieldOKInternal` from `root` returns `found = true` with handle `h`, kind `k` and
nullable `nl`, and let `q` be a non-empty namespace.  Then the call on `p ++ "." ++ q` from
`root` returns or panics, and its outcome is the outcome of the call on `q` from `h`, with one
exception: when the call on `q` misses at `h` itself, a value reached through a pointer or
an interface (`nl = true`), it returns `h`, `k`, nullable false and `found = false`, while
the composed call returns `h`, `k`, nullable true and `found = false`.  Every fuel from the
length of the namespace plus two on gives these outcomes. -/
theorem C20_resolution_composes (L : Lib) (v : validate) (hv : v.noCustom) (root : Handle)
    (p q : GoString) (h : Handle) (k : Kind) (nl : Bool) (fuel : Nat)
    (hp : p ≠ []) (hb : balanced p = true) (hd : endsWithDot p = false) (hq : q ≠ [])
    (hrun : getStructFieldOKInternal L v fuel root p = .ret h k nl true)
    (F G : Nat) (hF : (p ++ '.' :: q).length + 2 ≤ F) (hG : q.length + 2 ≤ G) :
    getStructFieldOKInternal L v F root (p ++ '.' :: q) ≠ .outOfFuel ∧
    (getStructFieldOKInternal L v F root (p ++ '.' :: q) = getStructFieldOKInternal L v G h q ∨
      (nl = true ∧ getStructFieldOKInternal L v G h q = .ret h k false false ∧
        getStructFieldOKInternal L v F root (p ++ '.' :: q) = .ret h k true false)) := by
  refine ⟨getStructFieldOKInternal_enough L v hv F root _ hF, ?_⟩
  have hrun1 := getStructFieldOKInternal_of_result L v hv fuel (p.length + 2) root p _ hrun
    (by simp) (le_refl _)
  obtain ⟨vlast, hx, hk, hfull⟩ :=
    getStructFieldOKInternal_glue L v hv q h k nl p.length p root (le_refl _) hb hd hrun1
  rw [glue_of_ne p q hp] at hfull
  obtain ⟨hs, hind⟩ := ExtractType_settled v hv 0 0 vlast h k nl hx hk
  rw [getStructFieldOKInternal_stable L v hv F _ root _ hF (le_refl _), hfull,
    getStructFieldOKInternal_pass L v hv 0 _ vlast q h k nl hx (le_refl _),
    getStructFieldOKInternal_pass L v hv 0 G h q h k _ hs hG]
  by_cases hi : isIndirection k = true
  · rw [hi, hind hi]
    exact Or.inl rfl
  · have hi0 : isIndirection k = false := by simpa using hi
    rw [hi0, onePass_nullable L h k nl false q]
    cases hpass : onePass L h k false q with
    | inr x => exact Or.inl rfl
    | inl o =>
      cases o with
      | panic e => exact Or.inl rfl
      | outOfFuel => exact Or.inl rfl
      | ret a b d f =>
        obtain ⟨rfl, rfl, rfl, hf⟩ := onePass_ret L _ _ _ q _ _ _ _ hpass
        have hf0 : f = false := by
          cases f with
          | false => rfl
          | true => exact absurd (hf.1 rfl).1 hq
        subst hf0
        cases nl with
        | false => exact Or.inl rfl
        | true => exact Or.inr ⟨rfl, rfl, rfl⟩

/-- C20 (amended) at the record `{A: &[]int{1, 2}}` with `p = A` and `q = [1]`: both
calls return the element 2. -/
theorem C20_resolution_composes_witness :
    plainValidate.noCustom ∧ "A".toList ≠ [] ∧ balanced "A".toList = true ∧
    endsWithDot "A".toList = false ∧ "[1]".toList ≠ [] ∧
    getStructFieldOKInternal plainLib plainValidate 3 (some exampleRecordOfSlicePointer)
      "A".toList = .ret (some exampleSlice) .Slice true true ∧
    ("A".toList ++ '.' :: "[1]".toList).length + 2 ≤ 7 ∧ "[1]".toList.length + 2 ≤ 5 ∧
    getStructFieldOKInternal plainLib plainValidate 7 (some exampleRecordOfSlicePointer)
      ("A".toList ++ '.' :: "[1]".toList) ≠ .outOfFuel ∧
    (getStructFieldOKInternal plainLib plainValidate 7 (some exampleRecordOfSlicePointer)
        ("A".toList ++ '.' :: "[1]".toList) =
      getStructFieldOKInternal plainLib plainValidate 5 (some exampleSlice) "[1]".toList ∨
      (true = true ∧
        getStructFieldOKInternal plainLib plainValidate 5 (some exampleSlice) "[1]".toList =
          .ret (some exampleSlice) .Slice false false ∧
        getStructFieldOKInternal plainLib plainValidate 7 (some exampleRecordOfSlicePointer)
          ("A".toList ++ '.' :: "[1]".toList) = .ret (some exampleSlice) .Slice true false)) :=
  ⟨Or.inl rfl, by decide, by decide, by decide, by decide, rfl, by decide, by decide,
    C20_resolution_composes plainLib plainValidate (Or.inl rfl)
      (some exampleRecordOfSlicePointer) "A".toList "[1]".toList (some exampleSlice) .Slice true 3
      (by decide) (by decide) (by decide) (by decide) rfl 7 5 (by decide) (by decide)⟩

/-- C20 as stated fails on the nullable result: in the record `{A: &[]int{1, 2}}` the
namespace `A` is found with the slice behind the pointer as handle; the namespace `A.[5]`
from the record misses with nullable true, and the namespace `[5]` from that handle misses
with nullable false. -/
theorem C20_counterexample :
    plainValidate.noCustom ∧ balanced "A".toList = true ∧ endsWithDot "A".toList = false ∧
    getStructFieldOKInternal plainLib plainValidate 10 (some exampleRecordOfSlicePointer)
      "A".toList = .ret (some exampleSlice) .Slice true true ∧
    getStructFieldOKInternal plainLib plainValidate 10 (some exampleRecordOfSlicePointer)
      ("A".toList ++ ".".toList ++ "[5]".toList) = .ret (some exampleSlice) .Slice true false ∧
    getStructFieldOKInternal plainLib plainValidate 10 (some exampleSlice) "[5]".toList =
      .ret (some exampleSlice) .Slice false false :=
  ⟨Or.inl rfl, by decide, by decide, rfl, rfl, rfl⟩

/-! ### The namespace resolver: the nullable flag on every namespace -/

theorem onePass_nil (L : Lib) (c : Handle) (k : Kind) (n : Bool) :
    ∃ o, onePass L c k n [] = .inl o := by
  unfold onePass
  by_cases hk : k = .Invalid
  · exact ⟨.ret c k n false, by simp [hk]⟩
  · exact ⟨.ret c k n true, by simp [hk]⟩

theorem ExtractType_unique (v : validate) (f g : Nat) (val : Handle)
    (r s : Handle × Kind × Bool) (hr : v.ExtractType f val = some r)
    (hs : v.ExtractType g val = some s) : r = s := by
  have h1 := extractTypeInternal_mono v f (max f g) val false r hr (le_max_left _ _)
  have h2 := extractTypeInternal_mono v g (max f g) val false s hs (le_max_right _ _)
  rw [h1] at h2
  exact Option.some.inj h2

/-- Fact: the value at which the passes use up a namespace is unique. -/
theorem Reaches_unique (L : Lib) (v : validate) (val : Handle) (ns : GoString) (w w1 : Handle)
    (h : Reaches L v val ns w) (h1 : Reaches L v val ns w1) : w1 = w := by
  induction h with
  | done val =>
    cases h1 with
    | done => rfl
    | pass f _ _ c k n val1 ns1 _ hx hp hr =>
      obtain ⟨o, ho⟩ := onePass_nil L c k n
      rw [ho] at hp
      cases hp
  | pass f val ns c k n val1 ns1 w hx hp hr ih =>
    cases h1 with
    | done =>
      obtain ⟨o, ho⟩ := onePass_nil L c k n
      rw [ho] at hp
      cases hp
    | pass f1 _ _ c1 k1 n1 val2 ns2 _ hx1 hp1 hr1 =>
      have e := ExtractType_unique v f f1 val _ _ hx hx1
      simp only [Prod.mk.injEq] at e
      obtain ⟨rfl, rfl, rfl⟩ := e
      rw [hp] at hp1
      simp only [Sum.inr.injEq, Prod.mk.injEq] at hp1
      obtain ⟨rfl, rfl⟩ := hp1
      exact ih hr1

/-- Fact: a call that returns `found = true` has used up the namespace at a valid value, and
returns what `ExtractType` gives for that value. -/
theorem getStructFieldOKInternal_last (L : Lib) (v : validate) (h : Handle) (k : Kind)
    (nl : Bool) :
    ∀ (fuel : Nat) (root : Handle) (ns : GoString),
      getStructFieldOKInternal L v fuel root ns = .ret h k nl true →
      ∃ w : Val, Reaches L v root ns (some w) ∧ v.ExtractType fuel (some w) = some (h, k, nl) := by
  intro fuel
  induction fuel with
  | zero =>
    intro root ns hrun
    simp [getStructFieldOKInternal] at hrun
  | succ f ih =>
    intro root ns hrun
    rw [getStructFieldOKInternal_succ] at hrun
    cases hx : v.ExtractType f root with
    | none => rw [hx] at hrun; simp at hrun
    | some r =>
      obtain ⟨c, kd, n⟩ := r
      rw [hx] at hrun
      simp only [] at hrun
      cases hp : onePass L c kd n ns with
      | inl o =>
        rw [hp] at hrun
        simp only [] at hrun
        subst hrun
        obtain ⟨rfl, rfl, rfl, hf⟩ := onePass_ret L c kd n ns _ _ _ _ hp
        obtain ⟨rfl, hk⟩ := hf.1 rfl
        cases root with
        | none =>
          simp [validate.ExtractType, extractTypeInternal] at hx
          exact absurd hx.2.1.symm hk
        | some w =>
          exact ⟨w, Reaches.done _, extractTypeInternal_mono v f (f + 1) _ false _ hx (by omega)⟩
      | inr x =>
        obtain ⟨val1, ns1⟩ := x
        rw [hp] at hrun
        simp only [] at hrun
        obtain ⟨w, hw, he⟩ := ih val1 ns1 hrun
        exact ⟨w, Reaches.pass f root ns c kd n val1 ns1 _ hx hp hw,
          extractTypeInternal_mono v f (f + 1) _ false _ he (by omega)⟩

/-- C16 (amended): for every root value and every namespace on which
`getStructFieldOKInternal` returns `found = true`, the passes use up the namespace at one
valid value `w` (the root when the namespace is empty, otherwise the field value, element
or map entry selected by the last pass), and the returned handle, kind and nullable flag
are what `ExtractType`, which starts from nullable false, gives for `w` alone.  Without
custom functions the flag is therefore true exactly when `w` is itself a pointer or an
interface, and the handle is `w` under its non-nil layers; pointer and interface layers
entered earlier on the path do not set the flag. -/
theorem C16_nullable_is_of_last_value (L : Lib) (v : validate) (root : Handle) (ns : GoString)
    (fuel : Nat) (h : Handle) (k : Kind) (nl : Bool)
    (hrun : getStructFieldOKInternal L v fuel root ns = .ret h k nl true) :
    ∃ w : Val, Reaches L v root ns (some w) ∧ (∀ w1, Reaches L v root ns w1 → w1 = some w) ∧
      v.ExtractType fuel (some w) = some (h, k, nl) ∧
      (v.noCustom → nl = isIndirection w.Kind ∧ h = some (stripLayers w false).1 ∧
        k = (stripLayers w false).1.Kind) := by
  obtain ⟨w, hw, he⟩ := getStructFieldOKInternal_last L v h k nl fuel root ns hrun
  refine ⟨w, hw, fun w1 h1 => Reaches_unique L v root ns _ _ hw h1, he, ?_⟩
  intro hv
  simp only [validate.ExtractType, extractTypeInternal_plain v hv, Option.some.injEq,
    Prod.mk.injEq] at he
  obtain ⟨rfl, rfl, rfl⟩ := he
  exact ⟨stripLayers_flag_false w, rfl, rfl⟩

/-- C16 (amended) at five inputs: a pointer to the record `{X: 5}` with the namespace `X`
(the value reached is the `int` 5, flag off); the record `{A: &[]int{1, 2}}` with `A[1]`
(the element 2, flag off) and with `A` (the pointer stored in the field, flag on); the
slice `[]*int{&1}` with `[0]` (the pointer stored in the slice, flag on); and a pointer to
a record with the empty namespace (the pointer itself, flag on). -/
theorem C16_nullable_is_of_last_value_witness :
    (getStructFieldOKInternal plainLib plainValidate 2 (some examplePointerToRecord) "X".toList =
        .ret (some (.scalar none .Int (.int 5))) .Int false true ∧
      Reaches plainLib plainValidate (some examplePointerToRecord) "X".toList
        (some (.scalar none .Int (.int 5))) ∧
      ∃ w : Val, Reaches plainLib plainValidate (some examplePointerToRecord) "X".toList (some w) ∧
        (∀ w1, Reaches plainLib plainValidate (some examplePointerToRecord) "X".toList w1 →
          w1 = some w) ∧
        plainValidate.ExtractType 2 (some w) = some (some (.scalar none .Int (.int 5)), .Int, false) ∧
        (plainValidate.noCustom → false = isIndirection w.Kind ∧
          some (.scalar none .Int (.int 5)) = some (stripLayers w false).1 ∧
          Kind.Int = (stripLayers w false).1.Kind)) ∧
    (getStructFieldOKInternal plainLib plainValidate 3 (some exampleRecordOfSlicePointer)
        "A[1]".toList = .ret (some (.scalar none .Int (.int 2))) .Int false true ∧
      Reaches plainLib plainValidate (some exampleRecordOfSlicePointer) "A[1]".toList
        (some (.scalar none .Int (.int 2)))) ∧
    (getStructFieldOKInternal plainLib plainValidate 3 (some exampleRecordOfSlicePointer)
        "A".toList = .ret (some exampleSlice) .Slice true true ∧
      Reaches plainLib plainValidate (some exampleRecordOfSlicePointer) "A".toList
        (some (.ptr none (.slice (.basic .Int)) exampleSlice))) ∧
    (getStructFieldOKInternal plainLib plainValidate 2 (some exampleSliceOfPointers)
        "[0]".toList = .ret (some (.scalar none .Int (.int 1))) .Int true true ∧
      Reaches plainLib plainValidate (some exampleSliceOfPointers) "[0]".toList
        (some (.ptr none (.basic .Int) (.scalar none .Int (.int 1))))) ∧
    (getStructFieldOKInternal plainLib plainValidate 1 (some examplePointerToRecord) [] =
        .ret (some (.struct "T".toList false [("X".toList, .scalar none .Int (.int 5))]))
          .Struct true true ∧
      Reaches plainLib plainValidate (some examplePointerToRecord) []
        (some examplePointerToRecord)) :=
  ⟨⟨rfl, Reaches.pass 0 _ _ _ _ _ _ _ _ rfl rfl (Reaches.done _),
      C16_nullable_is_of_last_value plainLib plainValidate (some examplePointerToRecord)
        "X".toList 2 (some (.scalar none .Int (.int 5))) .Int false rfl⟩,
    ⟨rfl, Reaches.pass 0 _ _ _ _ _ _ _ _ rfl rfl
      (Reaches.pass 0 _ _ _ _ _ _ _ _ rfl rfl (Reaches.done _))⟩,
    ⟨rfl, Reaches.pass 0 _ _ _ _ _ _ _ _ rfl rfl (Reaches.done _)⟩,
    ⟨rfl, Reaches.pass 0 _ _ _ _ _ _ _ _ rfl rfl (Reaches.done _)⟩,
    ⟨rfl, Reaches.done _⟩⟩

end Validator
